import Mathlib

/-!
# Simox: joint limits, collision-detection manager and constrained-optimization IK

A shallow embedding of

* `VirtualRobot/Model/Nodes/ModelJoint.cpp` (joint value writes),
* `VirtualRobot/CollisionDetection/CDManager.cpp` (bookkeeping of collision models),
* `VirtualRobot/IK/ConstrainedOptimizationIK.cpp` (multi-seed IK solver),

followed by the properties proved about them.
-/

namespace VirtualRobot

/-! ## Floating-point values

The code only compares, assigns and forwards `float`/`double` values in the parts
embedded here.  A value is NaN, one of the two infinities, or finite; a finite value
is represented by the rational number it denotes (so `-0.0` and `+0.0` coincide, as
they do for `<`, `>` and `==`). -/

/-- An IEEE-754 value. -/
inductive Flt where
  | nan : Flt
  | ninf : Flt
  | fin (v : ℚ) : Flt
  | pinf : Flt
deriving DecidableEq

namespace Flt

/-- The C++ built-in `a < b` on floating-point values (false when either side is NaN). -/
def lt : Flt → Flt → Bool
  | nan, _ => false
  | _, nan => false
  | ninf, ninf => false
  | ninf, _ => true
  | fin _, ninf => false
  | fin a, fin b => decide (a < b)
  | fin _, pinf => true
  | pinf, _ => false

/-- The C++ built-in `a > b`. -/
def gt (a b : Flt) : Bool := lt b a

/-- The C++ built-in `a <= b` (false when either side is NaN). -/
def le : Flt → Flt → Bool
  | nan, _ => false
  | _, nan => false
  | ninf, _ => true
  | fin _, ninf => false
  | fin a, fin b => decide (a ≤ b)
  | fin _, pinf => true
  | pinf, pinf => true
  | pinf, _ => false

/-- The C++ built-in `a != b` (true when either side is NaN). -/
def ne : Flt → Flt → Bool
  | nan, _ => true
  | _, nan => true
  | a, b => decide (a ≠ b)

/-- Function `std::isnan`. -/
def isnan : Flt → Bool
  | nan => true
  | _ => false

/-- Function `std::isinf`. -/
def isinf : Flt → Bool
  | ninf => true
  | pinf => true
  | _ => false

/-- A finite value: neither NaN nor infinite. -/
def isFinite (q : Flt) : Bool := !q.isnan && !q.isinf

/-- Function `std::max(a, b)`, defined as `(a < b) ? b : a`. -/
def max (a b : Flt) : Flt := if lt a b then b else a

/-- Function `std::min(a, b)`, defined as `(b < a) ? b : a`. -/
def min (a b : Flt) : Flt := if lt b a then b else a

end Flt

/-! ## Failures -/

/-- The two ways a call can fail to return normally. -/
inductive Failure where
  /-- A `BOOST_ASSERT`/`assert` failed (only possible when `NDEBUG` is not defined). -/
  | assertion : Failure
  /-- A `VirtualRobotException` was thrown (`THROW_VR_EXCEPTION`). -/
  | exception (msg : String) : Failure
deriving DecidableEq

/-- Macro `VR_ASSERT_MESSAGE(a, b)` / `VR_ASSERT(a)` of `VirtualRobot.h`: empty when
`NDEBUG` is defined, `BOOST_ASSERT(a)` otherwise. -/
def VR_ASSERT (ndebug : Bool) (a : Bool) : Except Failure Unit :=
  if ndebug then .ok () else if a then .ok () else .error Failure.assertion

/-! ## ModelJoint -/

/-- The data members of `ModelJoint` (the members inherited from `ModelNode` are poses
and tree links, which the functions embedded here do not read or assign). -/
structure ModelJoint where
  (jointValue : Flt)
  (jointValueOffset : Flt)
  (jointLimitLo : Flt)
  (jointLimitHi : Flt)
  (maxVelocity : Flt)
  (maxAcceleration : Flt)
  (maxTorque : Flt)
  (propagatedJointValues : List (String × Flt))
deriving DecidableEq

namespace ModelJoint

/-- Constructor `ModelJoint::ModelJoint`. -/
def new (jointLimitLo jointLimitHi jointValueOffset : Flt) : ModelJoint :=
  { jointValue := Flt.fin 0
    jointValueOffset := jointValueOffset
    jointLimitLo := jointLimitLo
    jointLimitHi := jointLimitHi
    maxVelocity := Flt.fin (-1)
    maxAcceleration := Flt.fin (-1)
    maxTorque := Flt.fin (-1)
    propagatedJointValues := [] }

/-- Method `ModelJoint::respectJointLimits`, returning the new content of the reference
parameter. -/
def respectJointLimits (j : ModelJoint) (jointValue : Flt) : Flt :=
  let jointValue := if Flt.lt jointValue j.jointLimitLo then j.jointLimitLo else jointValue
  let jointValue := if Flt.gt jointValue j.jointLimitHi then j.jointLimitHi else jointValue
  jointValue

/-- Method `ModelJoint::setJointValueNoUpdate`; `ndebug` tells whether the build
defines `NDEBUG`. -/
def setJointValueNoUpdate (ndebug : Bool) (j : ModelJoint) (q : Flt) : Except Failure ModelJoint := do
  VR_ASSERT ndebug (!q.isnan && !q.isinf)
  let q := j.respectJointLimits q
  pure { j with jointValue := q }

/-- Method `ModelJoint::setJointValueNoUpdate` with the members of the joint at the end
of the call, also when the call ends at the assertion, and the way the call ends. -/
def setJointValueNoUpdateExit (ndebug : Bool) (j : ModelJoint) (q : Flt) :
    ModelJoint × Except Failure Unit :=
  match VR_ASSERT ndebug (!q.isnan && !q.isinf) with
  | .error e => (j, .error e)
  | .ok _ =>
    let q := j.respectJointLimits q
    ({ j with jointValue := q }, .ok ())

/-- Method `ModelJoint::getJointValue`. -/
def getJointValue (j : ModelJoint) : Flt := j.jointValue

/-- Method `ModelJoint::setJointLimits`. -/
def setJointLimits (j : ModelJoint) (lo hi : Flt) : ModelJoint :=
  { j with jointLimitHi := hi, jointLimitLo := lo }

end ModelJoint

/-- A call of one of the two methods that change the value or the limits of a joint. -/
inductive JointOp where
  | setJointValue (q : Flt) : JointOp
  | setJointLimits (lo hi : Flt) : JointOp

/-- The effect of one call on a joint that holds no coupling entries, as the constructor
makes it (neither call adds an entry): the loop of `updatePoseInternally` has no entry to
hand the value to, so that `setJointValue(q)` changes the joint as
`setJointValueNoUpdate(q)` does. -/
def ModelJoint.step (ndebug : Bool) (j : ModelJoint) : JointOp → Except Failure ModelJoint
  | JointOp.setJointValue q => j.setJointValueNoUpdate ndebug q
  | JointOp.setJointLimits lo hi => .ok (j.setJointLimits lo hi)

/-- The effect of a sequence of calls on a joint. -/
def ModelJoint.runOps (ndebug : Bool) : ModelJoint → List JointOp → Except Failure ModelJoint
  | j, [] => .ok j
  | j, op :: ops =>
    match j.step ndebug op with
    | .error e => .error e
    | .ok j1 => ModelJoint.runOps ndebug j1 ops

/-- The stored joint value lies within the current limits: `lower <= value <= upper`. -/
def ModelJoint.valueWithinLimits (j : ModelJoint) : Bool :=
  Flt.le j.jointLimitLo j.jointValue && Flt.le j.jointValue j.jointLimitHi

/-- A sequence of calls in which every `setJointValue` has a finite argument and every
`setJointLimits` is given limits that contain the value stored at that moment. -/
def ModelJoint.limitsKeepValue (ndebug : Bool) : ModelJoint → List JointOp → Bool
  | _, [] => true
  | j, JointOp.setJointValue q :: ops =>
    q.isFinite &&
      match j.setJointValueNoUpdate ndebug q with
      | .ok j1 => ModelJoint.limitsKeepValue ndebug j1 ops
      | .error _ => true
  | j, JointOp.setJointLimits lo hi :: ops =>
    Flt.le lo j.jointValue && Flt.le j.jointValue hi &&
      ModelJoint.limitsKeepValue ndebug (j.setJointLimits lo hi) ops

/-- The arguments of a call of `setJointValue` or `setJointLimits` are finite. -/
def JointOp.finiteArgs : JointOp → Bool
  | JointOp.setJointValue q => q.isFinite
  | JointOp.setJointLimits lo hi => lo.isFinite && hi.isFinite

/-- A joint without its value: the members that a write of the value does not touch. -/
def ModelJoint.frame (j : ModelJoint) : ModelJoint := { j with jointValue := Flt.fin 0 }

/-- The value `1.57f`: the single-precision number nearest to 1.57. -/
def f1_57 : Flt := Flt.fin (13170115 / 8388608)

/-! ## CDManager

Shared pointers are addresses: a `LinkSetPtr` or `ModelNodePtr` is a natural number and
`0` is the null pointer.  The `LinkSet` objects themselves are immutable and live in a
heap that maps the address of a set to the addresses of its nodes. -/

/-- A `LinkSetPtr`: the address of a `LinkSet`, `0` for the null pointer. -/
abbrev LinkSetPtr := Nat

/-- A `ModelNodePtr`. -/
abbrev ModelNodePtr := Nat

/-- The `LinkSet` objects: for the address of a set, its nodes in order. -/
abbrev LinkSetHeap := LinkSetPtr → List ModelNodePtr

/-- Method `LinkSet::getSize` through a pointer. -/
def getSize (heap : LinkSetHeap) (m : LinkSetPtr) : Nat := (heap m).length

/-- Method `LinkSet::getNode(0)` through a pointer (the null node when the set is empty). -/
def getNode0 (heap : LinkSetHeap) (m : LinkSetPtr) : ModelNodePtr := (heap m).headD 0

/-- An `Eigen::Vector3f`. -/
abbrev Vector3f := Flt × Flt × Flt

/-- The four output parameters `P1, P2, trID1, trID2` of the contact-point queries. -/
structure Contact where
  (P1 : Vector3f)
  (P2 : Vector3f)
  (trID1 : Int)
  (trID2 : Int)

/-- The collision checker, an external service: for two link sets in their current
poses it tells whether they collide and how far apart they are. -/
structure CollisionChecker where
  (checkCollision : LinkSetPtr → LinkSetPtr → Bool)
  (calculateDistance : LinkSetPtr → LinkSetPtr → Flt)
  (calculateDistanceContact : LinkSetPtr → LinkSetPtr → Flt × Contact)

/-- The constant `FLT_MAX` of `<float.h>`. -/
def FLT_MAX : Flt := Flt.fin 340282346638528859811704183484516925440

/-- The data members of `CDManager`.  `colModelPairs` is a `std::map`, kept as the
list of its entries in key order. -/
structure CDManager where
  (colChecker : Option CollisionChecker)
  (colModels : List LinkSetPtr)
  (colModelPairs : List (LinkSetPtr × List LinkSetPtr))

/-- The statement `map[k].push_back(v)` on a `std::map` given by its entries in key order. -/
def mapPushBack (k v : LinkSetPtr) : List (LinkSetPtr × List LinkSetPtr) → List (LinkSetPtr × List LinkSetPtr)
  | [] => [(k, [v])]
  | (k0, vs) :: rest =>
    if k < k0 then (k, [v]) :: (k0, vs) :: rest
    else if k = k0 then (k0, vs ++ [v]) :: rest
    else (k0, vs) :: mapPushBack k v rest

namespace CDManager

/-- Constructor `CDManager::CDManager`; `globalChecker` is what
`CollisionChecker::getGlobalCollisionChecker()` returns. -/
def new (colChecker globalChecker : Option CollisionChecker) : CDManager :=
  { colChecker := match colChecker with
      | none => globalChecker
      | some c => some c
    colModels := []
    colModelPairs := [] }

/-- Method `CDManager::_hasSceneObjectSet`. -/
def _hasSceneObjectSet (heap : LinkSetHeap) (cd : CDManager) (m : LinkSetPtr) : Bool :=
  go cd.colModels
where
  /-- The loop over `colModels`. -/
  go : List LinkSetPtr → Bool
    | [] => false
    | c :: rest =>
      if c = m then true
      else if getSize heap m = 1 ∧ getSize heap c = 1 ∧ getNode0 heap c = getNode0 heap m then true
      else go rest

/-- Method `CDManager::hasSceneObjectSet`. -/
def hasSceneObjectSet (cd : CDManager) (m : LinkSetPtr) : Bool :=
  cd.colModels.any (fun c => decide (c = m))

/-- Method `CDManager::addCollisionModelPair(LinkSetPtr, LinkSetPtr)`. -/
def addCollisionModelPair (heap : LinkSetHeap) (cd : CDManager) (m1 m2 : LinkSetPtr) : CDManager :=
  if m1 = 0 ∨ m2 = 0 then cd
  else
    let cd := if !(_hasSceneObjectSet heap cd m1) then { cd with colModels := cd.colModels ++ [m1] } else cd
    let cd := if !(_hasSceneObjectSet heap cd m2) then { cd with colModels := cd.colModels ++ [m2] } else cd
    { cd with colModelPairs := mapPushBack m1 m2 cd.colModelPairs }

/-- The `for` loop of `CDManager::addCollisionModel(LinkSetPtr)`, started at index `i`.
The bound `colModels.size()` is read again in every round; `fuel` bounds the number
of rounds and `none` means that it ran out. -/
def addCollisionModelLoop (heap : LinkSetHeap) (m : LinkSetPtr) : Nat → Nat → CDManager → Option CDManager
  | 0, _, _ => none
  | fuel + 1, i, cd =>
    if h : i < cd.colModels.length then
      let c := cd.colModels.get ⟨i, h⟩
      let cd := if m ≠ c then addCollisionModelPair heap cd c m else cd
      addCollisionModelLoop heap m fuel (i + 1) cd
    else some cd

/-- Method `CDManager::addCollisionModel(LinkSetPtr)`. -/
def addCollisionModel (heap : LinkSetHeap) (cd : CDManager) (m : LinkSetPtr) : Option CDManager :=
  if m ≠ 0 then
    match addCollisionModelLoop heap m (cd.colModels.length + 2) 0 cd with
    | none => none
    | some cd =>
      if !(_hasSceneObjectSet heap cd m) then some { cd with colModels := cd.colModels ++ [m] }
      else some cd
  else some cd

/-- Method `CDManager::isInCollision(LinkSetPtr, std::vector<LinkSetPtr>&)`; the caller
has checked that there is a checker. -/
def isInCollisionSets (c : CollisionChecker) (m : LinkSetPtr) : List LinkSetPtr → Bool
  | [] => false
  | s :: sets => if c.checkCollision m s then true else isInCollisionSets c m sets

/-- The `while` loop of `CDManager::isInCollision()` over the entries of the map. -/
def isInCollisionLoop (c : CollisionChecker) : List (LinkSetPtr × List LinkSetPtr) → Bool
  | [] => false
  | (k, sets) :: rest => if isInCollisionSets c k sets then true else isInCollisionLoop c rest

/-- Method `CDManager::isInCollision()`. -/
def isInCollision (cd : CDManager) : Bool :=
  match cd.colChecker with
  | none => false
  | some c => isInCollisionLoop c cd.colModelPairs

/-- Method `CDManager::isInCollision(LinkSetPtr)`. -/
def isInCollisionSet (cd : CDManager) (m : LinkSetPtr) : Bool :=
  match cd.colChecker with
  | none => false
  | some c =>
    if m = 0 then false
    else go c cd.colModels
where
  /-- The loop over `colModels`. -/
  go (c : CollisionChecker) : List LinkSetPtr → Bool
    | [] => false
    | x :: rest => if m ≠ x ∧ c.checkCollision x m then true else go c rest

/-- Method `CDManager::getDistance(LinkSetPtr)`. -/
def getDistanceSet (cd : CDManager) (m : LinkSetPtr) : Flt :=
  match cd.colChecker with
  | none => Flt.fin 0
  | some c =>
    if m = 0 then Flt.fin 0
    else go c cd.colModels FLT_MAX
where
  /-- The loop over `colModels`, carrying `minDist`. -/
  go (c : CollisionChecker) : List LinkSetPtr → Flt → Flt
    | [], minDist => minDist
    | x :: rest, minDist =>
      if m ≠ x then
        let tmp := c.calculateDistance x m
        go c rest (if Flt.lt tmp minDist then tmp else minDist)
      else go c rest minDist

/-- The loop of `CDManager::getDistance(LinkSetPtr, std::vector<LinkSetPtr>&)`, carrying
`minDist`. -/
def getDistanceSetsLoop (c : CollisionChecker) (m : LinkSetPtr) : List LinkSetPtr → Flt → Flt
  | [], minDist => minDist
  | s :: sets, minDist =>
    let tmp := c.calculateDistance m s
    getDistanceSetsLoop c m sets (if Flt.lt tmp minDist then tmp else minDist)

/-- Method `CDManager::getDistance(LinkSetPtr, std::vector<LinkSetPtr>&)`; the caller has
checked that there is a checker. -/
def getDistanceSets (c : CollisionChecker) (m : LinkSetPtr) (sets : List LinkSetPtr) : Flt :=
  getDistanceSetsLoop c m sets FLT_MAX

/-- The `while` loop of `CDManager::getDistance()`, carrying `minDist`. -/
def getDistanceLoop (c : CollisionChecker) : List (LinkSetPtr × List LinkSetPtr) → Flt → Flt
  | [], minDist => minDist
  | (k, sets) :: rest, minDist =>
    let tmp := getDistanceSets c k sets
    getDistanceLoop c rest (if Flt.lt tmp minDist then tmp else minDist)

/-- Method `CDManager::getDistance()`. -/
def getDistance (cd : CDManager) : Flt :=
  match cd.colChecker with
  | none => Flt.fin (-1)
  | some c => getDistanceLoop c cd.colModelPairs FLT_MAX

/-- The loop of `CDManager::getDistance(m, sets, P1, P2, trID1, trID2)`, carrying
`minDist` and the output parameters. -/
def getDistanceSetsContactLoop (c : CollisionChecker) (m : LinkSetPtr) :
    List LinkSetPtr → Flt × Contact → Flt × Contact
  | [], acc => acc
  | s :: sets, (minDist, out) =>
    let r := c.calculateDistanceContact m s
    getDistanceSetsContactLoop c m sets (if Flt.lt r.1 minDist then (r.1, r.2) else (minDist, out))

/-- Method `CDManager::getDistance(m, sets, P1, P2, trID1, trID2)`: the returned distance
and the output parameters, which enter with the content `out`. -/
def getDistanceSetsContact (c : CollisionChecker) (m : LinkSetPtr) (sets : List LinkSetPtr)
    (out : Contact) : Flt × Contact :=
  getDistanceSetsContactLoop c m sets (FLT_MAX, out)

/-- The `while` loop of `CDManager::getDistance(P1, P2, trID1, trID2)`, carrying
`minDist`, the output parameters and the locals `_P1, _P2, _trID1, _trID2`. -/
def getDistanceContactLoop (c : CollisionChecker) :
    List (LinkSetPtr × List LinkSetPtr) → Flt × Contact × Contact → Flt × Contact × Contact
  | [], acc => acc
  | (k, sets) :: rest, (minDist, out, loc) =>
    let r := getDistanceSetsContact c k sets loc
    getDistanceContactLoop c rest
      (if Flt.lt r.1 minDist then (r.1, r.2, r.2) else (minDist, out, r.2))

/-- Method `CDManager::getDistance(P1, P2, trID1, trID2)`: the returned distance and the
output parameters, which enter with the content `out`; `uninit` is the content of the
uninitialised locals. -/
def getDistanceContact (cd : CDManager) (out uninit : Contact) : Flt × Contact :=
  match cd.colChecker with
  | none => (Flt.fin (-1), out)
  | some c =>
    let r := getDistanceContactLoop c cd.colModelPairs (FLT_MAX, out, uninit)
    (r.1, r.2.1)

/-- Method `CDManager::getDistance(LinkSetPtr, P1, P2, trID1, trID2)`: the returned
distance and the output parameters, which enter with the content `out`. -/
def getDistanceSetContact (cd : CDManager) (m : LinkSetPtr) (out : Contact) : Flt × Contact :=
  match cd.colChecker with
  | none => (Flt.fin (-1), out)
  | some c =>
    if m = 0 then (Flt.fin (-1), out)
    else go c cd.colModels (FLT_MAX, out)
where
  /-- The loop over `colModels`, carrying `minDist` and the output parameters. -/
  go (c : CollisionChecker) : List LinkSetPtr → Flt × Contact → Flt × Contact
    | [], acc => acc
    | x :: rest, (minDist, out) =>
      let r := c.calculateDistanceContact m x
      go c rest (if Flt.lt r.1 minDist then (r.1, r.2) else (minDist, out))

end CDManager

/-! ### Sequences of registrations and a concrete scene -/

/-- Two link sets that `_hasSceneObjectSet` treats as the same: the same object, or two
single-node sets wrapping the same node. -/
def sameSet (heap : LinkSetHeap) (c m : LinkSetPtr) : Prop :=
  c = m ∨ (getSize heap m = 1 ∧ getSize heap c = 1 ∧ getNode0 heap c = getNode0 heap m)

instance (heap : LinkSetHeap) (c m : LinkSetPtr) : Decidable (sameSet heap c m) := by
  unfold sameSet; infer_instance

/-- A list of collision models that holds no link set twice. -/
def NoDuplicate (heap : LinkSetHeap) (l : List LinkSetPtr) : Prop :=
  l.Pairwise (fun a b => ¬ sameSet heap a b)

/-- A registered pair `(a, b)`: `b` is in the list of sets recorded for `a`. -/
def CDManager.Registered (cd : CDManager) (a b : LinkSetPtr) : Prop :=
  ∃ sets, (a, sets) ∈ cd.colModelPairs ∧ b ∈ sets

/-- A call of one of the two registration methods. -/
inductive CDOp where
  | addCollisionModel (m : LinkSetPtr) : CDOp
  | addCollisionModelPair (m1 m2 : LinkSetPtr) : CDOp

/-- The effect of one registration call. -/
def CDManager.step (heap : LinkSetHeap) (cd : CDManager) : CDOp → Option CDManager
  | CDOp.addCollisionModel m => cd.addCollisionModel heap m
  | CDOp.addCollisionModelPair m1 m2 => some (cd.addCollisionModelPair heap m1 m2)

/-- The effect of a sequence of registration calls. -/
def CDManager.run (heap : LinkSetHeap) : CDManager → List CDOp → Option CDManager
  | cd, [] => some cd
  | cd, op :: ops =>
    match cd.step heap op with
    | none => none
    | some cd => CDManager.run heap cd ops

/-- A scene of two boxes: the link set at address 1 holds the node 11 and the link set
at address 2 holds the node 12. -/
def boxHeap : LinkSetHeap := fun m => if m = 1 then [11] else if m = 2 then [12] else []

/-- A collision checker for boxes of side 2 on a line, `centre n` being the centre of the
box of node `n`: two link sets collide when two of their boxes overlap. -/
def boxChecker (heap : LinkSetHeap) (centre : ModelNodePtr → Int) : CollisionChecker :=
  { checkCollision := fun a b =>
      (heap a).any (fun n => (heap b).any (fun k => decide ((centre n - centre k).natAbs < 2)))
    calculateDistance := fun a b =>
      Flt.fin ((((heap a).flatMap (fun n => (heap b).map (fun k =>
        (centre n - centre k).natAbs - 2))).foldl Nat.min 1000 : Nat) : ℚ)
    calculateDistanceContact := fun a b =>
      (Flt.fin ((((heap a).flatMap (fun n => (heap b).map (fun k =>
        (centre n - centre k).natAbs - 2))).foldl Nat.min 1000 : Nat) : ℚ),
       { P1 := (Flt.fin 0, Flt.fin 0, Flt.fin 0), P2 := (Flt.fin 0, Flt.fin 0, Flt.fin 0),
         trID1 := 0, trID2 := 0 }) }

/-- The two boxes apart: centres 0 and 10. -/
def centresApart : ModelNodePtr → Int := fun n => if n = 12 then 10 else 0

/-- The second box moved onto the first: both centres 0. -/
def centresMoved : ModelNodePtr → Int := fun _ => 0

/-- A checker that is not symmetric: it reports a collision of `a` with `b` exactly
when the address of `a` is below that of `b`. -/
def orderChecker : CollisionChecker :=
  { checkCollision := fun a b => decide (a < b)
    calculateDistance := fun _ _ => Flt.fin 1
    calculateDistanceContact := fun _ _ =>
      (Flt.fin 1, { P1 := (Flt.fin 0, Flt.fin 0, Flt.fin 0), P2 := (Flt.fin 0, Flt.fin 0, Flt.fin 0),
                    trID1 := 0, trID2 := 0 }) }

/-- The loop `if (tmp < minDist) minDist = tmp;` over a list of distances, started with
`minDist = init`. -/
def Flt.minFold (init : Flt) (ds : List Flt) : Flt :=
  ds.foldl (fun minDist tmp => if Flt.lt tmp minDist then tmp else minDist) init

/-! ### The map of pairs as a function of its keys -/

/-- The list of sets recorded for the key `k` in a map given by its entries (`map[k]`
read without inserting): empty when `k` is not a key. -/
def mapFind (k : LinkSetPtr) : List (LinkSetPtr × List LinkSetPtr) → List LinkSetPtr
  | [] => []
  | (k0, vs) :: rest => if k0 = k then vs else mapFind k rest

/-- The entries of a `std::map`: the keys increase strictly. -/
def MapSorted (pairs : List (LinkSetPtr × List LinkSetPtr)) : Prop :=
  pairs.Pairwise (fun e1 e2 => e1.1 < e2.1)

/-- The number of recorded pairs of a map. -/
def pairCount (pairs : List (LinkSetPtr × List LinkSetPtr)) : Nat :=
  (pairs.map (fun e => e.2.length)).sum

/-- The sets that follow the set `k` in a list of sets (none when `k` is not in it). -/
def setsAfter (k : LinkSetPtr) : List LinkSetPtr → List LinkSetPtr
  | [] => []
  | c :: ms => if c = k then ms else setsAfter k ms

/-- The state of a manager as the registration methods leave it: no registered model is
null, no registered model duplicates another one, and the pairs are the entries of a map. -/
def CDManager.WellFormed (heap : LinkSetHeap) (cd : CDManager) : Prop :=
  (∀ c ∈ cd.colModels, c ≠ 0) ∧ NoDuplicate heap cd.colModels ∧ MapSorted cd.colModelPairs

/-- A scene with two single-node link sets on the same node: the sets at the addresses 1
and 3 both hold the node 11, the set at address 2 holds the node 12. -/
def twinHeap : LinkSetHeap :=
  fun m => if m = 1 then [11] else if m = 2 then [12] else if m = 3 then [11] else []

/-- A checker that finds every two sets infinitely far apart. -/
def farChecker : CollisionChecker :=
  { checkCollision := fun _ _ => false
    calculateDistance := fun _ _ => Flt.pinf
    calculateDistanceContact := fun _ _ =>
      (Flt.pinf, { P1 := (Flt.fin 0, Flt.fin 0, Flt.fin 0), P2 := (Flt.fin 0, Flt.fin 0, Flt.fin 0),
                   trID1 := 0, trID2 := 0 }) }

/-! ## ConstrainedOptimizationIK

The solver works on a robot, a joint set of that robot, a stack of constraints and an
NLopt optimizer.  The constraints and the optimizer are external: a constraint reads the
poses of the robot, which are determined by the values of the joints, and the optimizer
is given by what one call of `optimize` does. -/

/-- The arithmetic of one floating-point format (each operation rounds to the format). -/
structure Arith where
  (add : Flt → Flt → Flt)
  (sub : Flt → Flt → Flt)
  (mul : Flt → Flt → Flt)
  (div : Flt → Flt → Flt)

/-- The negation of a value. -/
def Flt.neg : Flt → Flt
  | Flt.nan => Flt.nan
  | Flt.ninf => Flt.pinf
  | Flt.fin v => Flt.fin (-v)
  | Flt.pinf => Flt.ninf

/-- The sum of two values without rounding. -/
def Flt.add : Flt → Flt → Flt
  | Flt.nan, _ => Flt.nan
  | _, Flt.nan => Flt.nan
  | Flt.pinf, Flt.ninf => Flt.nan
  | Flt.ninf, Flt.pinf => Flt.nan
  | Flt.pinf, _ => Flt.pinf
  | _, Flt.pinf => Flt.pinf
  | Flt.ninf, _ => Flt.ninf
  | _, Flt.ninf => Flt.ninf
  | Flt.fin a, Flt.fin b => Flt.fin (a + b)

/-- An infinity of the given sign (`true` for the positive one). -/
def Flt.inf (positive : Bool) : Flt := if positive then Flt.pinf else Flt.ninf

/-- The product of two values without rounding. -/
def Flt.mul : Flt → Flt → Flt
  | Flt.nan, _ => Flt.nan
  | _, Flt.nan => Flt.nan
  | Flt.fin a, Flt.fin b => Flt.fin (a * b)
  | Flt.fin a, Flt.pinf => if a = 0 then Flt.nan else Flt.inf (decide (0 < a))
  | Flt.fin a, Flt.ninf => if a = 0 then Flt.nan else Flt.inf (decide (a < 0))
  | Flt.pinf, Flt.fin b => if b = 0 then Flt.nan else Flt.inf (decide (0 < b))
  | Flt.ninf, Flt.fin b => if b = 0 then Flt.nan else Flt.inf (decide (b < 0))
  | Flt.pinf, Flt.pinf => Flt.pinf
  | Flt.ninf, Flt.ninf => Flt.pinf
  | Flt.pinf, Flt.ninf => Flt.ninf
  | Flt.ninf, Flt.pinf => Flt.ninf

/-- The quotient of two values without rounding (a zero divisor counts as `+0`). -/
def Flt.div : Flt → Flt → Flt
  | Flt.nan, _ => Flt.nan
  | _, Flt.nan => Flt.nan
  | Flt.fin a, Flt.fin b =>
    if b = 0 then (if a = 0 then Flt.nan else Flt.inf (decide (0 < a))) else Flt.fin (a / b)
  | Flt.fin _, _ => Flt.fin 0
  | Flt.pinf, Flt.fin b => Flt.inf (decide (0 ≤ b))
  | Flt.ninf, Flt.fin b => Flt.inf (decide (b < 0))
  | _, _ => Flt.nan

/-- Arithmetic without rounding, used where a concrete environment is needed. -/
def exactArith : Arith :=
  { add := Flt.add
    sub := fun a b => Flt.add a (Flt.neg b)
    mul := Flt.mul
    div := Flt.div }

/-- The constant `std::numeric_limits<double>::max()`. -/
def DBL_MAX : Flt := Flt.fin ((2 ^ 53 - 1) * 2 ^ 971)

/-- The `operator==` of `std::vector<double>`. -/
def vecEq : List Flt → List Flt → Bool
  | [], [] => true
  | a :: as, b :: bs => !(Flt.ne a b) && vecEq as bs
  | _, _ => false

/-- The virtual methods of a `Constraint` object that the solver calls, each as a
function of the current values of the joints of the joint set. -/
structure ConstraintImpl where
  (optimizationFunction : Nat → List Flt → Flt)
  (optimizationGradient : Nat → List Flt → List Flt)
  (checkTolerances : List Flt → Bool)
  (usingCollisionModel : Bool)

/-- The struct `OptimizationFunctionSetup`. -/
structure OptimizationFunctionSetup where
  (id : Nat)
  (constraint : ConstraintImpl)
  (soft : Bool)

/-- A constraint of the stack: its virtual methods and what
`getOptimizationFunctions()` returns. -/
structure Constraint where
  (impl : ConstraintImpl)
  (getOptimizationFunctions : List OptimizationFunctionSetup)

/-- What one call `optimizer->optimize(x, min_f)` does: the points at which it calls
the objective and constraint callbacks, in order, and the entries it leaves in `x`
(the vector keeps its size).  An exception thrown by NLopt is caught by the caller and
ignored, so it does not appear here. -/
structure OptimizeRun where
  (evaluated : List (List Flt))
  (x : Nat → Flt)

/-- The NLopt optimizer object; `optimize attempt x` is the call made in attempt
number `attempt` with start vector `x`. -/
structure Optimizer where
  (optimize : Nat → List Flt → OptimizeRun)

/-- The environment the solver runs in. -/
structure Env where
  /-- Whether `NDEBUG` is defined. -/
  (ndebug : Bool)
  /-- The result of the `k`-th call of `rand()`. -/
  (rand : Nat → Nat)
  /-- The conversion from `double` to `float`. -/
  (toFloat : Flt → Flt)
  /-- Single-precision arithmetic. -/
  (f : Arith)
  /-- Double-precision arithmetic. -/
  (d : Arith)

/-- The robot as far as the solver touches it: the joints of the joint set, in order,
and the two update flags.  The joints of the set hold no coupling entries, so that a
write of one joint hands no value on to another joint. -/
structure Robot where
  (joints : List ModelJoint)
  (updateVisualization : Bool)
  (updateCollisionModel : Bool)

/-- The values of the joints of the joint set. -/
def Robot.config (r : Robot) : List Flt := r.joints.map ModelJoint.getJointValue

/-- Modelled from the spec: `JointSet::setJointValues(const std::vector<float>&)`, declared in
`JointSet.h` and defined outside the sources at hand.  Each joint is written with its
entry of the vector the way `setJointValueNoUpdate` writes it (clamped to the limits of
the joint), then the poses are recomputed. -/
def setJointValues (ndebug : Bool) : List ModelJoint → List Flt → Except Failure (List ModelJoint)
  | j :: js, v :: vs => do
    let j ← j.setJointValueNoUpdate ndebug v
    let js ← setJointValues ndebug js vs
    pure (j :: js)
  | js, _ => pure js

/-- The enum `SeedType`. -/
inductive SeedType where
  | eSeedInitial : SeedType
  | eSeedZero : SeedType
  | eSeedOther : SeedType
deriving DecidableEq

/-- The data members of `ConstrainedOptimizationIK` that `solve` and its callbacks read
or assign.  `maxIterations` is the attempt budget, which `solve` asserts to be
non-negative; `optimizer` is null until `initialize` has run. -/
structure ConstrainedOptimizationIK where
  (constraints : List Constraint)
  (maxIterations : Nat)
  (seeds : List (SeedType × List Flt))
  (initialConfig : List Flt)
  (randomSamplingDisplacementFactor : Flt)
  (optimizer : Option Optimizer)
  (currentX : List Flt)
  (numIterations : Nat)

/-- The state that `solve` works on: the solver object, the robot and the number of
calls of `rand()` made so far. -/
structure IKState where
  (ik : ConstrainedOptimizationIK)
  (robot : Robot)
  (randCalls : Nat)

namespace ConstrainedOptimizationIK

/-- Constructor `ConstrainedOptimizationIK::ConstrainedOptimizationIK`; the base class is
constructed with 30 attempts. -/
def new (constraints : List Constraint) : ConstrainedOptimizationIK :=
  { constraints := constraints
    maxIterations := 30
    seeds := [(SeedType.eSeedInitial, []), (SeedType.eSeedZero, [])]
    initialConfig := []
    randomSamplingDisplacementFactor := Flt.fin 1
    optimizer := none
    currentX := []
    numIterations := 0 }

/-- Method `ConstrainedOptimizationIK::setRandomSamplingDisplacementFactor`. -/
def setRandomSamplingDisplacementFactor (ik : ConstrainedOptimizationIK) (displacementFactor : Flt) :
    ConstrainedOptimizationIK :=
  { ik with randomSamplingDisplacementFactor := displacementFactor }

/-- Method `ConstrainedOptimizationIK::initialize` (spelled `initialise` here, the
other spelling being reserved); `opt` is the optimizer object it creates and
configures. -/
def initialise (ik : ConstrainedOptimizationIK) (robot : Robot) (opt : Optimizer) :
    ConstrainedOptimizationIK :=
  { ik with initialConfig := robot.config, optimizer := some opt }

/-- The first lines shared by `optimizationFunction`, `optimizationConstraint` and
`hardOptimizationFunction`: `if(x != currentX) { setJointValues(q); currentX = x; }`. -/
def syncJointValues (env : Env) (s : IKState) (x : List Flt) : Except Failure IKState :=
  if !(vecEq x s.ik.currentX) then do
    let joints ← setJointValues env.ndebug s.robot.joints (x.map env.toFloat)
    pure { s with robot := { s.robot with joints := joints }, ik := { s.ik with currentX := x } }
  else pure s

/-- What a callback of the optimizer (`optimizationFunction` or
`optimizationConstraint`) does to the solver and the robot when called at `x`. -/
def callback (env : Env) (s : IKState) (x : List Flt) : Except Failure IKState := do
  let s := { s with ik := { s.ik with numIterations := s.ik.numIterations + 1 } }
  syncJointValues env s x

/-- The callbacks of one run of the optimizer, in order. -/
def callbacks (env : Env) : IKState → List (List Flt) → Except Failure IKState
  | s, [] => pure s
  | s, x :: xs => do
    let s ← callback env s x
    callbacks env s xs

/-- The two nested loops of `hardOptimizationFunction` at joint values `q`: the
conjunction of the tolerance checks and the sum of the values of the functions that are
not soft. -/
def hardLoop (env : Env) (q : List Flt) : List OptimizationFunctionSetup → Bool × Flt → Bool × Flt
  | [], acc => acc
  | fn :: fns, (result, error) =>
    if fn.soft then hardLoop env q fns (result, error)
    else
      let r := fn.constraint.checkTolerances q
      let e := fn.constraint.optimizationFunction fn.id q
      hardLoop env q fns (result && r, env.d.add error e)

/-- The functions of the whole stack in the order the nested loops visit them. -/
def allFunctions (ik : ConstrainedOptimizationIK) : List OptimizationFunctionSetup :=
  ik.constraints.flatMap Constraint.getOptimizationFunctions

/-- Method `ConstrainedOptimizationIK::hardOptimizationFunction`: the new state, the
returned flag and the output parameter `error`.  (The output parameter `data` is only
printed by the caller and is left out.) -/
def hardOptimizationFunction (env : Env) (s : IKState) (x : List Flt) :
    Except Failure (IKState × Bool × Flt) := do
  let s ← syncJointValues env s x
  let r := hardLoop env s.robot.config (allFunctions s.ik) (true, Flt.fin 0)
  pure (s, r.1, r.2)

/-- The start vector of a random attempt, entries `i, i+1, ...` of it: entry `i` uses
the call of `rand()` number `k`, and so on. -/
def randomStart (env : Env) (ik : ConstrainedOptimizationIK) : List ModelJoint → Nat → Nat → List Flt
  | [], _, _ => []
  | j :: js, i, k =>
    let t := env.f.div (Flt.fin ((env.rand k % 1001 : Nat) : ℚ)) (Flt.fin 1000)
    let init := ik.initialConfig.getD i (Flt.fin 0)
    let xi := env.f.add init (env.f.mul ik.randomSamplingDisplacementFactor
      (env.f.sub (env.f.add j.jointLimitLo (env.f.mul t (env.f.sub j.jointLimitHi j.jointLimitLo))) init))
    xi :: randomStart env ik js (i + 1) (k + 1)

/-- The start vector of a seeded attempt, entries `i, i+1, ...` of it; `seed i` is the
value the `switch` clamps for joint `i`. -/
def seedStart (seed : Nat → Flt) : List ModelJoint → Nat → List Flt
  | [], _ => []
  | j :: js, i => Flt.max j.jointLimitLo (Flt.min j.jointLimitHi (seed i)) :: seedStart seed js (i + 1)

/-- The value that the `switch` on the seed type clamps for joint `i`. -/
def seedValue (ik : ConstrainedOptimizationIK) (seed : SeedType × List Flt) (i : Nat) : Flt :=
  match seed.1 with
  | SeedType.eSeedZero => Flt.fin 0
  | SeedType.eSeedInitial => ik.initialConfig.getD i (Flt.fin 0)
  | SeedType.eSeedOther => seed.2.getD i (Flt.fin 0)

/-- The loop "Check initial configuration against joint limits": true when some entry
of `x` is outside the limits of its joint. -/
def outsideLimits : List ModelJoint → List Flt → Bool
  | j :: js, xi :: xs =>
    if Flt.lt xi j.jointLimitLo || Flt.gt xi j.jointLimitHi then true else outsideLimits js xs
  | _, _ => false

/-- Every entry of `x` lies within the limits of its joint, `lower <= x <= upper`, and
`x` has one entry for each joint. -/
def withinLimits : List ModelJoint → List Flt → Bool
  | [], [] => true
  | j :: js, xi :: xs =>
    Flt.le j.jointLimitLo xi && Flt.le xi j.jointLimitHi && withinLimits js xs
  | _, _ => false

/-- The start vector of attempt number `attempt` and the number of calls of `rand()`
after it has been built, or the exception of the limit check. -/
def startVector (env : Env) (s : IKState) (attempt : Nat) : Except Failure (List Flt × Nat) :=
  if h : attempt < s.ik.seeds.length then
    let x := seedStart (seedValue s.ik (s.ik.seeds.get ⟨attempt, h⟩)) s.robot.joints 0
    if outsideLimits s.robot.joints x then
      .error (Failure.exception "Initial configuration outside of joint limits")
    else .ok (x, s.randCalls)
  else
    .ok (randomStart env s.ik s.robot.joints 0 s.randCalls, s.randCalls + s.robot.joints.length)

/-- What one round of the attempt loop of `solve` hands on. -/
inductive AttemptResult where
  /-- The hard constraints hold: `solve` returns `true` in the given state. -/
  | success (s : IKState) : AttemptResult
  /-- The attempt failed: the loop goes on with this state, `bestJointValues` and
  `currentMinError`. -/
  | next (s : IKState) (bestJointValues : List Flt) (currentMinError : Flt) : AttemptResult

/-- The body of the attempt loop of `solve` for attempt number `attempt`, up to and
including the call of `hardOptimizationFunction`: the state, the vector `x`, the flag
`success` and `currentError`.  The loop `getJoint(i)->setJointValue(float(x[i]))`
writes the joints one after the other; a joint of the set holds no coupling entries, so
that each call changes its joint as `setJointValueNoUpdate` does, and the loop is the
recursion of `setJointValues`. -/
def attemptCheck (env : Env) (opt : Optimizer) (attempt : Nat) (s : IKState) :
    Except Failure (IKState × List Flt × Bool × Flt) := do
  let s := { s with ik := { s.ik with numIterations := 0 } }
  let size := s.robot.joints.length
  let (x, randCalls) ← startVector env s attempt
  let s := { s with randCalls := randCalls }
  let run := opt.optimize attempt x
  let s ← callbacks env s run.evaluated
  let x := (List.range size).map run.x
  let joints ← setJointValues env.ndebug s.robot.joints (x.map env.toFloat)
  let s := { s with robot := { s.robot with joints := joints } }
  let (s, success, currentError) ← hardOptimizationFunction env s x
  pure (s, x, success, currentError)

/-- The lines `bestJointValues = x; currentMinError = currentError;` under their guard
`currentMinError > currentError`. -/
def updateBest (best : List Flt × Flt) (x : List Flt) (currentError : Flt) : List Flt × Flt :=
  if Flt.gt best.2 currentError then (x, currentError) else best

/-- The body of the attempt loop of `solve` for attempt number `attempt`;
`updateVisualization` and `updateCollisionModel` are the flags saved on entry. -/
def attemptBody (env : Env) (opt : Optimizer) (updateVisualization updateCollisionModel : Bool)
    (attempt : Nat) (s : IKState) (bestJointValues : List Flt) (currentMinError : Flt) :
    Except Failure AttemptResult := do
  let (s, x, success, currentError) ← attemptCheck env opt attempt s
  if success then
    let robot := { s.robot with updateVisualization := updateVisualization,
                                updateCollisionModel := updateCollisionModel }
    let joints ← setJointValues env.ndebug robot.joints (x.map env.toFloat)
    pure (AttemptResult.success { s with robot := { robot with joints := joints } })
  else
    let best := updateBest (bestJointValues, currentMinError) x currentError
    pure (AttemptResult.next s best.1 best.2)

/-- The attempt loop of `solve` and the lines after it: `remaining` rounds are left and
the next one is attempt number `attempt`. -/
def solveLoop (env : Env) (opt : Optimizer) (updateVisualization updateCollisionModel : Bool) :
    Nat → Nat → IKState → List Flt → Flt → Except Failure (Bool × IKState)
  | 0, _, s, bestJointValues, _ => do
    let joints ←
      if bestJointValues.length > 0 then
        setJointValues env.ndebug s.robot.joints (bestJointValues.map env.toFloat)
      else pure s.robot.joints
    pure (false, { s with robot := { joints := joints
                                     updateVisualization := updateVisualization
                                     updateCollisionModel := updateCollisionModel } })
  | remaining + 1, attempt, s, bestJointValues, currentMinError => do
    match ← attemptBody env opt updateVisualization updateCollisionModel attempt s
        bestJointValues currentMinError with
    | AttemptResult.success s => pure (true, s)
    | AttemptResult.next s bestJointValues currentMinError =>
      solveLoop env opt updateVisualization updateCollisionModel remaining (attempt + 1) s
        bestJointValues currentMinError

/-- The state in which the attempt loop of `solve` starts: the visualization flag is
off and the collision-model flag tells whether some constraint uses the collision model. -/
def entryState (s : IKState) : IKState :=
  let collisionModelUsed := s.ik.constraints.any (fun c => c.impl.usingCollisionModel)
  { s with robot := { s.robot with updateVisualization := false,
                                   updateCollisionModel := collisionModelUsed } }

/-- Method `ConstrainedOptimizationIK::solve`: the returned flag and the state it
leaves, or the failure that ends the call. -/
def solve (env : Env) (s : IKState) (stepwise : Bool) : Except Failure (Bool × IKState) :=
  if stepwise then .error (Failure.exception "Stepwise solving not possible with optimization IK")
  else
    match s.ik.optimizer with
    | none => .error (Failure.exception "IK not initialized, did you forget to call initialize()?")
    | some opt =>
      let updateVisualization := s.robot.updateVisualization
      let updateCollisionModel := s.robot.updateCollisionModel
      let s := entryState s
      solveLoop env opt updateVisualization updateCollisionModel s.ik.maxIterations 0 s []
        DBL_MAX

/-- Method `ConstrainedOptimizationIK::solveStep`. -/
def solveStep : Except Failure Bool :=
  .error (Failure.exception "Stepwise solving not possible with optimization IK")

/-- The way a call of `solve` or `solveStep` ends, with the state of the solver and the
robot at that moment: the call returns a flag, or an exception leaves it, thrown in the
given state, or a failed assertion ends the program. -/
inductive SolveExit where
  | returned (result : Bool) (s : IKState) : SolveExit
  | thrown (message : String) (s : IKState) : SolveExit
  | aborted : SolveExit

/-- The attempt loop of `solve` and the lines after it, as `solveLoop`, with the state at
the end.  The one exception of the loop is the one of the limit check of a seeded
attempt, thrown when the round has assigned `numIterations = 0` and nothing else; every
other failure is a failed assertion. -/
def solveLoopExit (env : Env) (opt : Optimizer) (updateVisualization updateCollisionModel : Bool) :
    Nat → Nat → IKState → List Flt → Flt → SolveExit
  | 0, _, s, bestJointValues, _ =>
    match (if bestJointValues.length > 0 then
        setJointValues env.ndebug s.robot.joints (bestJointValues.map env.toFloat)
      else pure s.robot.joints) with
    | .error _ => SolveExit.aborted
    | .ok joints =>
      SolveExit.returned false
        { s with robot := { joints := joints
                            updateVisualization := updateVisualization
                            updateCollisionModel := updateCollisionModel } }
  | remaining + 1, attempt, s, bestJointValues, currentMinError =>
    match attemptBody env opt updateVisualization updateCollisionModel attempt s
        bestJointValues currentMinError with
    | .error Failure.assertion => SolveExit.aborted
    | .error (Failure.exception message) =>
      SolveExit.thrown message { s with ik := { s.ik with numIterations := 0 } }
    | .ok (AttemptResult.success s) => SolveExit.returned true s
    | .ok (AttemptResult.next s bestJointValues currentMinError) =>
      solveLoopExit env opt updateVisualization updateCollisionModel remaining (attempt + 1) s
        bestJointValues currentMinError

/-- Method `ConstrainedOptimizationIK::solve` with the state at the end of the call, also
when an exception ends it: the two `THROW_VR_EXCEPTION_IF` statements, then the
statements that save and set the update flags of the robot, then the attempt loop. -/
def solveExit (env : Env) (s : IKState) (stepwise : Bool) : SolveExit :=
  if stepwise then SolveExit.thrown "Stepwise solving not possible with optimization IK" s
  else
    match s.ik.optimizer with
    | none => SolveExit.thrown "IK not initialized, did you forget to call initialize()?" s
    | some opt =>
      let updateVisualization := s.robot.updateVisualization
      let updateCollisionModel := s.robot.updateCollisionModel
      let s := entryState s
      solveLoopExit env opt updateVisualization updateCollisionModel s.ik.maxIterations 0 s []
        DBL_MAX

/-- Method `ConstrainedOptimizationIK::solveStep` with the state at the throw. -/
def solveStepExit (s : IKState) : SolveExit :=
  SolveExit.thrown "Stepwise solving not possible with optimization IK" s

/-- The message of an exception that leaves the call and the two update flags of the
robot in the state of the throw. -/
def SolveExit.thrownFlags : SolveExit → Option (String × Bool × Bool)
  | SolveExit.thrown message s =>
    some (message, s.robot.updateVisualization, s.robot.updateCollisionModel)
  | _ => none

/-- The result of a call as `solve` gives it, read off the way the call ends. -/
def SolveExit.result : SolveExit → Except Failure (Bool × IKState)
  | SolveExit.returned result s => .ok (result, s)
  | SolveExit.thrown message _ => .error (Failure.exception message)
  | SolveExit.aborted => .error Failure.assertion

/-- What a gradient evaluation reads besides the solver and the robot: the result of
`isRotationalJoint()` for joint `i` of the joint set, the content of an entry of
`scalingVec` that was never assigned, and Eigen's `normalize()`. -/
structure GradientEnv where
  (isRotationalJoint : Nat → Bool)
  (unassigned : Nat → Flt)
  (normalize : List Flt → List Flt)

/-- Entry `i` of `scalingVec` in `optimizationFunction`: the vector has one entry for each
joint of the joint set and is filled only when the gradient has that size. -/
def scalingVec (env : Env) (genv : GradientEnv) (nodeSetSize size i : Nat) : Flt :=
  if size = nodeSetSize ∧ i < nodeSetSize then
    (if genv.isRotationalJoint i then Flt.fin 1 else env.f.div (Flt.fin 1) (Flt.fin 57))
  else genv.unassigned i

/-- The loop `for (int i = 0; i < g.size(); i++) g(i) *= scalingVec(i);`, from index `i`. -/
def scaleGradient (env : Env) (scaling : Nat → Flt) : List Flt → Nat → List Flt
  | [], _ => []
  | gi :: g, i => env.f.mul gi (scaling i) :: scaleGradient env scaling g (i + 1)

/-- The statement `grad += g` on Eigen vectors: entry by entry for vectors of one size;
Eigen stops the program when the sizes differ. -/
def vecAdd (env : Env) (grad g : List Flt) : Except Failure (List Flt) :=
  if grad.length = g.length then pure (List.zipWith env.f.add grad g)
  else .error Failure.assertion

/-- The nested loops of `optimizationFunction` over the functions of the stack, carrying
`value` and `grad`; `q` are the current values of the joints. -/
def objectiveLoop (env : Env) (q : List Flt) (size : Nat) (scaling : Nat → Flt) :
    List OptimizationFunctionSetup → Flt × List Flt → Except Failure (Flt × List Flt)
  | [], acc => pure acc
  | function :: fns, (value, grad) =>
    let value := env.d.add value (function.constraint.optimizationFunction function.id q)
    if size > 0 then
      let g := scaleGradient env scaling (function.constraint.optimizationGradient function.id q) 0
      match vecAdd env grad g with
      | .error e => .error e
      | .ok grad => objectiveLoop env q size scaling fns (value, grad)
    else objectiveLoop env q size scaling fns (value, grad)

/-- Method `ConstrainedOptimizationIK::optimizationFunction`, called at `x` with a
gradient vector of `size` entries: the new state, the returned value and the entries that
the gradient vector holds afterwards. -/
def optimizationFunction (env : Env) (genv : GradientEnv) (s : IKState) (x : List Flt) (size : Nat) :
    Except Failure (IKState × Flt × List Flt) :=
  match callback env s x with
  | .error e => .error e
  | .ok s =>
    let scaling := scalingVec env genv s.robot.joints.length size
    match objectiveLoop env s.robot.config size scaling (allFunctions s.ik)
        (Flt.fin 0, List.replicate size (Flt.fin 0)) with
    | .error e => .error e
    | .ok r => if size > 0 then .ok (s, r.1, genv.normalize r.2) else .ok (s, r.1, [])

/-- Method `ConstrainedOptimizationIK::optimizationConstraint`, called at `x` with a
gradient vector of `size` entries for the function `setup`: the new state, the returned
value and the entries that the gradient vector holds afterwards.  Eigen stops the program
when the gradient of the constraint has fewer than `size` entries. -/
def optimizationConstraint (env : Env) (s : IKState) (x : List Flt) (size : Nat)
    (setup : OptimizationFunctionSetup) : Except Failure (IKState × Flt × List Flt) :=
  match callback env s x with
  | .error e => .error e
  | .ok s =>
    let q := s.robot.config
    if size > 0 then
      let g := setup.constraint.optimizationGradient setup.id q
      if size ≤ g.length then .ok (s, setup.constraint.optimizationFunction setup.id q, g.take size)
      else .error Failure.assertion
    else .ok (s, setup.constraint.optimizationFunction setup.id q, [])

/-- The sum of the values of the soft functions of the stack at the joint values `q`, as
the specification describes the objective. -/
def softSum (env : Env) (ik : ConstrainedOptimizationIK) (q : List Flt) : Flt :=
  ((allFunctions ik).filter (fun fn => fn.soft)).foldl
    (fun value fn => env.d.add value (fn.constraint.optimizationFunction fn.id q)) (Flt.fin 0)

/-- The sum of the values of all functions of the stack at the joint values `q`. -/
def totalSum (env : Env) (ik : ConstrainedOptimizationIK) (q : List Flt) : Flt :=
  (allFunctions ik).foldl
    (fun value fn => env.d.add value (fn.constraint.optimizationFunction fn.id q)) (Flt.fin 0)

/-- A gradient rescaled as the specification describes it: the component of joint `i` is
multiplied by 1 when the joint is rotational and by 1/57 otherwise; `i` is the index of
the first component. -/
def rescaledGradient (env : Env) (genv : GradientEnv) : List Flt → Nat → List Flt
  | [], _ => []
  | gi :: g, i =>
    env.f.mul gi (if genv.isRotationalJoint i then Flt.fin 1 else env.f.div (Flt.fin 1) (Flt.fin 57))
      :: rescaledGradient env genv g (i + 1)

/-- The sum of the rescaled gradients of all functions of a list, added in order to `grad`. -/
def sumRescaled (env : Env) (genv : GradientEnv) (q : List Flt) :
    List OptimizationFunctionSetup → List Flt → List Flt
  | [], grad => grad
  | fn :: fns, grad =>
    sumRescaled env genv q fns
      (List.zipWith env.f.add grad
        (rescaledGradient env genv (fn.constraint.optimizationGradient fn.id q) 0))

/-- Two states of `solve` with the same setup: the same constraints, attempt budget,
seeds, initial configuration, displacement factor, optimizer and update flags, and
joints that differ in their values only. -/
def SameSetup (s s1 : IKState) : Prop :=
  s1.ik.constraints = s.ik.constraints ∧ s1.ik.maxIterations = s.ik.maxIterations ∧
  s1.ik.seeds = s.ik.seeds ∧ s1.ik.initialConfig = s.ik.initialConfig ∧
  s1.ik.randomSamplingDisplacementFactor = s.ik.randomSamplingDisplacementFactor ∧
  s1.ik.optimizer = s.ik.optimizer ∧
  s1.robot.updateVisualization = s.robot.updateVisualization ∧
  s1.robot.updateCollisionModel = s.robot.updateCollisionModel ∧
  s1.robot.joints.map ModelJoint.frame = s.robot.joints.map ModelJoint.frame

/-! ### Runs of failed attempts and a concrete solver -/

/-- What one failed attempt leaves behind: the state after its hard-constraint check,
its result vector `x` and its total hard-constraint error. -/
structure AttemptRecord where
  (state : IKState)
  (x : List Flt)
  (error : Flt)

/-- The records of `n` consecutive attempts, the first with number `attempt` and started
in state `s`, when each of them runs to its hard-constraint check and fails it; `none`
when one of them passes the check or ends in a failure. -/
def failedRounds (env : Env) (opt : Optimizer) : Nat → Nat → IKState → Option (List AttemptRecord)
  | 0, _, _ => some []
  | n + 1, attempt, s =>
    match attemptCheck env opt attempt s with
    | .ok (s1, x, false, err) =>
      (failedRounds env opt n (attempt + 1) s1).map (fun log => ⟨s1, x, err⟩ :: log)
    | _ => none

/-- The state after the attempts of a log that started in state `s`. -/
def stateAfter (s : IKState) : List AttemptRecord → IKState
  | [] => s
  | r :: log => stateAfter r.state log

end ConstrainedOptimizationIK

/-! ## PositionConstraint

The constraint reads the global pose of the end effector and the Jacobian of the
differential IK of its base class; both are functions of the joint values and enter as
what the methods read of them. -/

/-- The rounding of an exact result to a floating-point format: `rnd` rounds a rational
number, possibly to an infinity; NaN and the infinities are results as they are. -/
def Flt.round (rnd : ℚ → Flt) : Flt → Flt
  | Flt.fin v => rnd v
  | v => v

/-- Arithmetic that rounds every exact result with `rnd`. -/
def roundedArith (rnd : ℚ → Flt) : Arith :=
  { add := fun a b => Flt.round rnd (Flt.add a b)
    sub := fun a b => Flt.round rnd (Flt.add a (Flt.neg b))
    mul := fun a b => Flt.round rnd (Flt.mul a b)
    div := fun a b => Flt.round rnd (Flt.div a b) }

/-- The exponent of the leading binary digit of a positive integer: the largest `e` with
`2 ^ e <= n`, found in at most `fuel` halvings. -/
def floorLog2 : Nat → Nat → Nat
  | 0, _ => 0
  | fuel + 1, n => if n < 2 then 0 else floorLog2 fuel (n / 2) + 1

/-- The power `2 ^ e` for an integer exponent. -/
def pow2 (e : Int) : ℚ :=
  match e with
  | Int.ofNat n => ((2 ^ n : Nat) : ℚ)
  | Int.negSucc n => 1 / ((2 ^ (n + 1) : Nat) : ℚ)

/-- Rounding to the nearest number of a binary IEEE 754 format with `precision` digits in
the significand, least exponent `emin` and `2 ^ emax` past the largest finite number;
ties go to the even significand, and a result of magnitude `2 ^ emax` or more is an
infinity. -/
def Flt.roundNearestEven (precision : Nat) (emin emax : Int) (q : ℚ) : Flt :=
  if q = 0 then Flt.fin 0
  else
    let a : ℚ := if q < 0 then -q else q
    let k : Int := (floorLog2 a.num.natAbs a.num.natAbs : Int) - (floorLog2 a.den a.den : Int)
    let e : Int := if pow2 k ≤ a then k else k - 1
    let e : Int := if e < emin then emin else e
    let ulp : ℚ := pow2 (e - ((precision : Int) - 1))
    let m : ℚ := a / ulp
    let lower : Nat := m.num.natAbs / m.den
    let rest : Nat := m.num.natAbs % m.den
    let significand : Nat :=
      if 2 * rest < m.den then lower
      else if m.den < 2 * rest then lower + 1
      else if lower % 2 = 0 then lower else lower + 1
    let r : ℚ := (significand : ℚ) * ulp
    if pow2 emax ≤ r then (if q < 0 then Flt.ninf else Flt.pinf)
    else Flt.fin (if q < 0 then -r else r)

/-- The rounding of an exact result to `float` (IEEE 754 binary32). -/
def Flt.binary32 (q : ℚ) : Flt := Flt.roundNearestEven 24 (-126) 128 q

/-- The rounding of an exact result to `double` (IEEE 754 binary64). -/
def Flt.binary64 (q : ℚ) : Flt := Flt.roundNearestEven 53 (-1022) 1024 q

/-- The environment of a build for IEEE 754 arithmetic: `float` is binary32, `double` is
binary64, and the conversion from `double` to `float` rounds. -/
def floatEnv (ndebug : Bool) (rand : Nat → Nat) : Env :=
  { ndebug := ndebug
    rand := rand
    toFloat := Flt.round Flt.binary32
    f := roundedArith Flt.binary32
    d := roundedArith Flt.binary64 }

/-- The enum `IKSolver::CartesianSelection`. -/
inductive CartesianSelection where
  | X : CartesianSelection
  | Y : CartesianSelection
  | Z : CartesianSelection
  | Position : CartesianSelection
  | Orientation : CartesianSelection
  | All : CartesianSelection
  deriving DecidableEq

/-- The data that the methods of a `PositionConstraint` work on: `eefPosition` is the
origin `eef->getGlobalPose().block<3,1>(0,3)` of the end-effector frame, `target` the
target point `target.block<3,1>(0,3)`, `size` is `nodeSet->getSize()`, and `J k j` is the
entry in row `k` and column `j` of `ik->getJacobianMatrix(eef).block(0, 0, 3, size)`. -/
structure PositionConstraint where
  (eefPosition : Vector3f)
  (target : Vector3f)
  (cartesianSelection : CartesianSelection)
  (optimizationFunctionFactor : Flt)
  (size : Nat)
  (J : Nat → Nat → Flt)

namespace PositionConstraint

/-- The difference `d` of the origin of the end-effector frame and the target point. -/
def d (a : Arith) (c : PositionConstraint) : Vector3f :=
  (a.sub c.eefPosition.1 c.target.1, a.sub c.eefPosition.2.1 c.target.2.1,
   a.sub c.eefPosition.2.2 c.target.2.2)

/-- The product `d.dot(d)` of Eigen for vectors of three entries. -/
def dot (a : Arith) (v w : Vector3f) : Flt :=
  a.add (a.add (a.mul v.1 w.1) (a.mul v.2.1 w.2.1)) (a.mul v.2.2 w.2.2)

/-- Method `PositionConstraint::optimizationFunction`, in the arithmetic `a` of `float`. -/
def optimizationFunction (a : Arith) (c : PositionConstraint) : Flt :=
  let d := c.d a
  match c.cartesianSelection with
  | CartesianSelection.X => a.mul (a.mul c.optimizationFunctionFactor d.1) d.1
  | CartesianSelection.Y => a.mul (a.mul c.optimizationFunctionFactor d.2.1) d.2.1
  | CartesianSelection.Z => a.mul (a.mul c.optimizationFunctionFactor d.2.2) d.2.2
  | CartesianSelection.Position => a.mul c.optimizationFunctionFactor (dot a d d)
  | CartesianSelection.All => a.mul c.optimizationFunctionFactor (dot a d d)
  | CartesianSelection.Orientation => Flt.fin 0

/-- The expression `2 * optimizationFunctionFactor * v.transpose() * J`, evaluated from
the left as it is written: one entry for each of the `size` columns of `J`. -/
def scaledRowTimesJ (a : Arith) (c : PositionConstraint) (v : Vector3f) : List Flt :=
  let w := a.mul (Flt.fin 2) c.optimizationFunctionFactor
  let r : Vector3f := (a.mul w v.1, a.mul w v.2.1, a.mul w v.2.2)
  (List.range c.size).map (fun j =>
    a.add (a.add (a.mul r.1 (c.J 0 j)) (a.mul r.2.1 (c.J 1 j))) (a.mul r.2.2 (c.J 2 j)))

/-- Method `PositionConstraint::optimizationGradient`, in the arithmetic `a` of `float`. -/
def optimizationGradient (a : Arith) (c : PositionConstraint) : List Flt :=
  let d := c.d a
  match c.cartesianSelection with
  | CartesianSelection.X => scaledRowTimesJ a c (d.1, Flt.fin 0, Flt.fin 0)
  | CartesianSelection.Y => scaledRowTimesJ a c (Flt.fin 0, d.2.1, Flt.fin 0)
  | CartesianSelection.Z => scaledRowTimesJ a c (Flt.fin 0, Flt.fin 0, d.2.2)
  | CartesianSelection.Position => scaledRowTimesJ a c d
  | CartesianSelection.All => scaledRowTimesJ a c d
  | CartesianSelection.Orientation => List.replicate c.size (Flt.fin 0)

end PositionConstraint

/-- A position constraint over two joints whose target is the origin of the end-effector
frame, with the given selection, weighting factor and Jacobian. -/
def atTarget (sel : CartesianSelection) (factor : Flt) (J : Nat → Nat → Flt) : PositionConstraint :=
  { eefPosition := (Flt.fin 1, Flt.fin 2, Flt.fin 3)
    target := (Flt.fin 1, Flt.fin 2, Flt.fin 3)
    cartesianSelection := sel
    optimizationFunctionFactor := factor
    size := 2
    J := J }

/-! ## TSRConstraint

The constraint works on homogeneous matrices with Eigen and with the conversions of
`MathTools`, which are external: they enter as the record `PoseMath`. -/

/-- An `Eigen::Matrix4f`, given by its entries. -/
abbrev Matrix4f := Nat → Nat → Flt

/-- The operations of Eigen and `MathTools` that `TSRConstraint` calls: the inverse and
the product of matrices, `MathTools::eigen4f2rpy` (the six floats it writes, position and
then roll, pitch, yaw), `MathTools::posrpy2eigen4f` and the norm of a vector. -/
structure PoseMath where
  (inverse : Matrix4f → Matrix4f)
  (mul : Matrix4f → Matrix4f → Matrix4f)
  (eigen4f2rpy : Matrix4f → Nat → Flt)
  (posrpy2eigen4f : List Flt → List Flt → Matrix4f)
  (norm : List Flt → Flt)

/-- The value `0.1f`: the single-precision number nearest to 0.1. -/
def f0_1 : Flt := Flt.fin (13421773 / 134217728)

/-- The data members of `TSRConstraint` that its methods read, and the two tolerances
that the constructor hands to `ik->setGoal`. -/
structure TSRConstraint where
  (transformation : Matrix4f)
  (eefOffset : Matrix4f)
  (bounds : Nat → Nat → Flt)
  (toleranceTranslation : Flt)
  (toleranceRotation : Flt)
  (ikTolerancePosition : Flt)
  (ikToleranceRotation : Flt)

namespace TSRConstraint

/-- Constructor `TSRConstraint::TSRConstraint`. -/
def new (transformation eefOffset : Matrix4f) (bounds : Nat → Nat → Flt)
    (tolerancePosition toleranceRotation : Flt) : TSRConstraint :=
  { transformation := transformation
    eefOffset := eefOffset
    bounds := bounds
    toleranceTranslation := Flt.fin 1
    toleranceRotation := f0_1
    ikTolerancePosition := tolerancePosition
    ikToleranceRotation := toleranceRotation }

/-- The first loop of `getError`: the vector `target` built from the array `d_w`. -/
def localTarget (c : TSRConstraint) (d_w : Nat → Flt) : List Flt :=
  (List.range 6).map (fun i =>
    if Flt.lt (d_w i) (c.bounds i 0) then c.bounds i 0
    else if Flt.gt (d_w i) (c.bounds i 1) then c.bounds i 1
    else d_w i)

/-- Method `TSRConstraint::getError`; `eef_global` is `eef->getGlobalPose()` and `a` the
arithmetic of `float`. -/
def getError (a : Arith) (m : PoseMath) (c : TSRConstraint) (eef_global : Matrix4f)
    (stepSize : Flt) : List Flt :=
  let T := m.mul (m.mul (m.inverse c.transformation) eef_global) c.eefOffset
  let d_w := m.eigen4f2rpy T
  let target := c.localTarget d_w
  let T_dx := m.posrpy2eigen4f (target.take 3) (target.drop 3)
  let target_global := m.eigen4f2rpy (m.mul c.transformation T_dx)
  let e_global := m.eigen4f2rpy (m.mul eef_global c.eefOffset)
  let dx := (List.range 6).map (fun i => a.sub (target_global i) (e_global i))
  dx.map (fun v => a.mul v stepSize)

/-- Method `TSRConstraint::checkTolerances`. -/
def checkTolerances (a : Arith) (m : PoseMath) (c : TSRConstraint) (eef_global : Matrix4f) : Bool :=
  let error := c.getError a m eef_global (Flt.fin 1)
  Flt.lt (m.norm (error.take 3)) c.toleranceTranslation &&
    Flt.lt (m.norm (error.drop 3)) c.toleranceRotation

/-- What the tolerances given to the constructor ask of an error: the norm of the
translational part below `tolerancePosition` and the norm of the rotational part below
`toleranceRotation`. -/
def withinGivenTolerances (m : PoseMath) (tolerancePosition toleranceRotation : Flt)
    (error : List Flt) : Bool :=
  Flt.lt (m.norm (error.take 3)) tolerancePosition &&
    Flt.lt (m.norm (error.drop 3)) toleranceRotation

end TSRConstraint

/-- The pose at the position `(x, y, z)` without rotation, as a matrix. -/
def translationMatrix (x y z : Flt) : Matrix4f := fun r k =>
  if k = 3 then (if r = 0 then x else if r = 1 then y else if r = 2 then z else Flt.fin 1)
  else if r = k then Flt.fin 1 else Flt.fin 0

/-- The operations of `PoseMath` on poses without rotation: such a pose is its
position; the norm is taken of vectors with at most one entry different from zero, where
it is the sum of the absolute values of the entries. -/
def translationMath : PoseMath :=
  { inverse := fun t => translationMatrix (Flt.neg (t 0 3)) (Flt.neg (t 1 3)) (Flt.neg (t 2 3))
    mul := fun s t =>
      translationMatrix (Flt.add (s 0 3) (t 0 3)) (Flt.add (s 1 3) (t 1 3)) (Flt.add (s 2 3) (t 2 3))
    eigen4f2rpy := fun t i => if i < 3 then t i 3 else Flt.fin 0
    posrpy2eigen4f := fun pos _ =>
      translationMatrix (pos.getD 0 (Flt.fin 0)) (pos.getD 1 (Flt.fin 0)) (pos.getD 2 (Flt.fin 0))
    norm := fun v => v.foldl (fun n e =>
      match e with
      | Flt.fin r => Flt.add n (Flt.fin |r|)
      | e => Flt.add n e) (Flt.fin 0) }

/-- A region constraint whose region is the single pose at the origin of the world, built
with the tolerances `tolerancePosition` and `toleranceRotation`. -/
def originRegion (tolerancePosition toleranceRotation : Flt) : TSRConstraint :=
  TSRConstraint.new (translationMatrix (Flt.fin 0) (Flt.fin 0) (Flt.fin 0))
    (translationMatrix (Flt.fin 0) (Flt.fin 0) (Flt.fin 0)) (fun _ _ => Flt.fin 0)
    tolerancePosition toleranceRotation

/-! ## MTPlanningScenery

The scenery polls planners and worker threads that run on their own.  A planner, a
planning thread and a post-processing thread are given by what the scenery reads of them
at the moment of a call; the viewer is external and appears as the list of the
visualizations added to its layer `solution`. -/

/-- A path in configuration space (what `clone()` copies). -/
abbrev CSpacePath := List Nat

/-- The ways a call of the scenery stops the program. -/
inductive MTFault where
  /-- A call through a shared pointer that holds no object. -/
  | nullDereference (pointer : String) : MTFault
  /-- An index at or beyond the size of a vector. -/
  | outOfRange (vector : String) : MTFault
deriving DecidableEq

/-- A planner (`BiRrtPtr`): what `getSolution()` returns. -/
structure BiRrt where
  (getSolution : Option CSpacePath)
deriving DecidableEq

/-- A planning thread (`PlanningThreadPtr`): what `isRunning()` returns. -/
structure PlanningThread where
  (isRunning : Bool)
deriving DecidableEq

/-- A post-processing thread (`PathProcessingThreadPtr` that holds an object): the path it
works on, what `isRunning()` returns and what `getProcessedPath()` returns. -/
structure PathProcessingThread where
  (path : CSpacePath)
  (isRunning : Bool)
  (getProcessedPath : Option CSpacePath)
deriving DecidableEq

/-- The build and the viewer: whether `Simox_USE_COIN_VISUALIZATION` is defined, and
whether `w->getVisualization()` returns an object for problem `i`. -/
structure MTEnv where
  (coin : Bool)
  (getVisualization : Nat → Bool)

/-- The data members of `MTPlanningScenery` that the embedded methods read or assign.
A shared pointer that may be empty is an `Option`; `robots` and `CSpaces` are kept by
their sizes; `solutionLayer` lists the calls `viewer->addVisualization("solution", id, wv)`
made so far, the id `"solution-orig-" << i` as the pair of its prefix and `i`. -/
structure MTPlanningScenery where
  (environmentUnited : Bool)
  (plannersStarted : Bool)
  (optimizeStarted : Bool)
  (robots : Nat)
  (CSpaces : Nat)
  (planners : List BiRrt)
  (planningThreads : List PlanningThread)
  (solutions : List (Option CSpacePath))
  (optiSolutions : List (Option CSpacePath))
  (optimizeThreads : List (Option PathProcessingThread))
  (solutionLayer : List (String × Nat))
deriving DecidableEq

namespace MTPlanningScenery

/-- Constructor `MTPlanningScenery::MTPlanningScenery`: `buildScene` creates the united
environment, the flags are false and the vectors are empty. -/
def new : MTPlanningScenery :=
  { environmentUnited := true
    plannersStarted := false
    optimizeStarted := false
    robots := 0
    CSpaces := 0
    planners := []
    planningThreads := []
    solutions := []
    optiSolutions := []
    optimizeThreads := []
    solutionLayer := [] }

/-- Method `buildPlanningThread`; `robotLoaded` tells whether `loadRobotMTPlanning` adds a
robot, and `planner` is the planner it creates.  The two loops that sample a start and a
goal free of collisions are taken to end. -/
def buildPlanningThread (s : MTPlanningScenery) (robotLoaded : Bool) (planner : BiRrt) :
    MTPlanningScenery :=
  if !s.environmentUnited then s
  else if s.plannersStarted then s
  else
    let s := if robotLoaded then { s with robots := s.robots + 1 } else s
    if s.robots = 0 then s
    else
      { s with planners := s.planners ++ [planner]
               CSpaces := s.CSpaces + 1
               planningThreads := s.planningThreads ++ [{ isRunning := false }]
               solutions := s.solutions ++ [none]
               optiSolutions := s.optiSolutions ++ [none]
               optimizeThreads := s.optimizeThreads ++ [none] }

/-- Method `startPlanning`: every planning thread is started. -/
def startPlanning (s : MTPlanningScenery) : MTPlanningScenery :=
  if s.plannersStarted then s
  else
    { s with planningThreads := s.planningThreads.map (fun _ => { isRunning := true })
             plannersStarted := true }

/-- Not a method: the planning thread of problem `i` ends on its own and its planner
holds `solution` from then on. -/
def plannerFinished (s : MTPlanningScenery) (i : Nat) (solution : Option CSpacePath) :
    MTPlanningScenery :=
  { s with planningThreads := s.planningThreads.set i { isRunning := false }
           planners := s.planners.set i { getSolution := solution } }

/-- The body of the loop of `checkPlanningThreads` for the index `i`. -/
def checkPlanningThread (env : MTEnv) (s : MTPlanningScenery) (i : Nat) :
    Except MTFault MTPlanningScenery :=
  match s.planningThreads[i]? with
  | none => .error (MTFault.outOfRange "planningThreads")
  | some t =>
    if !t.isRunning then
      match s.solutions[i]? with
      | none => .error (MTFault.outOfRange "solutions")
      | some (some _) => .ok s
      | some none =>
        match s.planners[i]? with
        | none => .error (MTFault.outOfRange "planners")
        | some p =>
          match p.getSolution with
          | some sol =>
            let s := { s with solutions := s.solutions.set i (some sol) }
            if env.coin then
              if env.getVisualization i then
                .ok { s with solutionLayer := s.solutionLayer ++ [("solution-orig-", i)] }
              else .ok s
            else .error (MTFault.nullDereference "w")
          | none => .ok s
    else .ok s

/-- A loop `for (i = ...; i < n; i++)` over the indices of the list `is`, with the body
`body`. -/
def forLoop (body : MTPlanningScenery → Nat → Except MTFault MTPlanningScenery) :
    List Nat → MTPlanningScenery → Except MTFault MTPlanningScenery
  | [], s => .ok s
  | i :: is, s =>
    match body s i with
    | .error e => .error e
    | .ok s1 => forLoop body is s1

/-- Method `checkPlanningThreads`. -/
def checkPlanningThreads (env : MTEnv) (s : MTPlanningScenery) : Except MTFault MTPlanningScenery :=
  if !s.plannersStarted then .ok s
  else forLoop (checkPlanningThread env) (List.range s.planningThreads.length) s

/-- The first loop of `startOptimizing` for the index `i`: a post-processing thread is
built for a problem that has a solution. -/
def buildOptimizeThreadAt (s : MTPlanningScenery) (i : Nat) : Except MTFault MTPlanningScenery :=
  match s.solutions[i]? with
  | none => .error (MTFault.outOfRange "solutions")
  | some none => .ok s
  | some (some path) =>
    if i < s.optimizeThreads.length ∧ i < s.optiSolutions.length ∧ i < s.CSpaces then
      .ok { s with optimizeThreads := s.optimizeThreads.set i
                     (some { path := path, isRunning := false, getProcessedPath := none })
                   optiSolutions := s.optiSolutions.set i none }
    else .error (MTFault.outOfRange "optimizeThreads")

/-- Method `startOptimizing`. -/
def startOptimizing (s : MTPlanningScenery) : Except MTFault MTPlanningScenery :=
  if !s.plannersStarted then .ok s
  else if s.CSpaces = 0 || s.solutions.isEmpty then .ok s
  else if s.planningThreads.any (fun t => t.isRunning) then .ok s
  else if s.optimizeStarted then .ok s
  else
    match forLoop buildOptimizeThreadAt (List.range s.solutions.length) s with
    | .error e => .error e
    | .ok s =>
      .ok { s with optimizeThreads := s.optimizeThreads.map (fun t =>
                     match t with
                     | some t => some { t with isRunning := true }
                     | none => none)
                   optimizeStarted := true }

/-- The body of the loop of `checkOptimizeThreads` for the index `i`. -/
def checkOptimizeThread (env : MTEnv) (s : MTPlanningScenery) (i : Nat) :
    Except MTFault MTPlanningScenery :=
  match s.optimizeThreads[i]? with
  | none => .error (MTFault.outOfRange "optimizeThreads")
  | some none => .error (MTFault.nullDereference "optimizeThreads[i]")
  | some (some t) =>
    if !t.isRunning then
      match t.getProcessedPath with
      | some pOptiSol =>
        match s.optiSolutions[i]? with
        | none => .error (MTFault.outOfRange "optiSolutions")
        | some (some _) => .ok s
        | some none =>
          if env.coin then
            let s := { s with optiSolutions := s.optiSolutions.set i (some pOptiSol) }
            if env.getVisualization i then
              .ok { s with solutionLayer := s.solutionLayer ++ [("solution-optimized-", i)] }
            else .ok s
          else .error (MTFault.nullDereference "w")
      | none => .ok s
    else .ok s

/-- Method `checkOptimizeThreads`. -/
def checkOptimizeThreads (env : MTEnv) (s : MTPlanningScenery) : Except MTFault MTPlanningScenery :=
  if !s.optimizeStarted then .ok s
  else forLoop (checkOptimizeThread env) (List.range s.optimizeThreads.length) s

/-- The body of the first loop of `stopOptimizing` for the index `i`. -/
def stopOptimizeThread (s : MTPlanningScenery) (i : Nat) : Except MTFault MTPlanningScenery :=
  match s.optimizeThreads[i]? with
  | none => .error (MTFault.outOfRange "optimizeThreads")
  | some none => .error (MTFault.nullDereference "optimizeThreads[i]")
  | some (some t) =>
    .ok { s with optimizeThreads := s.optimizeThreads.set i (some { t with isRunning := false }) }

/-- Method `stopOptimizing`. -/
def stopOptimizing (s : MTPlanningScenery) : Except MTFault MTPlanningScenery :=
  if !s.optimizeStarted then .ok s
  else
    match forLoop stopOptimizeThread (List.range s.optimizeThreads.length) s with
    | .error e => .error e
    | .ok s => .ok { s with optimizeStarted := false }

/-- The condition under which the body of the loop of `checkPlanningThreads` leaves the
scenery as it is for the problem `i`: its thread runs, or its solution is stored, or its
planner has no solution. -/
def Settled (s : MTPlanningScenery) (i : Nat) : Prop :=
  ∃ t, s.planningThreads[i]? = some t ∧
    (t.isRunning = true ∨ (∃ path, s.solutions[i]? = some (some path)) ∨
      (s.solutions[i]? = some none ∧ ∃ p, s.planners[i]? = some p ∧ p.getSolution = none))

end MTPlanningScenery

/-! ## Joint coupling

`ModelJoint::setJointValue` ends with `updatePose(true, true)`, which runs
`updatePoseInternally` and so hands the value on to the joints that
`propagatedJointValues` names.  These are other nodes of the model, found by name. -/

/-- A node of a model as `updatePoseInternally` tells nodes apart: a joint, or a node of
another type. -/
inductive ModelNode where
  | joint (j : ModelJoint) : ModelNode
  | other : ModelNode

/-- Modelled from the spec: the model as `Model::getModelNode(name)` reads it, which is
defined outside the sources at hand: node names are unique within a model, and a name
without a node gives an empty pointer. -/
abbrev Model := String → Option ModelNode

/-- The model with the node `name` replaced. -/
def Model.setNode (m : Model) (name : String) (n : ModelNode) : Model :=
  fun k => if k = name then some n else m k

/-- The statement `propagatedJointValues.erase(jointName)` on the entries of the map. -/
def couplingErase (jointName : String) (entries : List (String × Flt)) : List (String × Flt) :=
  entries.filter (fun e => decide (e.1 ≠ jointName))

/-- The statement `propagatedJointValues[jointName] = factor` on the entries of the map,
which are kept in the order of their keys. -/
def couplingAssign (jointName : String) (factor : Flt) :
    List (String × Flt) → List (String × Flt)
  | [] => [(jointName, factor)]
  | (k, f) :: rest =>
    if jointName < k then (jointName, factor) :: (k, f) :: rest
    else if jointName = k then (k, factor) :: rest
    else (k, f) :: couplingAssign jointName factor rest

/-- Method `ModelJoint::propagateJointValue`. -/
def ModelJoint.propagateJointValue (j : ModelJoint) (jointName : String) (factor : Flt) :
    ModelJoint :=
  if !(Flt.ne factor (Flt.fin 0)) then
    { j with propagatedJointValues := couplingErase jointName j.propagatedJointValues }
  else
    { j with propagatedJointValues := couplingAssign jointName factor j.propagatedJointValues }

/-- The loop of `ModelJoint::updatePoseInternally` of the joint `name` over the entries of
its map; `setJointValue` is the method of the dependent joints, and `none` means that the
calls do not come to an end. -/
def propagateLoop (a : Arith) (setJointValue : Model → String → Flt → Option (Except Failure Model))
    (name : String) : List (String × Flt) → Model → Option (Except Failure Model)
  | [], m => some (.ok m)
  | (dependent, factor) :: rest, m =>
    match m dependent with
    | some (ModelNode.joint _) =>
      match m name with
      | some (ModelNode.joint j) =>
        match setJointValue m dependent (a.mul j.jointValue factor) with
        | none => none
        | some (.error e) => some (.error e)
        | some (.ok m1) => propagateLoop a setJointValue name rest m1
      | _ => some (.ok m)
    | _ => propagateLoop a setJointValue name rest m

/-- Modelled from the spec: `ModelNode::updatePose(true, true)`, defined outside the
sources at hand: it runs the virtual method `updatePoseInternally` of the node (and
recomputes poses, which are not part of this state). -/
def updatePose (updatePoseInternally : Model → Option (Except Failure Model)) (m : Model) :
    Option (Except Failure Model) :=
  updatePoseInternally m

/-- Method `ModelJoint::setJointValue` of the joint `name` of a model, with the effect on
the other joints of the model: the write of `setJointValueNoUpdate`, then
`updatePose(true, true)`, which reaches `ModelJoint::updatePoseInternally` and its loop
over the coupling entries.  `fuel` bounds the depth of the calls, and `none` means that
it ran out. -/
def Model.setJointValue (ndebug : Bool) (a : Arith) :
    Nat → Model → String → Flt → Option (Except Failure Model)
  | 0, _, _, _ => none
  | fuel + 1, m, name, q =>
    match m name with
    | some (ModelNode.joint j) =>
      match j.setJointValueNoUpdate ndebug q with
      | .error e => some (.error e)
      | .ok j1 =>
        updatePose
          (propagateLoop a (Model.setJointValue ndebug a fuel) name j1.propagatedJointValues)
          (m.setNode name (ModelNode.joint j1))
    | _ => some (.ok m)

/-- The loop of `ModelJoint::updatePoseInternally` as `propagateLoop`, with the model at
the end of the loop also when the call of a dependent joint ends at its assertion. -/
def propagateLoopExit (a : Arith)
    (setJointValue : Model → String → Flt → Option (Model × Except Failure Unit))
    (name : String) : List (String × Flt) → Model → Option (Model × Except Failure Unit)
  | [], m => some (m, .ok ())
  | (dependent, factor) :: rest, m =>
    match m dependent with
    | some (ModelNode.joint _) =>
      match m name with
      | some (ModelNode.joint j) =>
        match setJointValue m dependent (a.mul j.jointValue factor) with
        | none => none
        | some (m1, .error e) => some (m1, .error e)
        | some (m1, .ok _) => propagateLoopExit a setJointValue name rest m1
      | _ => some (m, .ok ())
    | _ => propagateLoopExit a setJointValue name rest m

/-- Method `ModelJoint::setJointValue` of the joint `name` of a model as
`Model.setJointValue`, with the model at the end of the call also when the call ends at
an assertion: the call of `setJointValueNoUpdate`, then `updatePose(true, true)` with the
loop over the coupling entries. -/
def Model.setJointValueExit (ndebug : Bool) (a : Arith) :
    Nat → Model → String → Flt → Option (Model × Except Failure Unit)
  | 0, _, _, _ => none
  | fuel + 1, m, name, q =>
    match m name with
    | some (ModelNode.joint j) =>
      match j.setJointValueNoUpdateExit ndebug q with
      | (j1, .error e) => some (m.setNode name (ModelNode.joint j1), .error e)
      | (j1, .ok _) =>
        propagateLoopExit a (Model.setJointValueExit ndebug a fuel) name
          j1.propagatedJointValues (m.setNode name (ModelNode.joint j1))
    | _ => some (m, .ok ())

/-- The result of a call as `Model.setJointValue` gives it, read off the model at the end
of the call and the way the call ends. -/
def Model.exitResult : Option (Model × Except Failure Unit) → Option (Except Failure Model)
  | none => none
  | some (m, .ok _) => some (.ok m)
  | some (_, .error e) => some (.error e)

/-- The value of the joint `name` in the model that a call leaves, if it returns and the
node is a joint. -/
def Model.valueAfter (r : Option (Except Failure Model)) (name : String) : Option Flt :=
  match r with
  | some (.ok m) =>
    match m name with
    | some (ModelNode.joint j) => some j.jointValue
    | _ => none
  | _ => none

/-- A joint with the limits `[-100, 100]` and the given coupling entries. -/
def coupledJoint (entries : List (String × Flt)) : ModelJoint :=
  { ModelJoint.new (Flt.fin (-100)) (Flt.fin 100) (Flt.fin 0) with
    propagatedJointValues := entries }

/-- A model of three joints: `J` is coupled to `D` with the factor 2 and to `E` with the
factor 1, and `E` is coupled to `D` with the factor 10. -/
def twoPathModel : Model := fun k =>
  if k = "J" then some (ModelNode.joint (coupledJoint [("D", Flt.fin 2), ("E", Flt.fin 1)]))
  else if k = "D" then some (ModelNode.joint (coupledJoint []))
  else if k = "E" then some (ModelNode.joint (coupledJoint [("D", Flt.fin 10)]))
  else none

/-- A model of two joints: `J` is coupled to `D` with the factor 2, and `D` has the
limits `[-1, 1]`. -/
def coupledModel : Model := fun k =>
  if k = "J" then some (ModelNode.joint (coupledJoint [("D", Flt.fin 2)]))
  else if k = "D" then
    some (ModelNode.joint (ModelJoint.new (Flt.fin (-1)) (Flt.fin 1) (Flt.fin 0)))
  else none

/-- A model of one joint `J` with the limits `[-100, 100]` that is coupled to itself with
the given factor. -/
def selfCoupledModel (factor : Flt) : Model := fun k =>
  if k = "J" then some (ModelNode.joint (coupledJoint [("J", factor)])) else none

/-- A model whose only node is the joint `j`, under the name `J`. -/
def loneModel (j : ModelJoint) : Model := fun k =>
  if k = "J" then some (ModelNode.joint j) else none

/-- A joint with limits `[-10, 10]`. -/
def demoJoint : ModelJoint := ModelJoint.new (Flt.fin (-10)) (Flt.fin 10) (Flt.fin 0)

/-- An environment with assertions enabled, exact arithmetic and `rand()` returning 0. -/
def demoEnv : Env :=
  { ndebug := false, rand := fun _ => 0, toFloat := fun v => v, f := exactArith, d := exactArith }

/-- An optimizer that evaluates its start vector once and leaves `result attempt` in
every entry of `x`. -/
def demoOptimizer (result : Nat → Flt) : Optimizer :=
  { optimize := fun attempt x => { evaluated := [x], x := fun _ => result attempt } }

/-- A constraint with one hard function: the first joint has to be at 3, and the value
of the function is the squared distance of the first joint from 3. -/
def demoConstraint : Constraint :=
  let impl : ConstraintImpl :=
    { optimizationFunction := fun _ q =>
        let d := Flt.add (q.headD (Flt.fin 0)) (Flt.fin (-3))
        Flt.mul d d
      optimizationGradient := fun _ q =>
        [Flt.mul (Flt.fin 2) (Flt.add (q.headD (Flt.fin 0)) (Flt.fin (-3)))]
      checkTolerances := fun q => decide (q.headD (Flt.fin 0) = Flt.fin 3)
      usingCollisionModel := false }
  { impl := impl, getOptimizationFunctions := [{ id := 0, constraint := impl, soft := false }] }

/-- A solver over the one-joint robot, after `initialise`, with the given constraint,
attempt budget and optimizer. -/
def demoState (c : Constraint) (maxIterations : Nat) (result : Nat → Flt) : IKState :=
  let robot : Robot := { joints := [demoJoint], updateVisualization := true, updateCollisionModel := true }
  { ik := { (ConstrainedOptimizationIK.new [c]).initialise robot (demoOptimizer result) with
            maxIterations := maxIterations }
    robot := robot
    randCalls := 0 }

/-- A joint with the limits `[-1, 1.57f]`. -/
def elbowJoint : ModelJoint := ModelJoint.new (Flt.fin (-1)) f1_57 (Flt.fin 0)

/-- A solver over the robot of this one joint, after `initialise`, with the settings of
the constructor: displacement factor 1 and the two seeds. -/
def elbowState : IKState :=
  let robot : Robot := { joints := [elbowJoint], updateVisualization := true, updateCollisionModel := true }
  { ik := (ConstrainedOptimizationIK.new [demoConstraint]).initialise robot
      (demoOptimizer (fun _ => Flt.fin 0))
    robot := robot
    randCalls := 0 }

/-- The flag that a result of `solve` or of an attempt carries (false for a failure). -/
def okFlag {α : Type} : Except Failure (Bool × α) → Bool
  | .ok (b, _) => b
  | .error _ => false

/-- The flag `success` of an attempt that reached its hard-constraint check (false for a
failure). -/
def attemptFlag : Except Failure (IKState × List Flt × Bool × Flt) → Bool
  | .ok (_, _, b, _) => b
  | .error _ => false

/-- The joint values at the hard-constraint check of an attempt. -/
def attemptConfig : Except Failure (IKState × List Flt × Bool × Flt) → List Flt
  | .ok (s, _, _, _) => s.robot.config
  | .error _ => []

/-- The returned flag of `solve` and the joint values it leaves, `none` for a failure. -/
def solveOutcome : Except Failure (Bool × IKState) → Option (Bool × List Flt)
  | .ok (b, s) => some (b, s.robot.config)
  | .error _ => none

/-- The results of the optimizer in the demonstrations: 5, 2, 4 and then 3. -/
def demoResults : Nat → Flt := fun attempt =>
  if attempt = 0 then Flt.fin 5 else if attempt = 1 then Flt.fin 2
  else if attempt = 2 then Flt.fin 4 else Flt.fin 3


/-- The three failed attempts with which the demonstration solver starts, for the
attempt budget `n`. -/
def demoLog (n : Nat) : List ConstrainedOptimizationIK.AttemptRecord :=
  (ConstrainedOptimizationIK.failedRounds demoEnv (demoOptimizer demoResults) 3 0
    (ConstrainedOptimizationIK.entryState (demoState demoConstraint n demoResults))).getD []

/-- A gradient environment for the one-joint robot: the joint is not rotational, and
`normalize()` divides the single entry of a vector by its absolute value. -/
def demoGradientEnv : ConstrainedOptimizationIK.GradientEnv :=
  { isRotationalJoint := fun _ => false
    unassigned := fun _ => Flt.nan
    normalize := fun g => g.map (fun v =>
      match v with
      | Flt.fin r => if r = 0 then Flt.fin 0 else Flt.fin (r / |r|)
      | v => v) }

/-- The value that a callback of the solver returns, if it returns. -/
def callbackValue : Except Failure (IKState × Flt × List Flt) → Option Flt
  | .ok (_, value, _) => some value
  | .error _ => none

/-- The gradient that a callback of the solver leaves, if it returns. -/
def callbackGradient : Except Failure (IKState × Flt × List Flt) → Option (List Flt)
  | .ok (_, _, gradient) => some gradient
  | .error _ => none

end VirtualRobot


namespace VirtualRobot

/-! ## Properties of joint value writes -/

/-- A write that passes the assertion stores the clamped value and nothing else. -/
theorem ModelJoint.setJointValueNoUpdate_of_valid (ndebug : Bool) (j : ModelJoint) (q : Flt)
    (h : ndebug = true ∨ (!q.isnan && !q.isinf) = true) :
    j.setJointValueNoUpdate ndebug q = .ok { j with jointValue := j.respectJointLimits q } := by
  unfold ModelJoint.setJointValueNoUpdate VR_ASSERT
  rcases h with h | h
  · subst h; rfl
  · rw [h]; cases ndebug <;> rfl

/-! ## Properties of the collision-detection manager -/

/-- The inner loop of `isInCollision` finds a collision exactly when some set of the
list collides with `m`. -/
theorem CDManager.isInCollisionSets_iff (c : CollisionChecker) (m : LinkSetPtr)
    (sets : List LinkSetPtr) :
    CDManager.isInCollisionSets c m sets = true ↔ ∃ b ∈ sets, c.checkCollision m b = true := by
  induction sets with
  | nil => simp [CDManager.isInCollisionSets]
  | cons s sets ih =>
    unfold CDManager.isInCollisionSets
    by_cases h : c.checkCollision m s = true
    · simp [h]
    · simp [h, ih]

/-- The outer loop of `isInCollision` finds a collision exactly when some entry of the
map holds a colliding pair. -/
theorem CDManager.isInCollisionLoop_iff (c : CollisionChecker)
    (pairs : List (LinkSetPtr × List LinkSetPtr)) :
    CDManager.isInCollisionLoop c pairs = true ↔
      ∃ a sets, (a, sets) ∈ pairs ∧ ∃ b ∈ sets, c.checkCollision a b = true := by
  induction pairs with
  | nil => simp [CDManager.isInCollisionLoop]
  | cons e pairs ih =>
    obtain ⟨k, ks⟩ := e
    unfold CDManager.isInCollisionLoop
    by_cases h : CDManager.isInCollisionSets c k ks = true
    · simp only [h, if_true, true_iff]
      exact ⟨k, ks, List.mem_cons_self _ _, (CDManager.isInCollisionSets_iff c k ks).1 h⟩
    · simp only [h, if_false, ih, Bool.false_eq_true]
      constructor
      · rintro ⟨a, sets, hmem, hb⟩
        exact ⟨a, sets, List.mem_cons_of_mem _ hmem, hb⟩
      · rintro ⟨a, sets, hmem, hb⟩
        rcases List.mem_cons.1 hmem with heq | hmem
        · cases heq
          exact absurd ((CDManager.isInCollisionSets_iff c k ks).2 hb) h
        · exact ⟨a, sets, hmem, hb⟩

/-- C4: `isInCollision()` returns true if and only if the manager has a checker and
there is a registered pair `(a, b)` for which `checkCollision(a, b)` is true; with no
registered pair it returns false.  Scenario: two boxes registered with one explicit pair
give false while they are apart and true once one is moved onto the other. -/
theorem CDManager.isInCollision_iff_registered_pair :
    (∀ cd : CDManager, cd.isInCollision = true ↔
      ∃ c, cd.colChecker = some c ∧ ∃ a b, cd.Registered a b ∧ c.checkCollision a b = true) ∧
    (∀ cd : CDManager, (∀ a b, ¬ cd.Registered a b) → cd.isInCollision = false) ∧
    ((CDManager.new (some (boxChecker boxHeap centresApart)) none).addCollisionModelPair
        boxHeap 1 2).isInCollision = false ∧
    ((CDManager.new (some (boxChecker boxHeap centresMoved)) none).addCollisionModelPair
        boxHeap 1 2).isInCollision = true := by
  have key : ∀ cd : CDManager, cd.isInCollision = true ↔
      ∃ c, cd.colChecker = some c ∧ ∃ a b, cd.Registered a b ∧ c.checkCollision a b = true := by
    intro cd
    unfold CDManager.isInCollision CDManager.Registered
    cases hc : cd.colChecker with
    | none => simp
    | some c =>
      simp only [CDManager.isInCollisionLoop_iff, Option.some.injEq, exists_eq_left']
      constructor
      · rintro ⟨a, sets, hmem, b, hb, hcol⟩
        exact ⟨a, b, ⟨sets, hmem, hb⟩, hcol⟩
      · rintro ⟨a, b, ⟨sets, hmem, hb⟩, hcol⟩
        exact ⟨a, sets, hmem, b, hb, hcol⟩
  refine ⟨key, ?_, by decide, by decide⟩
  intro cd hno
  cases h : cd.isInCollision with
  | false => rfl
  | true =>
    obtain ⟨c, -, a, b, hreg, -⟩ := (key cd).1 h
    exact absurd hreg (hno a b)

/-- C9 as stated fails: with a checker that is not symmetric, registering only the pair
`(1, 2)` gives `isInCollision() = true` and registering only `(2, 1)` gives `false`. -/
theorem CDManager.isInCollision_not_symmetric :
    ((CDManager.new (some orderChecker) none).addCollisionModelPair boxHeap 1 2).isInCollision = true ∧
    ((CDManager.new (some orderChecker) none).addCollisionModelPair boxHeap 2 1).isInCollision = false := by
  decide

/-- Registering a pair leaves the checker of the manager as it is. -/
theorem CDManager.addCollisionModelPair_colChecker (heap : LinkSetHeap) (cd : CDManager)
    (a b : LinkSetPtr) : (cd.addCollisionModelPair heap a b).colChecker = cd.colChecker := by
  unfold CDManager.addCollisionModelPair
  dsimp only
  split_ifs <;> rfl

/-- Registering a pair of non-null sets appends `b` to the entry of `a` in the map;
with a null set the map is unchanged. -/
theorem CDManager.addCollisionModelPair_colModelPairs (heap : LinkSetHeap) (cd : CDManager)
    (a b : LinkSetPtr) :
    (cd.addCollisionModelPair heap a b).colModelPairs =
      if a = 0 ∨ b = 0 then cd.colModelPairs else mapPushBack a b cd.colModelPairs := by
  unfold CDManager.addCollisionModelPair
  dsimp only
  split_ifs <;> rfl

/-- The query `isInCollision()` on a fresh manager in which one pair was registered. -/
theorem CDManager.isInCollision_single_pair (heap : LinkSetHeap)
    (colChecker globalChecker : Option CollisionChecker) (a b : LinkSetPtr) :
    ((CDManager.new colChecker globalChecker).addCollisionModelPair heap a b).isInCollision =
      match (CDManager.new colChecker globalChecker).colChecker with
      | none => false
      | some c => decide (a ≠ 0 ∧ b ≠ 0) && c.checkCollision a b := by
  unfold CDManager.isInCollision
  rw [CDManager.addCollisionModelPair_colChecker, CDManager.addCollisionModelPair_colModelPairs]
  cases (CDManager.new colChecker globalChecker).colChecker with
  | none => rfl
  | some c =>
    by_cases h : a = 0 ∨ b = 0
    · have : decide (a ≠ 0 ∧ b ≠ 0) = false := by
        simp only [decide_eq_false_iff_not]; tauto
      simp [h, this, CDManager.new, CDManager.isInCollisionLoop]
    · have hd : decide (a ≠ 0 ∧ b ≠ 0) = true := by
        simp only [decide_eq_true_eq]; tauto
      simp [h, hd, CDManager.new, mapPushBack, CDManager.isInCollisionLoop,
        CDManager.isInCollisionSets]

/-- C9 (as amended): for any two link sets `A` and `B` and any collision checker whose
`checkCollision` gives the same answer for `(A, B)` and `(B, A)`, a manager in which only
the pair `(A, B)` was registered returns the same `isInCollision()` result as a manager
in which only the pair `(B, A)` was registered. -/
theorem CDManager.isInCollision_symmetric (heap : LinkSetHeap)
    (colChecker globalChecker : Option CollisionChecker) (A B : LinkSetPtr)
    (hsym : ∀ c, (CDManager.new colChecker globalChecker).colChecker = some c →
      c.checkCollision A B = c.checkCollision B A) :
    ((CDManager.new colChecker globalChecker).addCollisionModelPair heap A B).isInCollision =
    ((CDManager.new colChecker globalChecker).addCollisionModelPair heap B A).isInCollision := by
  rw [CDManager.isInCollision_single_pair, CDManager.isInCollision_single_pair]
  cases hc : (CDManager.new colChecker globalChecker).colChecker with
  | none => rfl
  | some c =>
    simp only [hsym c hc]
    congr 1
    simp only [decide_eq_decide]
    tauto

/-- C9, witness of the amended statement: the two boxes with the box checker, which is
symmetric. -/
theorem CDManager.isInCollision_symmetric_witness :
    ((CDManager.new (some (boxChecker boxHeap centresMoved)) none).addCollisionModelPair
        boxHeap 1 2).isInCollision =
    ((CDManager.new (some (boxChecker boxHeap centresMoved)) none).addCollisionModelPair
        boxHeap 2 1).isInCollision :=
  CDManager.isInCollision_symmetric boxHeap (some (boxChecker boxHeap centresMoved)) none 1 2
    (by intro c hc; cases hc; decide)

/-- The relation `sameSet` is symmetric. -/
theorem sameSet_symm (heap : LinkSetHeap) {a b : LinkSetPtr} (h : sameSet heap a b) :
    sameSet heap b a := by
  rcases h with h | ⟨h1, h2, h3⟩
  · exact Or.inl h.symm
  · exact Or.inr ⟨h2, h1, h3.symm⟩

/-- The loop of `_hasSceneObjectSet` answers true exactly when some entry of the list is
the same set as `m`. -/
theorem CDManager._hasSceneObjectSet_go_iff (heap : LinkSetHeap) (m : LinkSetPtr)
    (l : List LinkSetPtr) :
    CDManager._hasSceneObjectSet.go heap m l = true ↔ ∃ c ∈ l, sameSet heap c m := by
  induction l with
  | nil => simp [CDManager._hasSceneObjectSet.go]
  | cons c l ih =>
    unfold CDManager._hasSceneObjectSet.go
    by_cases h1 : c = m
    · simp [h1, sameSet]
    · by_cases h2 : getSize heap m = 1 ∧ getSize heap c = 1 ∧ getNode0 heap c = getNode0 heap m
      · simp only [h1, h2, if_false, if_true, true_iff, and_self]
        exact ⟨c, List.mem_cons_self _ _, Or.inr h2⟩
      · simp only [h1, h2, if_false, ih, List.mem_cons, exists_eq_or_imp]
        constructor
        · intro h; exact Or.inr h
        · rintro (h | h)
          · rcases h with h | h
            · exact absurd h h1
            · exact absurd h h2
          · exact h

/-- Method `_hasSceneObjectSet` answers true exactly when a registered model is the same
set as `m`. -/
theorem CDManager._hasSceneObjectSet_iff (heap : LinkSetHeap) (cd : CDManager) (m : LinkSetPtr) :
    cd._hasSceneObjectSet heap m = true ↔ ∃ c ∈ cd.colModels, sameSet heap c m := by
  unfold CDManager._hasSceneObjectSet
  exact CDManager._hasSceneObjectSet_go_iff heap m cd.colModels

/-- Appending a set that no entry duplicates keeps a list free of duplicates. -/
theorem NoDuplicate_append (heap : LinkSetHeap) (l : List LinkSetPtr) (m : LinkSetPtr)
    (hl : NoDuplicate heap l) (hm : ∀ c ∈ l, ¬ sameSet heap c m) :
    NoDuplicate heap (l ++ [m]) := by
  unfold NoDuplicate at *
  rw [List.pairwise_append]
  refine ⟨hl, List.pairwise_singleton _ _, ?_⟩
  intro a ha b hb
  rw [List.mem_singleton] at hb
  subst hb
  exact hm a ha

/-- The guarded `push_back` of the registration methods keeps the list of models free
of duplicates. -/
theorem CDManager.guarded_push_noDuplicate (heap : LinkSetHeap) (cd : CDManager) (m : LinkSetPtr)
    (h : NoDuplicate heap cd.colModels) :
    NoDuplicate heap (if (!(cd._hasSceneObjectSet heap m)) = true
      then { cd with colModels := cd.colModels ++ [m] } else cd).colModels := by
  by_cases hh : cd._hasSceneObjectSet heap m = true
  · simp only [hh, Bool.not_true, Bool.false_eq_true, if_false]
    exact h
  · simp only [hh, Bool.not_false, if_true]
    refine NoDuplicate_append heap _ m h ?_
    intro c hc hs
    exact hh ((CDManager._hasSceneObjectSet_iff heap cd m).2 ⟨c, hc, hs⟩)

/-- Method `addCollisionModelPair` keeps the list of models free of duplicates. -/
theorem CDManager.addCollisionModelPair_noDuplicate (heap : LinkSetHeap) (cd : CDManager)
    (a b : LinkSetPtr) (h : NoDuplicate heap cd.colModels) :
    NoDuplicate heap (cd.addCollisionModelPair heap a b).colModels := by
  unfold CDManager.addCollisionModelPair
  by_cases h0 : a = 0 ∨ b = 0
  · rw [if_pos h0]; exact h
  · rw [if_neg h0]
    exact CDManager.guarded_push_noDuplicate heap _ b
      (CDManager.guarded_push_noDuplicate heap cd a h)

/-- The number of rounds the loop of `addCollisionModel` can still need: the length of
the list of models, plus one while `m` is not yet registered. -/
theorem CDManager.addCollisionModelPair_measure (heap : LinkSetHeap) (cd : CDManager)
    (c m : LinkSetPtr) (hc : c ∈ cd.colModels) :
    (cd.addCollisionModelPair heap c m).colModels.length +
        (if (cd.addCollisionModelPair heap c m)._hasSceneObjectSet heap m = true then 0 else 1) ≤
      cd.colModels.length + (if cd._hasSceneObjectSet heap m = true then 0 else 1) := by
  have hhas : cd._hasSceneObjectSet heap c = true :=
    (CDManager._hasSceneObjectSet_iff heap cd c).2 ⟨c, hc, Or.inl rfl⟩
  unfold CDManager.addCollisionModelPair
  by_cases h0 : c = 0 ∨ m = 0
  · rw [if_pos h0]
  · rw [if_neg h0]
    simp only [hhas, Bool.not_true, Bool.false_eq_true, if_false]
    by_cases hm : cd._hasSceneObjectSet heap m = true
    · simp only [hm, Bool.not_true, Bool.false_eq_true, if_false]
      have : CDManager._hasSceneObjectSet heap
          { colChecker := cd.colChecker, colModels := cd.colModels,
            colModelPairs := mapPushBack c m cd.colModelPairs } m = true := hm
      simp [this]
    · have hnew : CDManager._hasSceneObjectSet heap
          { colChecker := cd.colChecker, colModels := cd.colModels ++ [m],
            colModelPairs := mapPushBack c m cd.colModelPairs } m = true :=
        (CDManager._hasSceneObjectSet_iff heap _ m).2 ⟨m, by simp, Or.inl rfl⟩
      simp [hm, hnew]

/-- The loop of `addCollisionModel` ends within the rounds it is given, keeps the list
of models free of duplicates and leaves the checker as it is. -/
theorem CDManager.addCollisionModelLoop_total (heap : LinkSetHeap) (m : LinkSetPtr) :
    ∀ (fuel i : Nat) (cd : CDManager), 1 ≤ fuel →
      cd.colModels.length + (if cd._hasSceneObjectSet heap m = true then 0 else 1) + 1 ≤ fuel + i →
      ∃ cd1, CDManager.addCollisionModelLoop heap m fuel i cd = some cd1 ∧
        (NoDuplicate heap cd.colModels → NoDuplicate heap cd1.colModels) ∧
        cd1.colChecker = cd.colChecker := by
  intro fuel
  induction fuel with
  | zero => intro i cd h1; omega
  | succ fuel ih =>
    intro i cd _ h
    unfold CDManager.addCollisionModelLoop
    by_cases hi : i < cd.colModels.length
    · rw [dif_pos hi]
      dsimp only
      have hmem : cd.colModels.get ⟨i, hi⟩ ∈ cd.colModels := List.get_mem _ _ _
      by_cases hne : m ≠ cd.colModels.get ⟨i, hi⟩
      · rw [if_pos hne]
        have hmeas := CDManager.addCollisionModelPair_measure heap cd _ m hmem
        obtain ⟨cd1, h1, h2, h3⟩ := ih (i + 1) (cd.addCollisionModelPair heap (cd.colModels.get ⟨i, hi⟩) m)
          (by split at h <;> omega) (by omega)
        exact ⟨cd1, h1, fun hnd => h2 (CDManager.addCollisionModelPair_noDuplicate heap cd _ m hnd),
          by rw [h3, CDManager.addCollisionModelPair_colChecker]⟩
      · rw [if_neg hne]
        exact ih (i + 1) cd (by split at h <;> omega) (by omega)
    · rw [dif_neg hi]
      exact ⟨cd, rfl, id, rfl⟩

/-- Method `addCollisionModel` returns, keeps the list of models free of duplicates and
leaves the checker as it is. -/
theorem CDManager.addCollisionModel_total (heap : LinkSetHeap) (cd : CDManager) (m : LinkSetPtr) :
    ∃ cd1, cd.addCollisionModel heap m = some cd1 ∧
      (NoDuplicate heap cd.colModels → NoDuplicate heap cd1.colModels) ∧
      cd1.colChecker = cd.colChecker := by
  unfold CDManager.addCollisionModel
  by_cases h0 : m ≠ 0
  · rw [if_pos h0]
    obtain ⟨cd1, h1, h2, h3⟩ := CDManager.addCollisionModelLoop_total heap m
      (cd.colModels.length + 2) 0 cd (by omega) (by split <;> omega)
    rw [h1]
    dsimp only
    by_cases hh : cd1._hasSceneObjectSet heap m = true
    · simp only [hh, Bool.not_true, Bool.false_eq_true, if_false]
      exact ⟨cd1, rfl, h2, h3⟩
    · simp only [hh, Bool.not_false, if_true]
      refine ⟨_, rfl, fun hnd => ?_, h3⟩
      have := CDManager.guarded_push_noDuplicate heap cd1 m (h2 hnd)
      simpa [hh] using this
  · rw [if_neg h0]
    exact ⟨cd, rfl, id, rfl⟩

/-- Every sequence of registration calls runs to its end and keeps the list of models
free of duplicates. -/
theorem CDManager.run_noDuplicate (heap : LinkSetHeap) (ops : List CDOp) :
    ∀ cd : CDManager, NoDuplicate heap cd.colModels →
      ∃ cd1, cd.run heap ops = some cd1 ∧ NoDuplicate heap cd1.colModels := by
  induction ops with
  | nil => intro cd h; exact ⟨cd, rfl, h⟩
  | cons op ops ih =>
    intro cd h
    unfold CDManager.run
    cases op with
    | addCollisionModel m =>
      obtain ⟨cd1, h1, h2, -⟩ := CDManager.addCollisionModel_total heap cd m
      simp only [CDManager.step, h1]
      exact ih cd1 (h2 h)
    | addCollisionModelPair m1 m2 =>
      simp only [CDManager.step]
      exact ih _ (CDManager.addCollisionModelPair_noDuplicate heap cd m1 m2 h)

/-- Registering a pair both of whose sets are already registered leaves the list of
models as it is. -/
theorem CDManager.addCollisionModelPair_colModels_of_has (heap : LinkSetHeap) (cd : CDManager)
    (a b : LinkSetPtr) (ha : cd._hasSceneObjectSet heap a = true)
    (hb : cd._hasSceneObjectSet heap b = true) :
    (cd.addCollisionModelPair heap a b).colModels = cd.colModels := by
  unfold CDManager.addCollisionModelPair
  by_cases h0 : a = 0 ∨ b = 0
  · rw [if_pos h0]
  · rw [if_neg h0]
    simp [ha, hb]

/-- Adding a non-null set to a manager without models registers exactly that set. -/
theorem CDManager.addCollisionModel_first (heap : LinkSetHeap) (cd : CDManager) (m : LinkSetPtr)
    (hm : m ≠ 0) (hcd : cd.colModels = []) :
    ∃ cd1, cd.addCollisionModel heap m = some cd1 ∧ cd1.colModels = [m] := by
  have hhas : cd._hasSceneObjectSet heap m = false := by
    unfold CDManager._hasSceneObjectSet
    rw [hcd]; rfl
  unfold CDManager.addCollisionModel
  rw [if_pos hm, hcd]
  have hloop : CDManager.addCollisionModelLoop heap m ([] : List LinkSetPtr).length.succ.succ 0 cd
      = some cd := by
    unfold CDManager.addCollisionModelLoop
    rw [dif_neg (by rw [hcd]; exact Nat.lt_irrefl 0)]
  rw [show ([] : List LinkSetPtr).length + 2 = ([] : List LinkSetPtr).length.succ.succ from rfl, hloop]
  dsimp only
  rw [hhas]
  exact ⟨_, rfl, by simp [hcd]⟩

/-- Adding a set that duplicates the only registered model leaves that model alone in the
list. -/
theorem CDManager.addCollisionModel_duplicate (heap : LinkSetHeap) (cd : CDManager)
    (m1 m2 : LinkSetPtr) (hcd : cd.colModels = [m1]) (hs : sameSet heap m1 m2) :
    ∃ cd1, cd.addCollisionModel heap m2 = some cd1 ∧ cd1.colModels = [m1] := by
  obtain ⟨cd1, h1, -, -⟩ := CDManager.addCollisionModel_total heap cd m2
  refine ⟨cd1, h1, ?_⟩
  have hhas1 : cd._hasSceneObjectSet heap m1 = true :=
    (CDManager._hasSceneObjectSet_iff heap cd m1).2 ⟨m1, by simp [hcd], Or.inl rfl⟩
  have hhas2 : cd._hasSceneObjectSet heap m2 = true :=
    (CDManager._hasSceneObjectSet_iff heap cd m2).2 ⟨m1, by simp [hcd], hs⟩
  unfold CDManager.addCollisionModel at h1
  by_cases h0 : m2 ≠ 0
  · rw [if_pos h0] at h1
    have hlen : cd.colModels.length + 2 = 3 := by rw [hcd]; rfl
    rw [hlen] at h1
    unfold CDManager.addCollisionModelLoop at h1
    have hi : 0 < cd.colModels.length := by rw [hcd]; exact Nat.one_pos
    rw [dif_pos hi] at h1
    have hget : cd.colModels.get ⟨0, hi⟩ = m1 := by
      simp [List.get_eq_getElem, hcd]
    rw [hget] at h1
    dsimp only at h1
    have hstep : ∀ cd2 : CDManager, cd2.colModels = [m1] → cd2._hasSceneObjectSet heap m2 = true →
        (match CDManager.addCollisionModelLoop heap m2 2 (0 + 1) cd2 with
          | none => none
          | some cd =>
            if (!(cd._hasSceneObjectSet heap m2)) = true
              then some { cd with colModels := cd.colModels ++ [m2] } else some cd) = some cd1 →
        cd1.colModels = [m1] := by
      intro cd2 hc2 hh2 hres
      unfold CDManager.addCollisionModelLoop at hres
      rw [dif_neg (by rw [hc2]; simp)] at hres
      simp only [hh2, Bool.not_true, Bool.false_eq_true, if_false, Option.some.injEq] at hres
      rw [← hres]; exact hc2
    by_cases hne : m2 ≠ m1
    · rw [if_pos hne] at h1
      have hc2 := CDManager.addCollisionModelPair_colModels_of_has heap cd m1 m2 hhas1 hhas2
      refine hstep _ (hc2.trans hcd) ?_ h1
      exact (CDManager._hasSceneObjectSet_iff heap _ m2).2
        ⟨m1, by rw [hc2.trans hcd]; simp, hs⟩
    · rw [if_neg hne] at h1
      exact hstep cd hcd hhas2 h1
  · rw [if_neg h0] at h1
    cases h1
    exact hcd

/-- C8: after any sequence of `addCollisionModel` and `addCollisionModelPair` calls on a
new manager, the list of registered collision models holds no link set twice: no two
entries are the same set and no two entries are single-node sets wrapping the same node.
In particular, adding the same link set twice, or two single-node sets wrapping the same
node, leaves exactly one registered model. -/
theorem CDManager.colModels_noDuplicate (heap : LinkSetHeap)
    (colChecker globalChecker : Option CollisionChecker) :
    (∀ ops : List CDOp, ∃ cd, (CDManager.new colChecker globalChecker).run heap ops = some cd ∧
      cd.colModels.Pairwise (fun a b => a ≠ b ∧
        ¬ (getSize heap a = 1 ∧ getSize heap b = 1 ∧ getNode0 heap a = getNode0 heap b))) ∧
    (∀ m1 m2 : LinkSetPtr, m1 ≠ 0 →
      (m1 = m2 ∨ (getSize heap m1 = 1 ∧ getSize heap m2 = 1 ∧ getNode0 heap m1 = getNode0 heap m2)) →
      ∃ cd, (CDManager.new colChecker globalChecker).run heap
          [CDOp.addCollisionModel m1, CDOp.addCollisionModel m2] = some cd ∧
        cd.colModels = [m1]) := by
  constructor
  · intro ops
    obtain ⟨cd, h1, h2⟩ := CDManager.run_noDuplicate heap ops (CDManager.new colChecker globalChecker)
      (by simp [NoDuplicate, CDManager.new])
    refine ⟨cd, h1, ?_⟩
    refine List.Pairwise.imp ?_ h2
    intro a b hab
    refine ⟨fun h => hab (Or.inl h), fun h => hab (Or.inr ⟨h.2.1, h.1, h.2.2⟩)⟩
  · intro m1 m2 h1 hsame
    have hs : sameSet heap m1 m2 := by
      rcases hsame with h | ⟨ha, hb, hc⟩
      · exact Or.inl h
      · exact Or.inr ⟨hb, ha, hc⟩
    obtain ⟨cd1, e1, c1⟩ := CDManager.addCollisionModel_first heap
      (CDManager.new colChecker globalChecker) m1 h1 rfl
    obtain ⟨cd2, e2, c2⟩ := CDManager.addCollisionModel_duplicate heap cd1 m1 m2 c1 hs
    refine ⟨cd2, ?_, c2⟩
    simp only [CDManager.run, CDManager.step, e1, e2]

/-- C8, witness: a sequence that adds the link set 1 twice, registers the pair `(1, 2)`
and adds an empty set. -/
theorem CDManager.colModels_noDuplicate_witness :
    (∃ cd, (CDManager.new none none).run boxHeap
        [CDOp.addCollisionModel 1, CDOp.addCollisionModel 1, CDOp.addCollisionModelPair 1 2,
         CDOp.addCollisionModel 3] = some cd ∧
      cd.colModels.Pairwise (fun a b => a ≠ b ∧
        ¬ (getSize boxHeap a = 1 ∧ getSize boxHeap b = 1 ∧ getNode0 boxHeap a = getNode0 boxHeap b))) ∧
    (∃ cd, (CDManager.new none none).run boxHeap
        [CDOp.addCollisionModel 1, CDOp.addCollisionModel 1] = some cd ∧ cd.colModels = [1]) :=
  ⟨(CDManager.colModels_noDuplicate boxHeap none none).1 _,
   (CDManager.colModels_noDuplicate boxHeap none none).2 1 1 (by decide) (Or.inl rfl)⟩

/-- C10, the failing query: `getDistance(setX)` returns `0`, not the sentinel `-1`, when
it is given a null link set and when the manager has no collision checker. -/
theorem CDManager.getDistanceSet_null_returns_zero :
    (∀ cd : CDManager, cd.getDistanceSet 0 = Flt.fin 0) ∧
    (∀ (cd : CDManager) (m : LinkSetPtr), cd.colChecker = none → cd.getDistanceSet m = Flt.fin 0) ∧
    Flt.fin 0 ≠ Flt.fin (-1) := by
  refine ⟨?_, ?_, by decide⟩
  · intro cd
    unfold CDManager.getDistanceSet
    cases cd.colChecker <;> simp
  · intro cd m h
    unfold CDManager.getDistanceSet
    rw [h]

/-- The other queries on a null link set or without a checker: the boolean queries
return false and the remaining distance queries return `-1`. -/
theorem CDManager.null_queries_siblings (cd : CDManager) (m : LinkSetPtr) (out uninit : Contact)
    (h : m = 0 ∨ cd.colChecker = none) :
    cd.isInCollisionSet m = false ∧ (cd.getDistanceSetContact m out).1 = Flt.fin (-1) ∧
    (cd.colChecker = none → cd.isInCollision = false ∧ cd.getDistance = Flt.fin (-1) ∧
      (cd.getDistanceContact out uninit).1 = Flt.fin (-1)) := by
  unfold CDManager.isInCollisionSet CDManager.getDistanceSetContact CDManager.isInCollision
    CDManager.getDistance CDManager.getDistanceContact
  rcases h with h | h
  · subst h
    cases cd.colChecker <;> simp
  · rw [h]; simp

/-! ## Properties of the IK solver -/

open ConstrainedOptimizationIK

/-- A write returns normally exactly when the assertion is empty or holds, and then it
stores the clamped value. -/
theorem ModelJoint.setJointValueNoUpdate_ok_iff (ndebug : Bool) (j : ModelJoint) (q : Flt) (j1 : ModelJoint) :
    j.setJointValueNoUpdate ndebug q = .ok j1 ↔
      (ndebug = true ∨ (!q.isnan && !q.isinf) = true) ∧
        j1 = { j with jointValue := j.respectJointLimits q } := by
  constructor
  · intro h
    have hv : ndebug = true ∨ (!q.isnan && !q.isinf) = true := by
      by_contra hc
      push_neg at hc
      obtain ⟨h1, h2⟩ := hc
      simp only [Bool.not_eq_true] at h1 h2
      unfold ModelJoint.setJointValueNoUpdate VR_ASSERT at h
      rw [h1, h2] at h
      cases h
    rw [ModelJoint.setJointValueNoUpdate_of_valid _ _ _ hv] at h
    cases h
    exact ⟨hv, rfl⟩
  · rintro ⟨hv, rfl⟩
    exact ModelJoint.setJointValueNoUpdate_of_valid _ _ _ hv

/-- Writing the same value a second time changes nothing. -/
theorem ModelJoint.setJointValueNoUpdate_idem (ndebug : Bool) (j : ModelJoint) (q : Flt) (j1 : ModelJoint)
    (h : j.setJointValueNoUpdate ndebug q = .ok j1) : j1.setJointValueNoUpdate ndebug q = .ok j1 := by
  obtain ⟨hv, rfl⟩ := (ModelJoint.setJointValueNoUpdate_ok_iff ndebug j q j1).1 h
  rw [ModelJoint.setJointValueNoUpdate_of_valid _ _ _ hv]
  rfl

/-- A write touches the value of the joint only. -/
theorem ModelJoint.setJointValueNoUpdate_frame (ndebug : Bool) (j : ModelJoint) (q : Flt) (j1 : ModelJoint)
    (h : j.setJointValueNoUpdate ndebug q = .ok j1) : j1.frame = j.frame := by
  obtain ⟨-, rfl⟩ := (ModelJoint.setJointValueNoUpdate_ok_iff ndebug j q j1).1 h
  rfl

/-- The write of a vector returns normally exactly when the writes of its entries do. -/
theorem setJointValues_cons_ok_iff (ndebug : Bool) (j : ModelJoint) (js : List ModelJoint) (v : Flt)
    (vs : List Flt) (r : List ModelJoint) :
    setJointValues ndebug (j :: js) (v :: vs) = .ok r ↔
      ∃ j1 js1, j.setJointValueNoUpdate ndebug v = .ok j1 ∧ setJointValues ndebug js vs = .ok js1 ∧
        r = j1 :: js1 := by
  rw [setJointValues]
  cases h1 : j.setJointValueNoUpdate ndebug v with
  | error e => simp [bind, Except.bind]
  | ok j1 =>
    cases h2 : setJointValues ndebug js vs with
    | error e => simp [bind, Except.bind]
    | ok js1 =>
      simp only [bind, Except.bind, pure, Except.pure, Except.ok.injEq]
      constructor
      · intro h; exact ⟨j1, js1, rfl, rfl, h.symm⟩
      · rintro ⟨a, b, ha, hb, rfl⟩; rw [ha, hb]

/-- The write of the empty vector changes nothing. -/
theorem setJointValues_nil_right (ndebug : Bool) (js : List ModelJoint) :
    setJointValues ndebug js [] = .ok js := by
  cases js <;> rfl

/-- Writing the same vector a second time changes nothing. -/
theorem setJointValues_idem (ndebug : Bool) :
    ∀ (js : List ModelJoint) (vs : List Flt) (r : List ModelJoint),
      setJointValues ndebug js vs = .ok r → setJointValues ndebug r vs = .ok r := by
  intro js
  induction js with
  | nil =>
    intro vs r h
    rw [setJointValues] at h
    · cases h
      rfl
    · intro _ _ _ _ hc; cases hc
  | cons j js ih =>
    intro vs r h
    cases vs with
    | nil =>
      rw [setJointValues_nil_right] at h
      cases h
      exact setJointValues_nil_right _ _
    | cons v vs =>
      obtain ⟨j1, js1, h1, h2, rfl⟩ := (setJointValues_cons_ok_iff ndebug j js v vs r).1 h
      exact (setJointValues_cons_ok_iff ndebug j1 js1 v vs _).2
        ⟨j1, js1, ModelJoint.setJointValueNoUpdate_idem _ _ _ _ h1, ih vs js1 h2, rfl⟩

/-- The write of a vector touches the values of the joints only. -/
theorem setJointValues_frame (ndebug : Bool) :
    ∀ (js : List ModelJoint) (vs : List Flt) (r : List ModelJoint),
      setJointValues ndebug js vs = .ok r → r.map ModelJoint.frame = js.map ModelJoint.frame := by
  intro js
  induction js with
  | nil =>
    intro vs r h
    rw [setJointValues] at h
    · cases h
      rfl
    · intro _ _ _ _ hc; cases hc
  | cons j js ih =>
    intro vs r h
    cases vs with
    | nil =>
      rw [setJointValues_nil_right] at h
      cases h
      rfl
    | cons v vs =>
      obtain ⟨j1, js1, h1, h2, rfl⟩ := (setJointValues_cons_ok_iff ndebug j js v vs r).1 h
      simp only [List.map_cons, ModelJoint.setJointValueNoUpdate_frame _ _ _ _ h1, ih vs js1 h2]

namespace ConstrainedOptimizationIK

/-- Every state has its own setup. -/
theorem SameSetup.refl (s : IKState) : SameSetup s s :=
  ⟨rfl, rfl, rfl, rfl, rfl, rfl, rfl, rfl, rfl⟩

/-- Having the same setup is transitive. -/
theorem SameSetup.trans {s s1 s2 : IKState} (h1 : SameSetup s s1) (h2 : SameSetup s1 s2) :
    SameSetup s s2 := by
  obtain ⟨a1, a2, a3, a4, a5, a6, a7, a8, a9⟩ := h1
  obtain ⟨b1, b2, b3, b4, b5, b6, b7, b8, b9⟩ := h2
  exact ⟨b1.trans a1, b2.trans a2, b3.trans a3, b4.trans a4, b5.trans a5, b6.trans a6,
    b7.trans a7, b8.trans a8, b9.trans a9⟩

/-- The synchronisation of the joints with `x` keeps the setup; the joints are left as
they were or as the write of `x` leaves them. -/
theorem syncJointValues_spec (env : Env) (s s1 : IKState) (x : List Flt)
    (h : syncJointValues env s x = .ok s1) :
    SameSetup s s1 ∧ s1.randCalls = s.randCalls ∧
      (s1.robot.joints = s.robot.joints ∨
        setJointValues env.ndebug s.robot.joints (x.map env.toFloat) = .ok s1.robot.joints) := by
  unfold syncJointValues at h
  split at h
  · cases hw : setJointValues env.ndebug s.robot.joints (x.map env.toFloat) with
    | error e => rw [hw] at h; cases h
    | ok joints =>
      rw [hw] at h
      simp only [bind, Except.bind, pure, Except.pure, Except.ok.injEq] at h
      subst h
      exact ⟨⟨rfl, rfl, rfl, rfl, rfl, rfl, rfl, rfl, setJointValues_frame _ _ _ _ hw⟩, rfl,
        Or.inr rfl⟩
  · cases h
    exact ⟨SameSetup.refl s, rfl, Or.inl rfl⟩

/-- A callback of the optimizer keeps the setup. -/
theorem callback_spec (env : Env) (s s1 : IKState) (x : List Flt)
    (h : callback env s x = .ok s1) : SameSetup s s1 ∧ s1.randCalls = s.randCalls := by
  unfold callback at h
  obtain ⟨h1, h2, -⟩ := syncJointValues_spec env _ s1 x h
  exact ⟨h1, h2⟩

/-- The callbacks of one run of the optimizer keep the setup. -/
theorem callbacks_spec (env : Env) : ∀ (xs : List (List Flt)) (s s1 : IKState),
    callbacks env s xs = .ok s1 → SameSetup s s1 ∧ s1.randCalls = s.randCalls := by
  intro xs
  induction xs with
  | nil =>
    intro s s1 h
    cases h
    exact ⟨SameSetup.refl s, rfl⟩
  | cons x xs ih =>
    intro s s1 h
    unfold callbacks at h
    cases hc : callback env s x with
    | error e => rw [hc] at h; cases h
    | ok s2 =>
      rw [hc] at h
      simp only [bind, Except.bind] at h
      obtain ⟨a1, a2⟩ := callback_spec env s s2 x hc
      obtain ⟨b1, b2⟩ := ih s2 s1 h
      exact ⟨a1.trans b1, b2.trans a2⟩

/-- What a call of `hardOptimizationFunction` returns and leaves. -/
theorem hardOptimizationFunction_spec (env : Env) (s s1 : IKState) (x : List Flt) (b : Bool)
    (e : Flt) (h : hardOptimizationFunction env s x = .ok (s1, b, e)) :
    SameSetup s s1 ∧ s1.randCalls = s.randCalls ∧
      (s1.robot.joints = s.robot.joints ∨
        setJointValues env.ndebug s.robot.joints (x.map env.toFloat) = .ok s1.robot.joints) ∧
      (b, e) = hardLoop env s1.robot.config (allFunctions s1.ik) (true, Flt.fin 0) := by
  unfold hardOptimizationFunction at h
  cases hc : syncJointValues env s x with
  | error err => rw [hc] at h; cases h
  | ok s2 =>
    rw [hc] at h
    simp only [bind, Except.bind, pure, Except.pure, Except.ok.injEq, Prod.mk.injEq] at h
    obtain ⟨rfl, rfl, rfl⟩ := h
    obtain ⟨a1, a2, a3⟩ := syncJointValues_spec env s s2 x hc
    exact ⟨a1, a2, a3, rfl⟩

/-- What one attempt leaves when it reaches its hard-constraint check: the setup is
kept, `x` has one entry per joint, the joints are as the write of `x` leaves them, and
the flag and the error are those of the loops of `hardOptimizationFunction` at the
configuration of the joints. -/
theorem attemptCheck_spec (env : Env) (opt : Optimizer) (attempt : Nat) (s s1 : IKState)
    (x : List Flt) (b : Bool) (e : Flt)
    (h : attemptCheck env opt attempt s = .ok (s1, x, b, e)) :
    SameSetup s s1 ∧ x.length = s.robot.joints.length ∧
      setJointValues env.ndebug s1.robot.joints (x.map env.toFloat) = .ok s1.robot.joints ∧
      (b, e) = hardLoop env s1.robot.config (allFunctions s1.ik) (true, Flt.fin 0) := by
  unfold attemptCheck at h
  simp only [bind, Except.bind, pure, Except.pure] at h
  split at h
  · cases h
  · rename_i v hv
    obtain ⟨x0, rc⟩ := v
    dsimp only at h
    split at h
    · cases h
    · rename_i s2 hcb
      split at h
      · cases h
      · rename_i joints hw
        split at h
        · cases h
        · rename_i r hh
          obtain ⟨s3, b3, e3⟩ := r
          simp only [Except.ok.injEq, Prod.mk.injEq] at h
          obtain ⟨rfl, rfl, rfl, rfl⟩ := h
          obtain ⟨c1, -⟩ := callbacks_spec env _ _ _ hcb
          obtain ⟨d1, -, d3, d4⟩ := hardOptimizationFunction_spec env _ _ _ _ _ hh
          have hf := setJointValues_frame _ _ _ _ hw
          have hlen : (List.map (opt.optimize attempt x0).x (List.range s.robot.joints.length)).length
              = s.robot.joints.length := by simp
          refine ⟨?_, hlen, ?_, d4⟩
          · refine SameSetup.trans ?_ (SameSetup.trans c1 (SameSetup.trans ?_ d1))
            · exact ⟨rfl, rfl, rfl, rfl, rfl, rfl, rfl, rfl, rfl⟩
            · exact ⟨rfl, rfl, rfl, rfl, rfl, rfl, rfl, rfl, hf⟩
          · rcases d3 with d3 | d3
            · dsimp only at d3
              rw [d3]
              exact setJointValues_idem _ _ _ _ hw
            · exact setJointValues_idem _ _ _ _ d3

/-- An attempt that passes its hard-constraint check ends `solve` with success; the
joints stay as the check found them and the two flags get the saved values. -/
theorem attemptBody_of_pass (env : Env) (opt : Optimizer) (uv uc : Bool) (attempt : Nat)
    (s s1 : IKState) (x best : List Flt) (e minErr : Flt)
    (h : attemptCheck env opt attempt s = .ok (s1, x, true, e)) :
    attemptBody env opt uv uc attempt s best minErr =
      .ok (AttemptResult.success { s1 with robot := { s1.robot with updateVisualization := uv,
                                                                    updateCollisionModel := uc } }) := by
  obtain ⟨-, -, hfix, -⟩ := attemptCheck_spec env opt attempt s s1 x true e h
  unfold attemptBody
  rw [h]
  simp only [bind, Except.bind, if_true, hfix, pure, Except.pure]

/-- An attempt that fails its hard-constraint check hands on its state and the updated
best vector and error. -/
theorem attemptBody_of_fail (env : Env) (opt : Optimizer) (uv uc : Bool) (attempt : Nat)
    (s s1 : IKState) (x best : List Flt) (e minErr : Flt)
    (h : attemptCheck env opt attempt s = .ok (s1, x, false, e)) :
    attemptBody env opt uv uc attempt s best minErr =
      .ok (AttemptResult.next s1 (updateBest (best, minErr) x e).1 (updateBest (best, minErr) x e).2) := by
  unfold attemptBody
  rw [h]
  simp only [bind, Except.bind, Bool.false_eq_true, if_false, pure, Except.pure]

/-- An attempt that does not reach its hard-constraint check ends `solve` with the same
failure. -/
theorem attemptBody_of_error (env : Env) (opt : Optimizer) (uv uc : Bool) (attempt : Nat)
    (s : IKState) (best : List Flt) (minErr : Flt) (err : Failure)
    (h : attemptCheck env opt attempt s = .error err) :
    attemptBody env opt uv uc attempt s best minErr = .error err := by
  unfold attemptBody
  rw [h]
  rfl

end ConstrainedOptimizationIK

/-- A result that carries the flag `true` is a normal return with `true`. -/
theorem exists_ok_true {α : Type} (r : Except Failure (Bool × α)) (h : okFlag r = true) :
    ∃ a, r = .ok (true, a) := by
  cases r with
  | error e => cases h
  | ok v =>
    obtain ⟨b, a⟩ := v
    simp only [okFlag] at h
    subst h
    exact ⟨a, rfl⟩

namespace ConstrainedOptimizationIK

/-- A run of `n + 1` failed attempts is a failed attempt followed by a run of `n`. -/
theorem failedRounds_succ_iff (env : Env) (opt : Optimizer) (n attempt : Nat) (s : IKState)
    (log : List AttemptRecord) :
    failedRounds env opt (n + 1) attempt s = some log ↔
      ∃ s1 x e rest, attemptCheck env opt attempt s = .ok (s1, x, false, e) ∧
        failedRounds env opt n (attempt + 1) s1 = some rest ∧ log = ⟨s1, x, e⟩ :: rest := by
  rw [failedRounds]
  cases hc : attemptCheck env opt attempt s with
  | error err => simp
  | ok r =>
    obtain ⟨s1, x, b, e⟩ := r
    cases b with
    | true => simp
    | false =>
      dsimp only
      constructor
      · intro h
        cases hr : failedRounds env opt n (attempt + 1) s1 with
        | none => rw [hr] at h; cases h
        | some rest =>
          rw [hr] at h
          simp only [Option.map_some', Option.some.injEq] at h
          exact ⟨s1, x, e, rest, rfl, hr, h.symm⟩
      · rintro ⟨a, b, c, d, hab, hd, rfl⟩
        cases hab
        rw [hd]
        rfl

/-- The attempt loop, started before a run of `k` failed attempts that is followed by an
attempt passing its check, returns true. -/
theorem solveLoop_of_pass (env : Env) (opt : Optimizer) (uv uc : Bool) (s1 : IKState)
    (x : List Flt) (e : Flt) (rest : Nat) :
    ∀ (k attempt : Nat) (s : IKState) (best : List Flt) (minErr : Flt) (log : List AttemptRecord),
      failedRounds env opt k attempt s = some log →
      attemptCheck env opt (attempt + k) (stateAfter s log) = .ok (s1, x, true, e) →
      solveLoop env opt uv uc (k + rest + 1) attempt s best minErr =
        .ok (true, { s1 with robot := { s1.robot with updateVisualization := uv,
                                                      updateCollisionModel := uc } }) := by
  intro k
  induction k with
  | zero =>
    intro attempt s best minErr log hf hp
    rw [failedRounds] at hf
    cases hf
    rw [solveLoop, attemptBody_of_pass env opt uv uc attempt s s1 x best e minErr hp]
    rfl
  | succ k ih =>
    intro attempt s best minErr log hf hp
    obtain ⟨s2, x2, e2, rest2, hc, hr, rfl⟩ := (failedRounds_succ_iff env opt k attempt s log).1 hf
    have harith : k + 1 + rest + 1 = (k + rest + 1) + 1 := by omega
    rw [harith, solveLoop, attemptBody_of_fail env opt uv uc attempt s s2 x2 best e2 minErr hc]
    simp only [bind, Except.bind]
    refine ih (attempt + 1) s2 _ _ rest2 hr ?_
    have : attempt + 1 + k = attempt + (k + 1) := by omega
    rw [this]
    exact hp

end ConstrainedOptimizationIK

/-- C6: when the attempts `0, ..., k-1` each run to their hard-constraint check and fail
it and attempt `k`, with `k` below the attempt budget, passes the check, `solve()`
returns true, whatever the number `k` of failed attempts before; this covers a budget
of at least 2 with a first seed that fails and a later attempt that passes.  The
configuration left in the model is the one that passed the check. -/
theorem ConstrainedOptimizationIK.solve_true_of_passing_attempt (env : Env) (opt : Optimizer)
    (s s1 : IKState) (k : Nat) (log : List AttemptRecord) (x : List Flt) (e : Flt)
    (hopt : s.ik.optimizer = some opt) (hk : k < s.ik.maxIterations)
    (hfail : failedRounds env opt k 0 (entryState s) = some log)
    (hpass : attemptCheck env opt k (stateAfter (entryState s) log) = .ok (s1, x, true, e)) :
    ∃ s2, solve env s false = .ok (true, s2) ∧ s2.robot.config = s1.robot.config := by
  unfold solve
  simp only [Bool.false_eq_true, if_false, hopt]
  obtain ⟨rest, hrest⟩ : ∃ rest, (entryState s).ik.maxIterations = k + rest + 1 :=
    ⟨s.ik.maxIterations - k - 1, by
      have : (entryState s).ik.maxIterations = s.ik.maxIterations := rfl
      omega⟩
  rw [hrest]
  have hp : attemptCheck env opt (0 + k) (stateAfter (entryState s) log) = .ok (s1, x, true, e) := by
    rw [Nat.zero_add]; exact hpass
  rw [solveLoop_of_pass env opt _ _ s1 x e rest k 0 (entryState s) [] DBL_MAX log hfail hp]
  exact ⟨_, rfl, rfl⟩

/-- The comparison `<` is transitive. -/
theorem Flt.lt_trans {a b c : Flt} (h1 : Flt.lt a b = true) (h2 : Flt.lt b c = true) :
    Flt.lt a c = true := by
  cases a <;> cases b <;> cases c <;> simp_all [Flt.lt]
  exact h1.trans h2

/-- A value that is not below another value that is comparable with it. -/
theorem Flt.lt_of_lt_of_not_lt {a b c : Flt} (h1 : Flt.lt a b = true) (h2 : Flt.lt c b = false)
    (hc : Flt.lt c DBL_MAX = true) : Flt.lt a c = true := by
  cases a <;> cases b <;> cases c <;> simp_all [Flt.lt, DBL_MAX]
  exact h1.trans_le h2

/-- No value is below itself. -/
theorem Flt.lt_irrefl (a : Flt) : Flt.lt a a = false := by
  cases a <;> simp [Flt.lt]

namespace ConstrainedOptimizationIK

/-- The part of `solve` after the attempt loop. -/
theorem solveLoop_zero (env : Env) (opt : Optimizer) (uv uc : Bool) (attempt : Nat) (s : IKState)
    (best : List Flt) (minErr : Flt) :
    solveLoop env opt uv uc 0 attempt s best minErr =
      if best.length > 0 then
        match setJointValues env.ndebug s.robot.joints (best.map env.toFloat) with
        | .ok joints => .ok (false, { s with robot := { joints := joints, updateVisualization := uv,
                                                         updateCollisionModel := uc } })
        | .error err => .error err
      else .ok (false, { s with robot := { joints := s.robot.joints, updateVisualization := uv,
                                            updateCollisionModel := uc } }) := by
  rw [solveLoop]
  split
  · simp only [bind, Except.bind, pure, Except.pure]
    cases setJointValues env.ndebug s.robot.joints (best.map env.toFloat) <;> rfl
  · rfl

end ConstrainedOptimizationIK

/-- An attempt whose result carries the flag `true` reached its check and passed it. -/
theorem exists_attempt_pass (r : Except Failure (IKState × List Flt × Bool × Flt))
    (h : attemptFlag r = true) : ∃ s1 x e, r = .ok (s1, x, true, e) := by
  cases r with
  | error err => cases h
  | ok v =>
    obtain ⟨s1, x, b, e⟩ := v
    simp only [attemptFlag] at h
    subst h
    exact ⟨s1, x, e, rfl⟩

/-- An option that holds a value is that value. -/
theorem some_getD_of_isSome {α : Type} (o : Option α) (d : α) (h : o.isSome = true) :
    o = some (o.getD d) := by
  cases o with
  | none => cases h
  | some a => rfl

/-- The three failed attempts of the demonstration solver. -/
theorem demoLog_spec (n : Nat) (h : (ConstrainedOptimizationIK.failedRounds demoEnv
      (demoOptimizer demoResults) 3 0
      (ConstrainedOptimizationIK.entryState (demoState demoConstraint n demoResults))).isSome = true) :
    ConstrainedOptimizationIK.failedRounds demoEnv (demoOptimizer demoResults) 3 0
      (ConstrainedOptimizationIK.entryState (demoState demoConstraint n demoResults)) =
      some (demoLog n) :=
  some_getD_of_isSome _ _ h

/-- C6, witness: the demonstration solver with budget 4 fails its first three attempts
and passes the fourth, and `solve` returns true with the joint at 3. -/
theorem ConstrainedOptimizationIK.solve_true_of_passing_attempt_witness :
    ∃ s2, solve demoEnv (demoState demoConstraint 4 demoResults) false = .ok (true, s2) ∧
      s2.robot.config = [Flt.fin 3] := by
  have hfail := demoLog_spec 4 (by decide!)
  obtain ⟨s1, x, e, hpass⟩ := exists_attempt_pass
    (attemptCheck demoEnv (demoOptimizer demoResults) 3
      (stateAfter (entryState (demoState demoConstraint 4 demoResults)) (demoLog 4))) (by decide!)
  have hcfg : attemptConfig (attemptCheck demoEnv (demoOptimizer demoResults) 3
      (stateAfter (entryState (demoState demoConstraint 4 demoResults)) (demoLog 4))) = [Flt.fin 3] := by
    decide!
  obtain ⟨s2, h1, h2⟩ := ConstrainedOptimizationIK.solve_true_of_passing_attempt demoEnv
    (demoOptimizer demoResults) (demoState demoConstraint 4 demoResults) s1 3 (demoLog 4) x e
    rfl (by decide) hfail hpass
  rw [hpass] at hcfg
  exact ⟨s2, h1, h2.trans hcfg⟩

/-- Every key of a map that follows an entry with key above `k` differs from `k`. -/
theorem mapFind_of_lt (k : LinkSetPtr) (pairs : List (LinkSetPtr × List LinkSetPtr))
    (h : ∀ e ∈ pairs, k < e.1) : mapFind k pairs = [] := by
  induction pairs with
  | nil => rfl
  | cons e rest ih =>
    obtain ⟨k0, vs⟩ := e
    have h0 : k < k0 := h (k0, vs) (List.mem_cons_self _ _)
    unfold mapFind
    rw [if_neg (Nat.ne_of_gt h0)]
    exact ih (fun e he => h e (List.mem_cons_of_mem _ he))

/-- After `map[k].push_back(v)` the list recorded for `k` is the old one followed by `v`. -/
theorem mapFind_mapPushBack_self (k v : LinkSetPtr) (pairs : List (LinkSetPtr × List LinkSetPtr))
    (hs : MapSorted pairs) : mapFind k (mapPushBack k v pairs) = mapFind k pairs ++ [v] := by
  induction pairs with
  | nil => simp [mapPushBack, mapFind]
  | cons e rest ih =>
    obtain ⟨k0, vs⟩ := e
    unfold MapSorted at hs
    rw [List.pairwise_cons] at hs
    unfold mapPushBack
    by_cases h1 : k < k0
    · rw [if_pos h1]
      have : mapFind k ((k0, vs) :: rest) = [] := by
        apply mapFind_of_lt
        intro e he
        rcases List.mem_cons.1 he with rfl | he
        · exact h1
        · exact Nat.lt_trans h1 (hs.1 e he)
      rw [this]
      simp [mapFind]
    · rw [if_neg h1]
      by_cases h2 : k = k0
      · subst h2
        simp [mapFind]
      · rw [if_neg h2]
        have h3 : ¬ k0 = k := fun h => h2 h.symm
        simp only [mapFind, h3, if_false]
        exact ih hs.2

/-- After `map[k].push_back(v)` the lists recorded for the other keys are unchanged. -/
theorem mapFind_mapPushBack_other (k v k1 : LinkSetPtr) (pairs : List (LinkSetPtr × List LinkSetPtr))
    (hne : k1 ≠ k) : mapFind k1 (mapPushBack k v pairs) = mapFind k1 pairs := by
  have hne2 : ¬ k = k1 := fun h => hne h.symm
  induction pairs with
  | nil => simp [mapPushBack, mapFind, hne2]
  | cons e rest ih =>
    obtain ⟨k0, vs⟩ := e
    unfold mapPushBack
    by_cases h1 : k < k0
    · rw [if_pos h1]
      simp [mapFind, hne2]
    · rw [if_neg h1]
      by_cases h2 : k = k0
      · subst h2
        simp [mapFind, hne2]
      · rw [if_neg h2]
        by_cases h3 : k0 = k1
        · simp [mapFind, h3]
        · simp only [mapFind, h3, if_false]
          exact ih

/-- The keys of a map after `map[k].push_back(v)` are the old keys and `k`. -/
theorem mem_mapPushBack_key (k v : LinkSetPtr) (pairs : List (LinkSetPtr × List LinkSetPtr))
    (e : LinkSetPtr × List LinkSetPtr) (he : e ∈ mapPushBack k v pairs) :
    e.1 = k ∨ ∃ e0 ∈ pairs, e0.1 = e.1 := by
  induction pairs with
  | nil =>
    simp only [mapPushBack, List.mem_singleton] at he
    subst he
    exact Or.inl rfl
  | cons e1 rest ih =>
    obtain ⟨k0, vs⟩ := e1
    unfold mapPushBack at he
    by_cases h1 : k < k0
    · rw [if_pos h1] at he
      rcases List.mem_cons.1 he with rfl | he
      · exact Or.inl rfl
      · exact Or.inr ⟨e, he, rfl⟩
    · rw [if_neg h1] at he
      by_cases h2 : k = k0
      · rw [if_pos h2] at he
        rcases List.mem_cons.1 he with rfl | he
        · exact Or.inl h2.symm
        · exact Or.inr ⟨e, List.mem_cons_of_mem _ he, rfl⟩
      · rw [if_neg h2] at he
        rcases List.mem_cons.1 he with rfl | he
        · exact Or.inr ⟨(k0, vs), List.mem_cons_self _ _, rfl⟩
        · rcases ih he with h | ⟨e0, h0, h0e⟩
          · exact Or.inl h
          · exact Or.inr ⟨e0, List.mem_cons_of_mem _ h0, h0e⟩

/-- The statement `map[k].push_back(v)` keeps the keys of the map increasing. -/
theorem MapSorted_mapPushBack (k v : LinkSetPtr) (pairs : List (LinkSetPtr × List LinkSetPtr))
    (hs : MapSorted pairs) : MapSorted (mapPushBack k v pairs) := by
  induction pairs with
  | nil => simp [mapPushBack, MapSorted]
  | cons e rest ih =>
    obtain ⟨k0, vs⟩ := e
    have hs0 := hs
    unfold MapSorted at hs
    rw [List.pairwise_cons] at hs
    unfold mapPushBack
    by_cases h1 : k < k0
    · rw [if_pos h1]
      unfold MapSorted
      rw [List.pairwise_cons]
      refine ⟨?_, hs0⟩
      intro e he
      rcases List.mem_cons.1 he with rfl | he
      · exact h1
      · exact Nat.lt_trans h1 (hs.1 e he)
    · rw [if_neg h1]
      by_cases h2 : k = k0
      · rw [if_pos h2]
        unfold MapSorted
        rw [List.pairwise_cons]
        exact ⟨hs.1, hs.2⟩
      · rw [if_neg h2]
        unfold MapSorted
        rw [List.pairwise_cons]
        refine ⟨?_, ih hs.2⟩
        intro e he
        rcases mem_mapPushBack_key k v rest e he with h | ⟨e0, h0, h0e⟩
        · rw [h]; exact Nat.lt_of_le_of_ne (Nat.le_of_not_lt h1) (fun h => h2 h.symm)
        · rw [← h0e]; exact hs.1 e0 h0

/-- In a map a set is recorded for a key exactly when it is in the list found for the key. -/
theorem mem_mapFind_iff (a b : LinkSetPtr) (pairs : List (LinkSetPtr × List LinkSetPtr))
    (hs : MapSorted pairs) : b ∈ mapFind a pairs ↔ ∃ sets, (a, sets) ∈ pairs ∧ b ∈ sets := by
  induction pairs with
  | nil => simp [mapFind]
  | cons e rest ih =>
    obtain ⟨k0, vs⟩ := e
    unfold MapSorted at hs
    rw [List.pairwise_cons] at hs
    unfold mapFind
    by_cases h : k0 = a
    · subst h
      rw [if_pos rfl]
      constructor
      · intro hb; exact ⟨vs, List.mem_cons_self _ _, hb⟩
      · rintro ⟨sets, hmem, hb⟩
        rcases List.mem_cons.1 hmem with heq | hmem
        · cases heq; exact hb
        · have := hs.1 _ hmem
          simp at this
    · rw [if_neg h, ih hs.2]
      constructor
      · rintro ⟨sets, hmem, hb⟩; exact ⟨sets, List.mem_cons_of_mem _ hmem, hb⟩
      · rintro ⟨sets, hmem, hb⟩
        rcases List.mem_cons.1 hmem with heq | hmem
        · cases heq; exact absurd rfl h
        · exact ⟨sets, hmem, hb⟩

/-- After the guarded `push_back` of a set, the set counts as registered, and so does every
set that counted as registered before. -/
theorem CDManager.guarded_push_has (heap : LinkSetHeap) (cd : CDManager) (m : LinkSetPtr) :
    (if (!(cd._hasSceneObjectSet heap m)) = true
      then { cd with colModels := cd.colModels ++ [m] } else cd)._hasSceneObjectSet heap m = true ∧
    ∀ x, cd._hasSceneObjectSet heap x = true →
      (if (!(cd._hasSceneObjectSet heap m)) = true
        then { cd with colModels := cd.colModels ++ [m] } else cd)._hasSceneObjectSet heap x = true := by
  by_cases hh : cd._hasSceneObjectSet heap m = true
  · simp only [hh, Bool.not_true, Bool.false_eq_true, if_false]
    exact ⟨trivial, fun x hx => hx⟩
  · simp only [hh, Bool.not_false, if_true]
    constructor
    · exact (CDManager._hasSceneObjectSet_iff heap _ m).2 ⟨m, by simp, Or.inl rfl⟩
    · intro x hx
      obtain ⟨c, hc, hs⟩ := (CDManager._hasSceneObjectSet_iff heap cd x).1 hx
      exact (CDManager._hasSceneObjectSet_iff heap _ x).2 ⟨c, by simp [hc], hs⟩

/-- C11: after `addCollisionModelPair(a, b)` with both sets non-null, both `a` and `b` are
registered collision models (each is in the model list, or a single-node set wrapping
the same node is) and `b` has been appended to the list of sets that `a` is checked
against, the lists of the other sets being unchanged; if `a` or `b` is null, the manager
is unchanged. -/
theorem CDManager.addCollisionModelPair_registers (heap : LinkSetHeap) (cd : CDManager)
    (a b : LinkSetPtr) :
    (a ≠ 0 → b ≠ 0 → MapSorted cd.colModelPairs →
      (∃ c ∈ (cd.addCollisionModelPair heap a b).colModels,
        c = a ∨ (getSize heap a = 1 ∧ getSize heap c = 1 ∧ getNode0 heap c = getNode0 heap a)) ∧
      (∃ c ∈ (cd.addCollisionModelPair heap a b).colModels,
        c = b ∨ (getSize heap b = 1 ∧ getSize heap c = 1 ∧ getNode0 heap c = getNode0 heap b)) ∧
      mapFind a (cd.addCollisionModelPair heap a b).colModelPairs = mapFind a cd.colModelPairs ++ [b] ∧
      (∀ k, k ≠ a →
        mapFind k (cd.addCollisionModelPair heap a b).colModelPairs = mapFind k cd.colModelPairs) ∧
      MapSorted (cd.addCollisionModelPair heap a b).colModelPairs) ∧
    (a = 0 ∨ b = 0 →
      (cd.addCollisionModelPair heap a b).colModels = cd.colModels ∧
      (cd.addCollisionModelPair heap a b).colModelPairs = cd.colModelPairs ∧
      cd.addCollisionModelPair heap a b = cd) := by
  constructor
  · intro ha hb hs
    have hpairs := CDManager.addCollisionModelPair_colModelPairs heap cd a b
    rw [if_neg (by tauto)] at hpairs
    have hhas : (cd.addCollisionModelPair heap a b)._hasSceneObjectSet heap a = true ∧
        (cd.addCollisionModelPair heap a b)._hasSceneObjectSet heap b = true := by
      unfold CDManager.addCollisionModelPair
      rw [if_neg (by tauto)]
      obtain ⟨h1, -⟩ := CDManager.guarded_push_has heap cd a
      obtain ⟨h2, h3⟩ := CDManager.guarded_push_has heap
        (if (!(cd._hasSceneObjectSet heap a)) = true
          then { cd with colModels := cd.colModels ++ [a] } else cd) b
      exact ⟨h3 a h1, h2⟩
    refine ⟨?_, ?_, ?_, ?_, ?_⟩
    · exact (CDManager._hasSceneObjectSet_iff heap _ a).1 hhas.1
    · exact (CDManager._hasSceneObjectSet_iff heap _ b).1 hhas.2
    · rw [hpairs]; exact mapFind_mapPushBack_self a b _ hs
    · intro k hk; rw [hpairs]; exact mapFind_mapPushBack_other a b k _ hk
    · rw [hpairs]; exact MapSorted_mapPushBack a b _ hs
  · intro h
    have : cd.addCollisionModelPair heap a b = cd := by
      unfold CDManager.addCollisionModelPair
      rw [if_pos h]
    rw [this]
    exact ⟨rfl, rfl, rfl⟩

/-- C11, witness: the pair `(1, 2)` of the two-box scene registered in a new manager. -/
theorem CDManager.addCollisionModelPair_registers_witness :
    (∃ c ∈ ((CDManager.new none none).addCollisionModelPair boxHeap 1 2).colModels,
        c = 1 ∨ (getSize boxHeap 1 = 1 ∧ getSize boxHeap c = 1 ∧ getNode0 boxHeap c = getNode0 boxHeap 1)) ∧
    mapFind 1 ((CDManager.new none none).addCollisionModelPair boxHeap 1 2).colModelPairs = [2] ∧
    (CDManager.new none none).addCollisionModelPair boxHeap 0 2 = CDManager.new none none := by
  have h := CDManager.addCollisionModelPair_registers boxHeap (CDManager.new none none) 1 2
  have h0 := CDManager.addCollisionModelPair_registers boxHeap (CDManager.new none none) 0 2
  obtain ⟨h1, -, h3, -, -⟩ := h.1 (by decide) (by decide) (by simp [MapSorted, CDManager.new])
  exact ⟨h1, h3, (h0.2 (Or.inl rfl)).2.2⟩

/-- The loop over distances returns its start value or one of the distances. -/
theorem Flt.minFold_mem (ds : List Flt) : ∀ init : Flt,
    Flt.minFold init ds = init ∨ Flt.minFold init ds ∈ ds := by
  induction ds with
  | nil => intro init; exact Or.inl rfl
  | cons d ds ih =>
    intro init
    have hstep : Flt.minFold init (d :: ds) =
        Flt.minFold (if Flt.lt d init then d else init) ds := rfl
    rw [hstep]
    rcases ih (if Flt.lt d init then d else init) with h | h
    · rw [h]
      split
      · exact Or.inr (List.mem_cons_self _ _)
      · exact Or.inl rfl
    · exact Or.inr (List.mem_cons_of_mem _ h)

/-- The loop over distances returns its start value or a value below it. -/
theorem Flt.minFold_le_init (ds : List Flt) : ∀ init : Flt,
    Flt.minFold init ds = init ∨ Flt.lt (Flt.minFold init ds) init = true := by
  induction ds with
  | nil => intro init; exact Or.inl rfl
  | cons d ds ih =>
    intro init
    have hstep : Flt.minFold init (d :: ds) =
        Flt.minFold (if Flt.lt d init then d else init) ds := rfl
    rw [hstep]
    by_cases hd : Flt.lt d init = true
    · rw [if_pos hd]
      rcases ih d with h | h
      · rw [h]; exact Or.inr hd
      · exact Or.inr (Flt.lt_trans h hd)
    · rw [if_neg hd]
      exact ih init

/-- None of the distances is below what the loop over them returns. -/
theorem Flt.minFold_not_lt (ds : List Flt) : ∀ init : Flt, ∀ d ∈ ds,
    Flt.lt d (Flt.minFold init ds) = false := by
  induction ds with
  | nil => intro init d hd; cases hd
  | cons d0 ds ih =>
    intro init d hd
    have hstep : Flt.minFold init (d0 :: ds) =
        Flt.minFold (if Flt.lt d0 init then d0 else init) ds := rfl
    rw [hstep]
    rcases List.mem_cons.1 hd with rfl | hd
    · have h1 : Flt.lt d (if Flt.lt d init then d else init) = false := by
        split
        · exact Flt.lt_irrefl d
        · rename_i h; simpa using h
      rcases Flt.minFold_le_init ds (if Flt.lt d init then d else init) with h | h
      · rw [h]; exact h1
      · by_contra hc
        rw [Bool.not_eq_false] at hc
        rw [Flt.lt_trans hc h] at h1
        cases h1
    · exact ih _ d hd

/-- The loop of `getDistance(m, sets)` is the loop over the distances of `m` to the sets. -/
theorem CDManager.getDistanceSetsLoop_eq (c : CollisionChecker) (m : LinkSetPtr)
    (sets : List LinkSetPtr) : ∀ init : Flt,
    CDManager.getDistanceSetsLoop c m sets init =
      Flt.minFold init (sets.map (c.calculateDistance m)) := by
  induction sets with
  | nil => intro init; rfl
  | cons s sets ih =>
    intro init
    unfold CDManager.getDistanceSetsLoop
    rw [ih]
    rfl

/-- The loop of `getDistance()` is the loop over the distances found for the entries. -/
theorem CDManager.getDistanceLoop_eq (c : CollisionChecker)
    (pairs : List (LinkSetPtr × List LinkSetPtr)) : ∀ init : Flt,
    CDManager.getDistanceLoop c pairs init =
      Flt.minFold init (pairs.map (fun e => CDManager.getDistanceSets c e.1 e.2)) := by
  induction pairs with
  | nil => intro init; rfl
  | cons e pairs ih =>
    intro init
    obtain ⟨k, sets⟩ := e
    unfold CDManager.getDistanceLoop
    rw [ih]
    rfl

/-- A value at most `FLT_MAX` that is not below it is `FLT_MAX`. -/
theorem Flt.eq_of_le_of_not_lt {a b : Flt} (h1 : Flt.le a b = true) (h2 : Flt.lt a b = false) :
    a = b := by
  cases a <;> cases b <;> simp_all [Flt.le, Flt.lt]
  exact h1.antisymm h2

/-- Of two values that are numbers, one that the other is not below is at most the other. -/
theorem Flt.le_of_not_lt {a b x y : Flt} (ha : Flt.le a x = true) (hb : Flt.le b y = true)
    (h : Flt.lt b a = false) : Flt.le a b = true := by
  cases a <;> cases b <;> cases x <;> cases y <;> simp_all [Flt.le, Flt.lt]

/-- What `getDistance(m, sets)` returns: at most `FLT_MAX`, `FLT_MAX` or the distance of
a set of the list, and no distance of a set of the list is below it. -/
theorem CDManager.getDistanceSets_spec (c : CollisionChecker) (m : LinkSetPtr)
    (sets : List LinkSetPtr) :
    (CDManager.getDistanceSets c m sets = FLT_MAX ∨
      Flt.lt (CDManager.getDistanceSets c m sets) FLT_MAX = true) ∧
    (CDManager.getDistanceSets c m sets = FLT_MAX ∨
      ∃ b ∈ sets, CDManager.getDistanceSets c m sets = c.calculateDistance m b) ∧
    (∀ b ∈ sets, Flt.lt (c.calculateDistance m b) (CDManager.getDistanceSets c m sets) = false) := by
  unfold CDManager.getDistanceSets
  rw [CDManager.getDistanceSetsLoop_eq]
  refine ⟨Flt.minFold_le_init _ _, ?_, ?_⟩
  · rcases Flt.minFold_mem (sets.map (c.calculateDistance m)) FLT_MAX with h | h
    · exact Or.inl h
    · obtain ⟨b, hb, hbe⟩ := List.mem_map.1 h
      exact Or.inr ⟨b, hb, hbe.symm⟩
  · intro b hb
    exact Flt.minFold_not_lt _ _ _ (List.mem_map.2 ⟨b, hb, rfl⟩)

/-- The constant `FLT_MAX` is below `DBL_MAX`. -/
theorem FLT_MAX_lt_DBL_MAX : Flt.lt FLT_MAX DBL_MAX = true := by decide!

/-- C12 (as amended): on a manager with a collision checker, `getDistance()` returns the
smallest of `FLT_MAX` and the values `calculateDistance(a, b)` of the registered pairs:
it is at most `FLT_MAX`, it is `FLT_MAX` or the distance of a registered pair, and no
registered pair has a distance below it; it is `FLT_MAX` when no pair is registered.
When a pair is registered and every registered pair has a distance of at most `FLT_MAX`,
it is the minimum of the distances of the registered pairs. -/
theorem CDManager.getDistance_spec (cd : CDManager) (c : CollisionChecker)
    (hc : cd.colChecker = some c) :
    (cd.getDistance = FLT_MAX ∨ Flt.lt cd.getDistance FLT_MAX = true) ∧
    (cd.getDistance = FLT_MAX ∨
      ∃ a b, cd.Registered a b ∧ cd.getDistance = c.calculateDistance a b) ∧
    (∀ a b, cd.Registered a b → Flt.lt (c.calculateDistance a b) cd.getDistance = false) ∧
    ((∀ a b, ¬ cd.Registered a b) → cd.getDistance = FLT_MAX) ∧
    ((∃ a b, cd.Registered a b) →
      (∀ a b, cd.Registered a b → Flt.le (c.calculateDistance a b) FLT_MAX = true) →
      (∃ a b, cd.Registered a b ∧ cd.getDistance = c.calculateDistance a b) ∧
      ∀ a b, cd.Registered a b → Flt.le cd.getDistance (c.calculateDistance a b) = true) := by
  have hget : cd.getDistance =
      Flt.minFold FLT_MAX (cd.colModelPairs.map (fun e => CDManager.getDistanceSets c e.1 e.2)) := by
    unfold CDManager.getDistance
    rw [hc]
    exact CDManager.getDistanceLoop_eq c cd.colModelPairs FLT_MAX
  have h1 : cd.getDistance = FLT_MAX ∨ Flt.lt cd.getDistance FLT_MAX = true := by
    rw [hget]; exact Flt.minFold_le_init _ _
  have h2 : cd.getDistance = FLT_MAX ∨
      ∃ a b, cd.Registered a b ∧ cd.getDistance = c.calculateDistance a b := by
    rcases Flt.minFold_mem (cd.colModelPairs.map (fun e => CDManager.getDistanceSets c e.1 e.2))
      FLT_MAX with h | h
    · exact Or.inl (hget.trans h)
    · obtain ⟨e, he, hee⟩ := List.mem_map.1 h
      obtain ⟨k, sets⟩ := e
      rcases (CDManager.getDistanceSets_spec c k sets).2.1 with h3 | ⟨b, hb, h3⟩
      · left; rw [hget, ← hee]; exact h3
      · right
        refine ⟨k, b, ⟨sets, he, hb⟩, ?_⟩
        rw [hget, ← hee]; exact h3
  have h3 : ∀ a b, cd.Registered a b → Flt.lt (c.calculateDistance a b) cd.getDistance = false := by
    rintro a b ⟨sets, hmem, hb⟩
    have hin := (CDManager.getDistanceSets_spec c a sets).2.2 b hb
    have hout : Flt.lt (CDManager.getDistanceSets c a sets) cd.getDistance = false := by
      rw [hget]
      exact Flt.minFold_not_lt _ _ _ (List.mem_map.2 ⟨(a, sets), hmem, rfl⟩)
    have hfin : Flt.lt (CDManager.getDistanceSets c a sets) DBL_MAX = true := by
      rcases (CDManager.getDistanceSets_spec c a sets).1 with h | h
      · rw [h]; exact FLT_MAX_lt_DBL_MAX
      · exact Flt.lt_trans h FLT_MAX_lt_DBL_MAX
    by_contra hcon
    rw [Bool.not_eq_false] at hcon
    rw [Flt.lt_of_lt_of_not_lt hcon hout hfin] at hin
    cases hin
  refine ⟨h1, h2, h3, ?_, ?_⟩
  · intro hno
    rcases h2 with h | ⟨a, b, hreg, -⟩
    · exact h
    · exact absurd hreg (hno a b)
  · rintro ⟨a0, b0, hreg0⟩ hall
    have hatt : ∃ a b, cd.Registered a b ∧ cd.getDistance = c.calculateDistance a b := by
      rcases h2 with h | h
      · refine ⟨a0, b0, hreg0, ?_⟩
        have hnl := h3 a0 b0 hreg0
        rw [h] at hnl ⊢
        exact (Flt.eq_of_le_of_not_lt (hall a0 b0 hreg0) hnl).symm
      · exact h
    refine ⟨hatt, ?_⟩
    intro a b hreg
    have hr : Flt.le cd.getDistance FLT_MAX = true := by
      rcases h1 with h | h
      · rw [h]; decide
      · generalize cd.getDistance = r at h
        cases r <;> simp_all [Flt.le, Flt.lt, FLT_MAX]
        exact le_of_lt h
    exact Flt.le_of_not_lt hr (hall a b hreg) (h3 a b hreg)

/-- C12, witness of the amended statement: the two boxes, 10 apart, with one registered
pair; the distance of their surfaces is 8. -/
theorem CDManager.getDistance_spec_witness :
    ((CDManager.new (some (boxChecker boxHeap centresApart)) none).addCollisionModelPair
        boxHeap 1 2).getDistance = Flt.fin 8 ∧
    ∀ a b, ((CDManager.new (some (boxChecker boxHeap centresApart)) none).addCollisionModelPair
        boxHeap 1 2).Registered a b →
      Flt.lt ((boxChecker boxHeap centresApart).calculateDistance a b) (Flt.fin 8) = false := by
  have h := CDManager.getDistance_spec
    ((CDManager.new (some (boxChecker boxHeap centresApart)) none).addCollisionModelPair boxHeap 1 2)
    (boxChecker boxHeap centresApart) rfl
  have hv : ((CDManager.new (some (boxChecker boxHeap centresApart)) none).addCollisionModelPair
      boxHeap 1 2).getDistance = Flt.fin 8 := by decide
  refine ⟨hv, ?_⟩
  intro a b hreg
  have := h.2.2.1 a b hreg
  rw [hv] at this
  exact this

/-- C12 as stated fails: with a checker that finds the two sets of the only registered
pair infinitely far apart, the minimum over the registered pairs is `+Inf`, and
`getDistance()` returns `FLT_MAX`. -/
theorem CDManager.getDistance_not_minimum :
    ((CDManager.new (some farChecker) none).addCollisionModelPair boxHeap 1 2).colModelPairs =
      [(1, [2])] ∧
    farChecker.calculateDistance 1 2 = Flt.pinf ∧
    ((CDManager.new (some farChecker) none).addCollisionModelPair boxHeap 1 2).getDistance =
      FLT_MAX ∧
    FLT_MAX ≠ Flt.pinf := by
  decide

/-- Method `_hasSceneObjectSet` as the loop over the list of models. -/
theorem CDManager._hasSceneObjectSet_eq_go (heap : LinkSetHeap) (cd : CDManager) (m : LinkSetPtr) :
    cd._hasSceneObjectSet heap m = CDManager._hasSceneObjectSet.go heap m cd.colModels := rfl

/-- Registering the pair of a registered non-null model `c` and a non-null set `m`:
`m` is appended to the models unless it counts as registered, and to the list of `c`. -/
theorem CDManager.addCollisionModelPair_of_registered (heap : LinkSetHeap) (cd : CDManager)
    (c m : LinkSetPtr) (hc : c ∈ cd.colModels) (hc0 : c ≠ 0) (hm0 : m ≠ 0) :
    cd.addCollisionModelPair heap c m =
      { colChecker := cd.colChecker
        colModels := if cd._hasSceneObjectSet heap m = true then cd.colModels else cd.colModels ++ [m]
        colModelPairs := mapPushBack c m cd.colModelPairs } := by
  have hhas : cd._hasSceneObjectSet heap c = true :=
    (CDManager._hasSceneObjectSet_iff heap cd c).2 ⟨c, hc, Or.inl rfl⟩
  unfold CDManager.addCollisionModelPair
  rw [if_neg (by tauto)]
  simp only [hhas, Bool.not_true, Bool.false_eq_true, if_false]
  by_cases hm : cd._hasSceneObjectSet heap m = true
  · simp [hm]
  · simp [hm]

/-- The loop of `addCollisionModel(m)` on a manager whose models were `l0` when the loop
began: it appends `m` to the list of every model of `l0` that is neither `m` nor null,
and leaves the models as they were or with `m` appended. -/
theorem CDManager.addCollisionModelLoop_spec (heap : LinkSetHeap) (m : LinkSetPtr) (hm0 : m ≠ 0)
    (l0 : List LinkSetPtr) :
    ∀ (fuel i : Nat) (cd cd1 : CDManager),
      (cd.colModels = l0 ∨
        (cd.colModels = l0 ++ [m] ∧ CDManager._hasSceneObjectSet.go heap m l0 = false)) →
      CDManager.addCollisionModelLoop heap m fuel i cd = some cd1 →
      cd1.colChecker = cd.colChecker ∧
      (cd1.colModels = l0 ∨
        (cd1.colModels = l0 ++ [m] ∧ CDManager._hasSceneObjectSet.go heap m l0 = false)) ∧
      cd1.colModelPairs = (l0.drop i).foldl
        (fun p c => if c ≠ m ∧ c ≠ 0 then mapPushBack c m p else p) cd.colModelPairs := by
  intro fuel
  induction fuel with
  | zero => intro i cd cd1 _ h; cases h
  | succ fuel ih =>
    intro i cd cd1 hinv h
    have hlen : l0.length ≤ cd.colModels.length := by
      rcases hinv with h1 | ⟨h1, -⟩
      · rw [h1]
      · rw [h1]; simp
    unfold CDManager.addCollisionModelLoop at h
    by_cases hi : i < cd.colModels.length
    · rw [dif_pos hi] at h
      dsimp only at h
      by_cases hi0 : i < l0.length
      · -- the element is a model of `l0`
        have hget : cd.colModels.get ⟨i, hi⟩ = l0.get ⟨i, hi0⟩ := by
          rcases hinv with h1 | ⟨h1, -⟩
          · simp only [List.get_eq_getElem, h1]
          · simp only [List.get_eq_getElem, h1]
            exact List.getElem_append_left hi0
        have hdrop : l0.drop i = l0.get ⟨i, hi0⟩ :: l0.drop (i + 1) := by
          simp only [List.get_eq_getElem]
          exact List.drop_eq_getElem_cons hi0
        have hmem : cd.colModels.get ⟨i, hi⟩ ∈ cd.colModels := List.get_mem _ _ _
        rw [hget] at h hmem
        rw [hdrop, List.foldl_cons]
        generalize l0.get ⟨i, hi0⟩ = c at h hmem
        by_cases hne : m ≠ c
        · rw [if_pos hne] at h
          by_cases hc0 : c = 0
          · have hsame : cd.addCollisionModelPair heap c m = cd := by
              unfold CDManager.addCollisionModelPair
              rw [if_pos (Or.inl hc0)]
            rw [hsame] at h
            obtain ⟨a1, a2, a3⟩ := ih (i + 1) cd cd1 hinv h
            refine ⟨a1, a2, ?_⟩
            have hg : (if c ≠ m ∧ c ≠ 0 then mapPushBack c m cd.colModelPairs
                else cd.colModelPairs) = cd.colModelPairs := if_neg (by tauto)
            rw [a3, hg]
          · have hpair := CDManager.addCollisionModelPair_of_registered heap cd c m hmem hc0 hm0
            rw [hpair] at h
            have hinv2 : (if cd._hasSceneObjectSet heap m = true then cd.colModels
                  else cd.colModels ++ [m]) = l0 ∨
                ((if cd._hasSceneObjectSet heap m = true then cd.colModels
                  else cd.colModels ++ [m]) = l0 ++ [m] ∧
                  CDManager._hasSceneObjectSet.go heap m l0 = false) := by
              rcases hinv with h1 | ⟨h1, h2⟩
              · by_cases hh : cd._hasSceneObjectSet heap m = true
                · rw [if_pos hh]; exact Or.inl h1
                · rw [if_neg hh]
                  right
                  refine ⟨by rw [h1], ?_⟩
                  rw [CDManager._hasSceneObjectSet_eq_go, h1] at hh
                  simpa using hh
              · have hh : cd._hasSceneObjectSet heap m = true :=
                  (CDManager._hasSceneObjectSet_iff heap cd m).2
                    ⟨m, by rw [h1]; simp, Or.inl rfl⟩
                rw [if_pos hh]
                exact Or.inr ⟨h1, h2⟩
            obtain ⟨a1, a2, a3⟩ := ih (i + 1) _ cd1 hinv2 h
            refine ⟨a1, a2, ?_⟩
            have hg : (if c ≠ m ∧ c ≠ 0 then mapPushBack c m cd.colModelPairs
                else cd.colModelPairs) = mapPushBack c m cd.colModelPairs :=
              if_pos ⟨fun h => hne h.symm, hc0⟩
            rw [a3, hg]
        · rw [if_neg hne] at h
          obtain ⟨a1, a2, a3⟩ := ih (i + 1) cd cd1 hinv h
          refine ⟨a1, a2, ?_⟩
          have hg : (if c ≠ m ∧ c ≠ 0 then mapPushBack c m cd.colModelPairs
              else cd.colModelPairs) = cd.colModelPairs :=
            if_neg (fun hcon => hne (fun h => hcon.1 h.symm))
          rw [a3, hg]
      · -- the element is the set `m` that the loop appended
        have hcm : cd.colModels = l0 ++ [m] := by
          rcases hinv with h1 | ⟨h1, -⟩
          · rw [h1] at hi; exact absurd hi hi0
          · exact h1
        have hil : i = l0.length := by
          rw [hcm] at hi
          simp at hi
          omega
        have hget : cd.colModels.get ⟨i, hi⟩ = m := by
          simp only [List.get_eq_getElem, hcm, hil]
          simp
        rw [hget, if_neg (by simp)] at h
        obtain ⟨a1, a2, a3⟩ := ih (i + 1) cd cd1 hinv h
        refine ⟨a1, a2, ?_⟩
        rw [a3, List.drop_eq_nil_of_le (by omega), List.drop_eq_nil_of_le (by omega)]
    · rw [dif_neg hi] at h
      cases h
      refine ⟨rfl, hinv, ?_⟩
      rw [List.drop_eq_nil_of_le (by omega)]
      rfl

/-- The lists found in the map after the loop of `addCollisionModel(m)` over the models
`l`: the old list, followed by `m` once for every occurrence of the key in `l` when the
key is neither `m` nor null. -/
theorem mapFind_foldl_push (m : LinkSetPtr) (l : List LinkSetPtr) :
    ∀ pairs : List (LinkSetPtr × List LinkSetPtr), MapSorted pairs →
      MapSorted (l.foldl (fun p c => if c ≠ m ∧ c ≠ 0 then mapPushBack c m p else p) pairs) ∧
      ∀ k, mapFind k (l.foldl (fun p c => if c ≠ m ∧ c ≠ 0 then mapPushBack c m p else p) pairs) =
        mapFind k pairs ++ List.replicate (if k ≠ m ∧ k ≠ 0 then l.count k else 0) m := by
  induction l with
  | nil => intro pairs hs; exact ⟨hs, fun k => by simp⟩
  | cons c l ih =>
    intro pairs hs
    rw [List.foldl_cons]
    by_cases hc : c ≠ m ∧ c ≠ 0
    · rw [if_pos hc]
      obtain ⟨h1, h2⟩ := ih (mapPushBack c m pairs) (MapSorted_mapPushBack c m pairs hs)
      refine ⟨h1, fun k => ?_⟩
      rw [h2 k]
      by_cases hk : k = c
      · subst hk
        rw [mapFind_mapPushBack_self k m pairs hs, if_pos hc, if_pos hc, List.count_cons_self,
          List.append_assoc]
        rfl
      · rw [mapFind_mapPushBack_other c m k pairs hk, List.count_cons_of_ne hk]
    · rw [if_neg hc]
      obtain ⟨h1, h2⟩ := ih pairs hs
      refine ⟨h1, fun k => ?_⟩
      rw [h2 k]
      by_cases hk : k = c
      · subst hk
        rw [if_neg hc, if_neg hc]
      · rw [List.count_cons_of_ne hk]

/-- The statement `map[k].push_back(v)` records one more pair. -/
theorem pairCount_mapPushBack (k v : LinkSetPtr) (pairs : List (LinkSetPtr × List LinkSetPtr)) :
    pairCount (mapPushBack k v pairs) = pairCount pairs + 1 := by
  induction pairs with
  | nil => simp [mapPushBack, pairCount]
  | cons e rest ih =>
    obtain ⟨k0, vs⟩ := e
    unfold mapPushBack
    by_cases h1 : k < k0
    · rw [if_pos h1]; simp [pairCount]; omega
    · rw [if_neg h1]
      by_cases h2 : k = k0
      · rw [if_pos h2]; simp [pairCount]; omega
      · rw [if_neg h2]
        simp only [pairCount, List.map_cons, List.sum_cons] at ih ⊢
        omega

/-- The number of pairs after the loop of `addCollisionModel(m)` over the models `l`. -/
theorem pairCount_foldl_push (m : LinkSetPtr) (l : List LinkSetPtr) :
    ∀ pairs : List (LinkSetPtr × List LinkSetPtr),
      pairCount (l.foldl (fun p c => if c ≠ m ∧ c ≠ 0 then mapPushBack c m p else p) pairs) =
        pairCount pairs + (l.filter (fun c => decide (c ≠ m ∧ c ≠ 0))).length := by
  induction l with
  | nil => intro pairs; simp
  | cons c l ih =>
    intro pairs
    rw [List.foldl_cons, ih]
    by_cases hc : c ≠ m ∧ c ≠ 0
    · rw [if_pos hc, pairCount_mapPushBack, List.filter_cons_of_pos (by simpa using hc)]
      simp only [List.length_cons]
      omega
    · rw [if_neg hc, List.filter_cons_of_neg (by simpa using hc)]

/-- What `addCollisionModel(m)` does for a non-null `m`: it returns; `m` is appended to the
models unless it counts as registered; `m` is appended to the list of every registered
model that is neither `m` nor null; the checker is unchanged. -/
theorem CDManager.addCollisionModel_spec (heap : LinkSetHeap) (cd : CDManager) (m : LinkSetPtr)
    (hm0 : m ≠ 0) :
    ∃ cd1, cd.addCollisionModel heap m = some cd1 ∧ cd1.colChecker = cd.colChecker ∧
      cd1.colModels = (if cd._hasSceneObjectSet heap m = true then cd.colModels
        else cd.colModels ++ [m]) ∧
      cd1.colModelPairs = cd.colModels.foldl
        (fun p c => if c ≠ m ∧ c ≠ 0 then mapPushBack c m p else p) cd.colModelPairs := by
  obtain ⟨cd1, h1, -, -⟩ := CDManager.addCollisionModel_total heap cd m
  refine ⟨cd1, h1, ?_⟩
  unfold CDManager.addCollisionModel at h1
  rw [if_pos hm0] at h1
  cases hl : CDManager.addCollisionModelLoop heap m (cd.colModels.length + 2) 0 cd with
  | none => rw [hl] at h1; cases h1
  | some cd2 =>
    rw [hl] at h1
    dsimp only at h1
    obtain ⟨a1, a2, a3⟩ := CDManager.addCollisionModelLoop_spec heap m hm0 cd.colModels _ 0 cd cd2
      (Or.inl rfl) hl
    rw [List.drop_zero] at a3
    by_cases hh : cd2._hasSceneObjectSet heap m = true
    · simp only [hh, Bool.not_true, Bool.false_eq_true, if_false, Option.some.injEq] at h1
      subst h1
      refine ⟨a1, ?_, a3⟩
      rcases a2 with h2 | ⟨h2, h3⟩
      · rw [CDManager._hasSceneObjectSet_eq_go, h2] at hh
        rw [CDManager._hasSceneObjectSet_eq_go, hh, if_pos rfl, h2]
      · rw [CDManager._hasSceneObjectSet_eq_go, h3, h2]
        simp
    · simp only [hh, Bool.not_false, if_true, Option.some.injEq] at h1
      subst h1
      refine ⟨a1, ?_, a3⟩
      rcases a2 with h2 | ⟨h2, h3⟩
      · rw [CDManager._hasSceneObjectSet_eq_go, h2] at hh
        have : CDManager._hasSceneObjectSet heap cd m = false := by
          rw [CDManager._hasSceneObjectSet_eq_go]; simpa using hh
        rw [this]
        simp [h2]
      · exfalso
        exact hh ((CDManager._hasSceneObjectSet_iff heap cd2 m).2 ⟨m, by rw [h2]; simp, Or.inl rfl⟩)

/-- A list without duplicates holds no set twice. -/
theorem NoDuplicate.nodup {heap : LinkSetHeap} {l : List LinkSetPtr} (h : NoDuplicate heap l) :
    l.Nodup := by
  unfold NoDuplicate at h
  exact h.imp (fun hab he => hab (Or.inl he))

/-- The sets after `k` are sets of the list. -/
theorem mem_of_mem_setsAfter (k x : LinkSetPtr) (ms : List LinkSetPtr) :
    x ∈ setsAfter k ms → x ∈ ms := by
  induction ms with
  | nil => intro h; cases h
  | cons c ms ih =>
    unfold setsAfter
    by_cases hc : c = k
    · rw [if_pos hc]; intro h; exact List.mem_cons_of_mem _ h
    · rw [if_neg hc]; intro h; exact List.mem_cons_of_mem _ (ih h)

/-- No set follows a set that is not in the list. -/
theorem setsAfter_of_not_mem (k : LinkSetPtr) (ms : List LinkSetPtr) (h : k ∉ ms) :
    setsAfter k ms = [] := by
  induction ms with
  | nil => rfl
  | cons c ms ih =>
    unfold setsAfter
    rw [if_neg (fun hc => h (by rw [hc]; exact List.mem_cons_self _ _))]
    exact ih (fun hk => h (List.mem_cons_of_mem _ hk))

/-- The sets after `k` once one more set is appended. -/
theorem setsAfter_append_singleton (k m : LinkSetPtr) (ms : List LinkSetPtr) :
    setsAfter k (ms ++ [m]) = setsAfter k ms ++ (if k ∈ ms then [m] else []) := by
  induction ms with
  | nil =>
    simp only [List.nil_append, List.not_mem_nil, if_false, List.append_nil]
    unfold setsAfter
    by_cases hc : m = k
    · rw [if_pos hc]
    · rw [if_neg hc]; rfl
  | cons c ms ih =>
    rw [List.cons_append]
    unfold setsAfter
    by_cases hc : c = k
    · rw [if_pos hc, if_pos hc, if_pos (by rw [hc]; exact List.mem_cons_self _ _)]
    · rw [if_neg hc, if_neg hc, ih]
      by_cases hk : k ∈ ms
      · rw [if_pos hk, if_pos (List.mem_cons_of_mem _ hk)]
      · rw [if_neg hk, if_neg (fun h => by
          rcases List.mem_cons.1 h with h1 | h1
          · exact hc h1.symm
          · exact hk h1)]

/-- In a list without repetition, of two different sets exactly one follows the other. -/
theorem count_setsAfter (ms : List LinkSetPtr) (hnd : ms.Nodup) (a b : LinkSetPtr)
    (ha : a ∈ ms) (hb : b ∈ ms) (hab : a ≠ b) :
    (setsAfter a ms).count b + (setsAfter b ms).count a = 1 := by
  induction ms with
  | nil => cases ha
  | cons c ms ih =>
    rw [List.nodup_cons] at hnd
    obtain ⟨hc, hnd⟩ := hnd
    unfold setsAfter
    by_cases hca : c = a
    · subst hca
      rw [if_pos rfl, if_neg hab]
      have hb1 : b ∈ ms := by
        rcases List.mem_cons.1 hb with h | h
        · exact absurd h.symm hab
        · exact h
      rw [List.count_eq_one_of_mem hnd hb1,
        List.count_eq_zero_of_not_mem (fun h => hc (mem_of_mem_setsAfter b c ms h))]
    · have ha1 : a ∈ ms := by
        rcases List.mem_cons.1 ha with h | h
        · exact absurd h.symm hca
        · exact h
      rw [if_neg hca]
      by_cases hcb : c = b
      · subst hcb
        rw [if_pos rfl, List.count_eq_one_of_mem hnd ha1,
          List.count_eq_zero_of_not_mem (fun h => hc (mem_of_mem_setsAfter a c ms h))]
      · have hb1 : b ∈ ms := by
          rcases List.mem_cons.1 hb with h | h
          · exact absurd h.symm hcb
          · exact h
        rw [if_neg hcb]
        exact ih hnd ha1 hb1

/-- What `addCollisionModel(m)` does for a non-null `m` that duplicates no registered
model of a well-formed manager. -/
theorem CDManager.addCollisionModel_fresh (heap : LinkSetHeap) (cd : CDManager) (m : LinkSetPtr)
    (hwf : cd.WellFormed heap) (hm0 : m ≠ 0) (hnew : ∀ c ∈ cd.colModels, ¬ sameSet heap c m) :
    ∃ cd1, cd.addCollisionModel heap m = some cd1 ∧ cd1.colChecker = cd.colChecker ∧
      cd1.colModels = cd.colModels ++ [m] ∧ cd1.WellFormed heap ∧
      (∀ c, mapFind c cd1.colModelPairs =
        mapFind c cd.colModelPairs ++ (if c ∈ cd.colModels then [m] else [])) ∧
      pairCount cd1.colModelPairs = pairCount cd.colModelPairs + cd.colModels.length := by
  obtain ⟨hnn, hnd, hs⟩ := hwf
  obtain ⟨cd1, h1, h2, h3, h4⟩ := CDManager.addCollisionModel_spec heap cd m hm0
  have hhas : ¬ cd._hasSceneObjectSet heap m = true := by
    rw [CDManager._hasSceneObjectSet_iff]
    rintro ⟨c, hc, hcm⟩
    exact hnew c hc hcm
  rw [if_neg hhas] at h3
  have hne : ∀ c ∈ cd.colModels, c ≠ m ∧ c ≠ 0 :=
    fun c hc => ⟨fun h => hnew c hc (Or.inl h), hnn c hc⟩
  obtain ⟨f1, f2⟩ := mapFind_foldl_push m cd.colModels cd.colModelPairs hs
  refine ⟨cd1, h1, h2, h3, ⟨?_, ?_, ?_⟩, ?_, ?_⟩
  · intro c hc
    rw [h3] at hc
    rcases List.mem_append.1 hc with h | h
    · exact hnn c h
    · rw [List.mem_singleton.1 h]; exact hm0
  · rw [h3]
    exact NoDuplicate_append heap cd.colModels m hnd hnew
  · rw [h4]; exact f1
  · intro c
    rw [h4, f2 c]
    by_cases hc : c ∈ cd.colModels
    · rw [if_pos hc, if_pos (hne c hc), List.count_eq_one_of_mem hnd.nodup hc]
      rfl
    · rw [if_neg hc, List.count_eq_zero_of_not_mem hc]
      simp
  · rw [h4, pairCount_foldl_push]
    congr 1
    rw [List.filter_eq_self.2]
    intro c hc
    simpa using hne c hc

/-- Adding the sets `ms` one after the other with `addCollisionModel` to a manager whose
map records, for every registered set, the sets registered after it. -/
theorem CDManager.run_addCollisionModel_all (heap : LinkSetHeap) :
    ∀ (ms : List LinkSetPtr) (cd : CDManager),
      (∀ a ∈ cd.colModels ++ ms, a ≠ 0) → NoDuplicate heap (cd.colModels ++ ms) →
      MapSorted cd.colModelPairs →
      (∀ a, mapFind a cd.colModelPairs = setsAfter a cd.colModels) →
      2 * pairCount cd.colModelPairs = cd.colModels.length * (cd.colModels.length - 1) →
      ∃ cdk, cd.run heap (ms.map CDOp.addCollisionModel) = some cdk ∧
        cdk.colChecker = cd.colChecker ∧ cdk.colModels = cd.colModels ++ ms ∧
        MapSorted cdk.colModelPairs ∧
        (∀ a, mapFind a cdk.colModelPairs = setsAfter a (cd.colModels ++ ms)) ∧
        2 * pairCount cdk.colModelPairs =
          (cd.colModels ++ ms).length * ((cd.colModels ++ ms).length - 1) := by
  intro ms
  induction ms with
  | nil =>
    intro cd _ _ hs hf hp
    refine ⟨cd, rfl, rfl, by simp, hs, ?_, ?_⟩
    · simpa using hf
    · simpa using hp
  | cons m ms ih =>
    intro cd hnn hnd hs hf hp
    have hnd1 : NoDuplicate heap cd.colModels ∧ NoDuplicate heap (m :: ms) ∧
        ∀ a ∈ cd.colModels, ∀ b ∈ m :: ms, ¬ sameSet heap a b := by
      unfold NoDuplicate at hnd ⊢
      exact List.pairwise_append.1 hnd
    have hwf : cd.WellFormed heap :=
      ⟨fun c hc => hnn c (List.mem_append_left _ hc), hnd1.1, hs⟩
    obtain ⟨cd1, g1, g2, g3, g4, g5, g6⟩ := CDManager.addCollisionModel_fresh heap cd m hwf
      (hnn m (List.mem_append_right _ (List.mem_cons_self _ _)))
      (fun c hc => hnd1.2.2 c hc m (List.mem_cons_self _ _))
    have e : cd1.colModels ++ ms = cd.colModels ++ m :: ms := by
      rw [g3, List.append_assoc]; rfl
    obtain ⟨cdk, k1, k2, k3, k4, k5, k6⟩ := ih cd1 (by rw [e]; exact hnn) (by rw [e]; exact hnd)
      g4.2.2
      (by
        intro a
        rw [g5 a, g3, setsAfter_append_singleton, hf a])
      (by
        rw [g6, g3, List.length_append, List.length_singleton, Nat.add_sub_cancel,
          Nat.mul_add, hp]
        cases cd.colModels.length with
        | zero => rfl
        | succ n => simp only [Nat.add_sub_cancel]; ring)
    refine ⟨cdk, ?_, k2.trans g2, by rw [k3, e], k4, by rw [← e]; exact k5, by rw [← e]; exact k6⟩
    rw [List.map_cons]
    unfold CDManager.run
    simp only [CDManager.step, g1]
    exact k1

/-- The registration of a pair leaves a well-formed manager well-formed. -/
theorem CDManager.addCollisionModelPair_wellFormed (heap : LinkSetHeap) (cd : CDManager)
    (a b : LinkSetPtr) (hwf : cd.WellFormed heap) :
    (cd.addCollisionModelPair heap a b).WellFormed heap := by
  obtain ⟨hnn, hnd, hs⟩ := hwf
  refine ⟨?_, CDManager.addCollisionModelPair_noDuplicate heap cd a b hnd, ?_⟩
  · unfold CDManager.addCollisionModelPair
    by_cases h0 : a = 0 ∨ b = 0
    · rw [if_pos h0]; exact hnn
    · rw [if_neg h0]
      have ha : a ≠ 0 := fun h => h0 (Or.inl h)
      have hb : b ≠ 0 := fun h => h0 (Or.inr h)
      intro c hc
      dsimp only at hc
      have hmem : c ∈ cd.colModels ∨ c = a ∨ c = b := by
        split_ifs at hc <;> (try simp only [List.mem_append, List.mem_singleton] at hc) <;> tauto
      rcases hmem with hc1 | hc1 | hc1
      · exact hnn c hc1
      · rw [hc1]; exact ha
      · rw [hc1]; exact hb
  · rw [CDManager.addCollisionModelPair_colModelPairs]
    split
    · exact hs
    · exact MapSorted_mapPushBack a b _ hs

/-- The method `addCollisionModel` leaves a well-formed manager well-formed. -/
theorem CDManager.addCollisionModel_wellFormed (heap : LinkSetHeap) (cd cd1 : CDManager)
    (m : LinkSetPtr) (hwf : cd.WellFormed heap) (h : cd.addCollisionModel heap m = some cd1) :
    cd1.WellFormed heap := by
  by_cases hm0 : m = 0
  · unfold CDManager.addCollisionModel at h
    rw [if_neg (by simpa using hm0)] at h
    cases h
    exact hwf
  · obtain ⟨cd2, h1, -, h3, h4⟩ := CDManager.addCollisionModel_spec heap cd m hm0
    obtain ⟨cd3, g1, g2, -⟩ := CDManager.addCollisionModel_total heap cd m
    rw [h] at h1 g1
    cases h1
    cases g1
    obtain ⟨hnn, hnd, hs⟩ := hwf
    refine ⟨?_, g2 hnd, ?_⟩
    · intro c hc
      rw [h3] at hc
      split_ifs at hc
      · exact hnn c hc
      · rcases List.mem_append.1 hc with hc | hc
        · exact hnn c hc
        · rw [List.mem_singleton.1 hc]; exact hm0
    · rw [h4]
      exact (mapFind_foldl_push m cd.colModels cd.colModelPairs hs).1

/-- Every manager that the registration methods produce from a new one is well-formed. -/
theorem CDManager.run_wellFormed (heap : LinkSetHeap) (ops : List CDOp) :
    ∀ cd cd1 : CDManager, cd.WellFormed heap → cd.run heap ops = some cd1 → cd1.WellFormed heap := by
  induction ops with
  | nil =>
    intro cd cd1 hwf h
    unfold CDManager.run at h
    cases h
    exact hwf
  | cons op ops ih =>
    intro cd cd1 hwf h
    unfold CDManager.run at h
    cases op with
    | addCollisionModel m =>
      cases hst : cd.addCollisionModel heap m with
      | none => simp [CDManager.step, hst] at h
      | some cd2 =>
        simp only [CDManager.step, hst] at h
        exact ih cd2 cd1 (CDManager.addCollisionModel_wellFormed heap cd cd2 m hwf hst) h
    | addCollisionModelPair a b =>
      simp only [CDManager.step] at h
      exact ih _ cd1 (CDManager.addCollisionModelPair_wellFormed heap cd a b hwf) h

/-- A new manager is well-formed. -/
theorem CDManager.new_wellFormed (heap : LinkSetHeap) (ck gk : Option CollisionChecker) :
    (CDManager.new ck gk).WellFormed heap := by
  unfold CDManager.WellFormed NoDuplicate MapSorted CDManager.new
  simp

/-- C16: `addCollisionModel(m)`, for a non-null `m` that duplicates no registered model of
a manager that the registration methods have produced from a new one, returns with `m`
appended to the registered models, where it occurs exactly once, and with `m` appended exactly once to the list of
every previously registered model and to no other list, so that the number of recorded
pairs grows by the number of previously registered models.  Hence adding `k` non-null,
pairwise non-duplicate sets `ms` to a new manager registers exactly these sets, records
for every set the sets added after it, which are `k (k - 1) / 2` pairs in all, records
each unordered pair of different sets exactly once, and `isInCollision()` is true exactly
when the checker reports a collision for some set and a set added after it. -/
theorem CDManager.addCollisionModel_registers_all (heap : LinkSetHeap) (cd : CDManager)
    (m : LinkSetPtr) (ms : List LinkSetPtr) (ck : CollisionChecker)
    (ck0 gk0 : Option CollisionChecker) (ops : List CDOp)
    (hreach : (CDManager.new ck0 gk0).run heap ops = some cd)
    (hm0 : m ≠ 0) (hnew : ∀ c ∈ cd.colModels, ¬ sameSet heap c m)
    (hms0 : ∀ a ∈ ms, a ≠ 0) (hms : NoDuplicate heap ms) :
    (∃ cd1, cd.addCollisionModel heap m = some cd1 ∧
      cd1.colModels = cd.colModels ++ [m] ∧ cd1.colModels.count m = 1 ∧
      (∀ c, mapFind c cd1.colModelPairs =
        mapFind c cd.colModelPairs ++ (if c ∈ cd.colModels then [m] else [])) ∧
      pairCount cd1.colModelPairs = pairCount cd.colModelPairs + cd.colModels.length) ∧
    (∃ cdk, (CDManager.new (some ck) none).run heap (ms.map CDOp.addCollisionModel) = some cdk ∧
      cdk.colModels = ms ∧
      (∀ a, mapFind a cdk.colModelPairs = setsAfter a ms) ∧
      2 * pairCount cdk.colModelPairs = ms.length * (ms.length - 1) ∧
      (∀ a ∈ ms, ∀ b ∈ ms, a ≠ b →
        (mapFind a cdk.colModelPairs).count b + (mapFind b cdk.colModelPairs).count a = 1) ∧
      (cdk.isInCollision = true ↔
        ∃ a b, b ∈ setsAfter a ms ∧ ck.checkCollision a b = true)) := by
  have hwf : cd.WellFormed heap :=
    CDManager.run_wellFormed heap ops _ cd (CDManager.new_wellFormed heap ck0 gk0) hreach
  constructor
  · obtain ⟨cd1, g1, -, g3, g4, g5, g6⟩ := CDManager.addCollisionModel_fresh heap cd m hwf hm0 hnew
    refine ⟨cd1, g1, g3, ?_, g5, g6⟩
    exact List.count_eq_one_of_mem g4.2.1.nodup (by rw [g3]; simp)
  · obtain ⟨cdk, k1, k2, k3, k4, k5, k6⟩ := CDManager.run_addCollisionModel_all heap ms
      (CDManager.new (some ck) none) (by simpa [CDManager.new] using hms0)
      (by simpa [CDManager.new] using hms) (by simp [CDManager.new, MapSorted])
      (by intro a; simp [CDManager.new, mapFind, setsAfter]) (by simp [CDManager.new, pairCount])
    have e : (CDManager.new (some ck) none).colModels ++ ms = ms := by simp [CDManager.new]
    rw [e] at k3 k5 k6
    refine ⟨cdk, k1, k3, k5, k6, ?_, ?_⟩
    · intro a ha b hb hab
      rw [k5 a, k5 b]
      exact count_setsAfter ms hms.nodup a b ha hb hab
    · have hck : cdk.colChecker = some ck := by rw [k2]; rfl
      unfold CDManager.isInCollision
      rw [hck]
      dsimp only
      rw [CDManager.isInCollisionLoop_iff]
      constructor
      · rintro ⟨a, sets, h1, b, h2, h3⟩
        exact ⟨a, b, by rw [← k5 a]; exact (mem_mapFind_iff a b _ k4).2 ⟨sets, h1, h2⟩, h3⟩
      · rintro ⟨a, b, h1, h2⟩
        rw [← k5 a] at h1
        obtain ⟨sets, h3, h4⟩ := (mem_mapFind_iff a b _ k4).1 h1
        exact ⟨a, sets, h3, b, h4, h2⟩

/-- C16, witness: in the two-box scene, the empty set 3 added to the manager that holds the
pair `(1, 2)`, and the three sets 1, 2 and 3 added to a new manager. -/
theorem CDManager.addCollisionModel_registers_all_witness :
    (∃ cd1, ((CDManager.new none none).addCollisionModelPair boxHeap 1 2).addCollisionModel
        boxHeap 3 = some cd1 ∧
      cd1.colModels = [1, 2, 3] ∧ mapFind 1 cd1.colModelPairs = [2, 3] ∧
      mapFind 2 cd1.colModelPairs = [3] ∧ mapFind 3 cd1.colModelPairs = [] ∧
      pairCount cd1.colModelPairs = 3) ∧
    (∃ cdk, (CDManager.new (some (boxChecker boxHeap centresMoved)) none).run boxHeap
        [CDOp.addCollisionModel 1, CDOp.addCollisionModel 2, CDOp.addCollisionModel 3] = some cdk ∧
      cdk.colModels = [1, 2, 3] ∧ mapFind 1 cdk.colModelPairs = [2, 3] ∧
      mapFind 2 cdk.colModelPairs = [3] ∧ 2 * pairCount cdk.colModelPairs = 3 * 2 ∧
      cdk.isInCollision = true) := by
  have h := CDManager.addCollisionModel_registers_all boxHeap
    ((CDManager.new none none).addCollisionModelPair boxHeap 1 2) 3 [1, 2, 3]
    (boxChecker boxHeap centresMoved) none none [CDOp.addCollisionModelPair 1 2] rfl
    (by decide) (by decide) (by decide) (by unfold NoDuplicate; decide)
  obtain ⟨⟨cd1, a1, a2, -, a4, a5⟩, ⟨cdk, b1, b2, b3, b4, -, b6⟩⟩ := h
  refine ⟨⟨cd1, a1, a2, ?_, ?_, ?_, a5⟩, ⟨cdk, b1, b2, ?_, ?_, b4, ?_⟩⟩
  · rw [a4 1]; decide
  · rw [a4 2]; decide
  · rw [a4 3]; decide
  · rw [b3 1]; decide
  · rw [b3 2]; decide
  · rw [b6]
    exact ⟨1, 2, by decide, by decide⟩

/-- C17 (amended): when `addCollisionModel(m)` is called on a manager that the
registration methods have produced from a new one, with a non-null set `m` that duplicates
a registered model, the call
returns and `m` is not appended to the registered models, but `m` is appended to the list
of every registered model other than `m` itself, so that as many pairs are recorded as
there are such models; the manager is left unchanged exactly when no model other than `m`
is registered. -/
theorem CDManager.addCollisionModel_of_duplicate (heap : LinkSetHeap) (cd : CDManager)
    (m : LinkSetPtr) (ck0 gk0 : Option CollisionChecker) (ops : List CDOp)
    (hreach : (CDManager.new ck0 gk0).run heap ops = some cd) (hm0 : m ≠ 0)
    (hdup : ∃ c ∈ cd.colModels, sameSet heap c m) :
    ∃ cd1, cd.addCollisionModel heap m = some cd1 ∧
      cd1.colChecker = cd.colChecker ∧ cd1.colModels = cd.colModels ∧
      (∀ c, mapFind c cd1.colModelPairs =
        mapFind c cd.colModelPairs ++ (if c ∈ cd.colModels ∧ c ≠ m then [m] else [])) ∧
      pairCount cd1.colModelPairs =
        pairCount cd.colModelPairs + (cd.colModels.filter (fun c => decide (c ≠ m))).length ∧
      (cd1 = cd ↔ ∀ c ∈ cd.colModels, c = m) := by
  obtain ⟨hnn, hnd, hs⟩ :=
    CDManager.run_wellFormed heap ops _ cd (CDManager.new_wellFormed heap ck0 gk0) hreach
  obtain ⟨cd1, h1, h2, h3, h4⟩ := CDManager.addCollisionModel_spec heap cd m hm0
  have hhas : cd._hasSceneObjectSet heap m = true :=
    (CDManager._hasSceneObjectSet_iff heap cd m).2 hdup
  rw [if_pos hhas] at h3
  obtain ⟨-, f2⟩ := mapFind_foldl_push m cd.colModels cd.colModelPairs hs
  have hfilter : cd.colModels.filter (fun c => decide (c ≠ m ∧ c ≠ 0)) =
      cd.colModels.filter (fun c => decide (c ≠ m)) := by
    apply List.filter_congr
    intro c hc
    have := hnn c hc
    simp [this]
  have hcount : pairCount cd1.colModelPairs =
      pairCount cd.colModelPairs + (cd.colModels.filter (fun c => decide (c ≠ m))).length := by
    rw [h4, pairCount_foldl_push, hfilter]
  refine ⟨cd1, h1, h2, h3, ?_, hcount, ?_⟩
  · intro c
    rw [h4, f2 c]
    by_cases hc : c ∈ cd.colModels
    · by_cases hcm : c = m
      · rw [if_neg (fun h => h.1 hcm), if_neg (fun h => h.2 hcm)]
        rfl
      · rw [if_pos ⟨hcm, hnn c hc⟩, if_pos ⟨hc, hcm⟩, List.count_eq_one_of_mem hnd.nodup hc]
        rfl
    · rw [List.count_eq_zero_of_not_mem hc]
      simp [hc]
  · constructor
    · intro he c hc
      by_contra hcm
      rw [he] at hcount
      have hmem : c ∈ cd.colModels.filter (fun c => decide (c ≠ m)) :=
        List.mem_filter.2 ⟨hc, by simpa using hcm⟩
      have hpos := List.length_pos_of_mem hmem
      omega
    · intro hall
      have hfold : ∀ (l : List LinkSetPtr) (p : List (LinkSetPtr × List LinkSetPtr)),
          (∀ c ∈ l, c = m) →
          l.foldl (fun p c => if c ≠ m ∧ c ≠ 0 then mapPushBack c m p else p) p = p := by
        intro l
        induction l with
        | nil => intro p _; rfl
        | cons c l ih =>
          intro p hl
          rw [List.foldl_cons, if_neg (fun h => h.1 (hl c (List.mem_cons_self _ _)))]
          exact ih p (fun x hx => hl x (List.mem_cons_of_mem _ hx))
      rw [hfold cd.colModels cd.colModelPairs hall] at h4
      cases cd1
      cases cd
      simp only at h2 h3 h4
      rw [h2, h3, h4]

/-- C17, witness: in the two-box scene the set 1 is added again to the manager that
adding the sets 1 and 2 to a new manager produces;
the registered models stay `[1, 2]` and the pair `(2, 1)` is recorded. -/
theorem CDManager.addCollisionModel_of_duplicate_witness :
    ∃ cd1, ({ colChecker := none, colModels := [1, 2], colModelPairs := [(1, [2])] } :
        CDManager).addCollisionModel boxHeap 1 = some cd1 ∧
      cd1.colModels = [1, 2] ∧ mapFind 1 cd1.colModelPairs = [2] ∧
      mapFind 2 cd1.colModelPairs = [1] ∧ pairCount cd1.colModelPairs = 2 := by
  obtain ⟨cd1, h1, -, h3, h4, h5, -⟩ := CDManager.addCollisionModel_of_duplicate boxHeap
    { colChecker := none, colModels := [1, 2], colModelPairs := [(1, [2])] } 1
    none none [CDOp.addCollisionModel 1, CDOp.addCollisionModel 2] rfl (by decide)
    ⟨1, by decide, Or.inl rfl⟩
  refine ⟨cd1, h1, h3, ?_, ?_, ?_⟩
  · rw [h4 1]; decide
  · rw [h4 2]; decide
  · rw [h5]; decide

/-- C17, counterexample: a duplicate set leaves a trace in the manager.  In the two-box
scene, adding the set 1 again after the sets 1 and 2 records the pair `(2, 1)`; in the
scene with two sets on one node, adding the set 3, which wraps the node of the registered
set 1, records the pair `(1, 3)` although the set 3 is not registered. -/
theorem CDManager.addCollisionModel_duplicate_records_pair :
    (((CDManager.new none none).run boxHeap
        [CDOp.addCollisionModel 1, CDOp.addCollisionModel 2]).map
      (fun cd => (cd.colModels, cd.colModelPairs)) = some ([1, 2], [(1, [2])])) ∧
    (((CDManager.new none none).run boxHeap
        [CDOp.addCollisionModel 1, CDOp.addCollisionModel 2, CDOp.addCollisionModel 1]).map
      (fun cd => (cd.colModels, cd.colModelPairs)) = some ([1, 2], [(1, [2]), (2, [1])])) ∧
    (((CDManager.new none none).run twinHeap [CDOp.addCollisionModel 1]).map
      (fun cd => (cd.colModels, cd.colModelPairs)) = some ([1], [])) ∧
    (((CDManager.new none none).run twinHeap
        [CDOp.addCollisionModel 1, CDOp.addCollisionModel 3]).map
      (fun cd => (cd.colModels, cd.colModelPairs)) = some ([1], [(1, [3])])) := by
  decide

/-- The two loops over `colModels` agree on the distance as long as the set `m` itself is
not among the models and the two overloads of the checker report the same distance. -/
theorem CDManager.getDistanceSetContact_go_fst (c : CollisionChecker) (m : LinkSetPtr)
    (hagree : ∀ x, (c.calculateDistanceContact m x).1 = c.calculateDistance x m) :
    ∀ (l : List LinkSetPtr) (minDist : Flt) (out : Contact), m ∉ l →
      (CDManager.getDistanceSetContact.go m c l (minDist, out)).1 =
        CDManager.getDistanceSet.go m c l minDist := by
  intro l
  induction l with
  | nil => intro minDist out _; rfl
  | cons x rest ih =>
    intro minDist out hm
    have hx : m ≠ x := fun h => hm (by rw [h]; exact List.mem_cons_self _ _)
    have hrest : m ∉ rest := fun h => hm (List.mem_cons_of_mem _ h)
    unfold CDManager.getDistanceSetContact.go CDManager.getDistanceSet.go
    rw [if_pos hx]
    dsimp only
    rw [hagree x]
    by_cases hlt : Flt.lt (c.calculateDistance x m) minDist = true
    · rw [if_pos hlt, if_pos hlt, ih _ _ hrest]
    · rw [if_neg hlt, if_neg hlt, ih _ _ hrest]

/-- C18, the failing query: with the two boxes of the scene registered, ten apart,
`getDistance(X)` for the first box returns the distance 8 to the second box, while
`getDistance(X, P1, P2, trID1, trID2)` returns 0, the distance of the first box to itself:
the loop of the contact-point variant has no test `m != colModels[j]`.  The two variants
return the same distance whenever `X` is not registered and the two overloads of the
checker agree on the distance of `X` to every set. -/
theorem CDManager.getDistanceSetContact_tests_self :
    (((CDManager.new (some (boxChecker boxHeap centresApart)) none).addCollisionModelPair
        boxHeap 1 2).getDistanceSet 1 = Flt.fin 8) ∧
    (∀ out : Contact,
      (((CDManager.new (some (boxChecker boxHeap centresApart)) none).addCollisionModelPair
        boxHeap 1 2).getDistanceSetContact 1 out).1 = Flt.fin 0) ∧
    Flt.fin 0 ≠ Flt.fin 8 ∧
    (∀ (cd : CDManager) (c : CollisionChecker) (m : LinkSetPtr) (out : Contact),
      cd.colChecker = some c → m ≠ 0 → m ∉ cd.colModels →
      (∀ x, (c.calculateDistanceContact m x).1 = c.calculateDistance x m) →
      (cd.getDistanceSetContact m out).1 = cd.getDistanceSet m) := by
  refine ⟨by decide!, fun out => by rfl, by decide, ?_⟩
  intro cd c m out hc hm0 hm hagree
  unfold CDManager.getDistanceSetContact CDManager.getDistanceSet
  rw [hc]
  dsimp only
  rw [if_neg hm0, if_neg hm0]
  exact CDManager.getDistanceSetContact_go_fst c m hagree cd.colModels FLT_MAX out hm

open ConstrainedOptimizationIK

namespace ConstrainedOptimizationIK

/-- The rescaling loop keeps the size of a gradient. -/
theorem scaleGradient_length (env : Env) (scaling : Nat → Flt) :
    ∀ (g : List Flt) (i : Nat), (scaleGradient env scaling g i).length = g.length := by
  intro g
  induction g with
  | nil => intro i; rfl
  | cons gi g ih => intro i; simp [scaleGradient, ih]

/-- With a gradient of the size of the joint set, the rescaling loop multiplies the
component of a rotational joint by 1 and that of any other joint by 1/57. -/
theorem scaleGradient_eq_rescaled (env : Env) (genv : GradientEnv) (n : Nat) :
    ∀ (g : List Flt) (i : Nat), i + g.length ≤ n →
      scaleGradient env (scalingVec env genv n n) g i = rescaledGradient env genv g i := by
  intro g
  induction g with
  | nil => intro i _; rfl
  | cons gi g ih =>
    intro i hi
    simp only [List.length_cons] at hi
    unfold scaleGradient rescaledGradient
    rw [ih (i + 1) (by omega)]
    unfold scalingVec
    rw [if_pos ⟨rfl, by omega⟩]

/-- The loops of `optimizationFunction` return when every gradient has the size of the
gradient vector; the value is the sum of the values of all functions. -/
theorem objectiveLoop_ok (env : Env) (q : List Flt) (size : Nat) (scaling : Nat → Flt) :
    ∀ (fns : List OptimizationFunctionSetup) (value : Flt) (grad : List Flt),
      grad.length = size →
      (0 < size → ∀ fn ∈ fns, (fn.constraint.optimizationGradient fn.id q).length = size) →
      ∃ g1, objectiveLoop env q size scaling fns (value, grad) =
          .ok (fns.foldl (fun v fn => env.d.add v (fn.constraint.optimizationFunction fn.id q)) value,
            g1) ∧ g1.length = size := by
  intro fns
  induction fns with
  | nil => intro value grad hg _; exact ⟨grad, rfl, hg⟩
  | cons fn fns ih =>
    intro value grad hg hlen
    unfold objectiveLoop
    dsimp only
    by_cases hs : size > 0
    · rw [if_pos hs]
      have hl := hlen hs fn (List.mem_cons_self _ _)
      have hadd : vecAdd env grad
          (scaleGradient env scaling (fn.constraint.optimizationGradient fn.id q) 0) =
          .ok (List.zipWith env.f.add grad
            (scaleGradient env scaling (fn.constraint.optimizationGradient fn.id q) 0)) := by
        unfold vecAdd
        rw [if_pos (by rw [scaleGradient_length, hg, hl])]
        rfl
      rw [hadd]
      dsimp only
      rw [List.foldl_cons]
      exact ih _ _ (by rw [List.length_zipWith, scaleGradient_length, hg, hl, Nat.min_self])
        (fun h0 f hf => hlen h0 f (List.mem_cons_of_mem _ hf))
    · rw [if_neg hs, List.foldl_cons]
      exact ih _ _ hg (fun h0 f hf => hlen h0 f (List.mem_cons_of_mem _ hf))

/-- With a gradient vector of the size of the joint set, the loops of
`optimizationFunction` leave in `grad` the sum of the rescaled gradients. -/
theorem objectiveLoop_grad (env : Env) (genv : GradientEnv) (q : List Flt) (size : Nat)
    (hs : 0 < size) :
    ∀ (fns : List OptimizationFunctionSetup) (value : Flt) (grad : List Flt),
      grad.length = size →
      (∀ fn ∈ fns, (fn.constraint.optimizationGradient fn.id q).length = size) →
      objectiveLoop env q size (scalingVec env genv size size) fns (value, grad) =
        .ok (fns.foldl (fun v fn => env.d.add v (fn.constraint.optimizationFunction fn.id q)) value,
          sumRescaled env genv q fns grad) := by
  intro fns
  induction fns with
  | nil => intro value grad _ _; rfl
  | cons fn fns ih =>
    intro value grad hg hlen
    have hl := hlen fn (List.mem_cons_self _ _)
    unfold objectiveLoop
    dsimp only
    rw [if_pos hs, scaleGradient_eq_rescaled env genv size _ 0 (by omega)]
    have hrl : (rescaledGradient env genv (fn.constraint.optimizationGradient fn.id q) 0).length
        = size := by
      rw [← scaleGradient_eq_rescaled env genv size _ 0 (by omega), scaleGradient_length, hl]
    have hadd : vecAdd env grad
        (rescaledGradient env genv (fn.constraint.optimizationGradient fn.id q) 0) =
        .ok (List.zipWith env.f.add grad
          (rescaledGradient env genv (fn.constraint.optimizationGradient fn.id q) 0)) := by
      unfold vecAdd
      rw [if_pos (by rw [hrl, hg])]
      rfl
    rw [hadd]
    dsimp only
    rw [List.foldl_cons]
    unfold sumRescaled
    exact ih _ _ (by rw [List.length_zipWith, hrl, hg, Nat.min_self])
      (fun f hf => hlen f (List.mem_cons_of_mem _ hf))

/-- The sum over the soft functions is the sum over all functions when all are soft. -/
theorem softSum_eq_totalSum (env : Env) (ik : ConstrainedOptimizationIK) (q : List Flt)
    (hsoft : ∀ fn ∈ allFunctions ik, fn.soft = true) : softSum env ik q = totalSum env ik q := by
  unfold softSum totalSum
  rw [List.filter_eq_self.2 hsoft]

end ConstrainedOptimizationIK
open ConstrainedOptimizationIK

/-- C19 (amended): the objective value that `optimizationFunction` returns at a
configuration `x` is the sum of the values of all optimization functions of the constraint
stack, soft and hard alike, at the joint values that the robot holds once `x` is written;
the call returns whenever `x` can be written and every gradient has the size of the
gradient vector.  The value is the sum over the soft functions when every function of
the stack is soft. -/
theorem ConstrainedOptimizationIK.optimizationFunction_value (env : Env) (genv : GradientEnv)
    (s s1 : IKState) (x : List Flt) (size : Nat)
    (hcb : callback env s x = .ok s1)
    (hlen : 0 < size → ∀ fn ∈ allFunctions s1.ik,
      (fn.constraint.optimizationGradient fn.id s1.robot.config).length = size) :
    (∃ gradient, optimizationFunction env genv s x size =
      .ok (s1, totalSum env s1.ik s1.robot.config, gradient)) ∧
    ((∀ fn ∈ allFunctions s1.ik, fn.soft = true) →
      ∃ gradient, optimizationFunction env genv s x size =
        .ok (s1, softSum env s1.ik s1.robot.config, gradient)) := by
  have key : ∃ gradient, optimizationFunction env genv s x size =
      .ok (s1, totalSum env s1.ik s1.robot.config, gradient) := by
    unfold optimizationFunction
    rw [hcb]
    dsimp only
    obtain ⟨g1, h1, -⟩ := objectiveLoop_ok env s1.robot.config size
      (scalingVec env genv s1.robot.joints.length size) (allFunctions s1.ik) (Flt.fin 0)
      (List.replicate size (Flt.fin 0)) (List.length_replicate _ _) hlen
    rw [h1]
    dsimp only
    by_cases hs : size > 0
    · rw [if_pos hs]; exact ⟨_, rfl⟩
    · rw [if_neg hs]; exact ⟨_, rfl⟩
  refine ⟨key, fun hsoft => ?_⟩
  rw [softSum_eq_totalSum env s1.ik s1.robot.config hsoft]
  exact key

/-- C19, witness: the one-joint solver with the hard function of the demonstration
constraint, evaluated at `x = 5` with a gradient vector of one entry; the objective is
`(5 - 3)^2 = 4`. -/
theorem ConstrainedOptimizationIK.optimizationFunction_value_witness :
    callbackValue (optimizationFunction demoEnv demoGradientEnv
      (demoState demoConstraint 3 demoResults) [Flt.fin 5] 1) = some (Flt.fin 4) := by
  have hcb : ∃ s1, callback demoEnv (demoState demoConstraint 3 demoResults) [Flt.fin 5] = .ok s1 ∧
      s1.robot.config = [Flt.fin 5] ∧ allFunctions s1.ik = allFunctions (demoState demoConstraint 3 demoResults).ik := by
    refine ⟨_, rfl, ?_, rfl⟩
    decide!
  obtain ⟨s1, h1, h2, h3⟩ := hcb
  obtain ⟨⟨gradient, h⟩, -⟩ := ConstrainedOptimizationIK.optimizationFunction_value demoEnv
    demoGradientEnv (demoState demoConstraint 3 demoResults) s1 [Flt.fin 5] 1 h1
    (by
      intro _ fn hfn
      rw [h3] at hfn
      simp only [allFunctions, demoState, ConstrainedOptimizationIK.new, initialise, demoConstraint,
        List.flatMap_cons, List.flatMap_nil, List.append_nil, List.mem_singleton] at hfn
      rw [hfn]
      rfl)
  rw [h]
  show some (totalSum demoEnv s1.ik s1.robot.config) = some (Flt.fin 4)
  unfold totalSum
  rw [h2, h3]
  decide!

/-- C19, counterexample: the stack of the one-joint solver holds one function, tagged
hard; at `x = 5` the objective is 4 while the sum over the soft functions is 0. -/
theorem ConstrainedOptimizationIK.optimizationFunction_counts_hard :
    (allFunctions (demoState demoConstraint 3 demoResults).ik).map (fun fn => fn.soft) = [false] ∧
    callbackValue (optimizationFunction demoEnv demoGradientEnv
      (demoState demoConstraint 3 demoResults) [Flt.fin 5] 0) = some (Flt.fin 4) ∧
    callbackValue (optimizationFunction demoEnv demoGradientEnv
      (demoState demoConstraint 3 demoResults) [Flt.fin 5] 1) = some (Flt.fin 4) ∧
    softSum demoEnv (demoState demoConstraint 3 demoResults).ik [Flt.fin 5] = Flt.fin 0 := by
  refine ⟨by decide, by decide!, by decide!, by decide!⟩

open ConstrainedOptimizationIK

/-- C20 (amended): in an objective gradient evaluation with a gradient vector of the size
of the joint set, the gradient component of joint `i` of every function is multiplied by 1
when joint `i` is rotational and by 1/57 otherwise, and the gradient handed to the
optimizer is the sum of the rescaled gradients of all functions after Eigen's
`normalize()`.  In a constraint gradient evaluation nothing is rescaled: the gradient of
the constraint function is handed to the optimizer as it is.  Both calls return whenever
`x` can be written and the gradients have the size of the gradient vector. -/
theorem ConstrainedOptimizationIK.gradient_scaling (env : Env) (genv : GradientEnv)
    (s s1 : IKState) (x : List Flt) (size : Nat) (setup : OptimizationFunctionSetup)
    (hcb : callback env s x = .ok s1) (hs : 0 < size) (hsize : size = s1.robot.joints.length)
    (hlen : ∀ fn ∈ allFunctions s1.ik,
      (fn.constraint.optimizationGradient fn.id s1.robot.config).length = size)
    (hsetup : (setup.constraint.optimizationGradient setup.id s1.robot.config).length = size) :
    optimizationFunction env genv s x size =
      .ok (s1, totalSum env s1.ik s1.robot.config,
        genv.normalize (sumRescaled env genv s1.robot.config (allFunctions s1.ik)
          (List.replicate size (Flt.fin 0)))) ∧
    optimizationConstraint env s x size setup =
      .ok (s1, setup.constraint.optimizationFunction setup.id s1.robot.config,
        setup.constraint.optimizationGradient setup.id s1.robot.config) := by
  constructor
  · unfold optimizationFunction
    rw [hcb]
    dsimp only
    rw [← hsize, objectiveLoop_grad env genv s1.robot.config size hs (allFunctions s1.ik)
      (Flt.fin 0) (List.replicate size (Flt.fin 0)) (List.length_replicate _ _) hlen]
    dsimp only
    rw [if_pos hs]
    rfl
  · unfold optimizationConstraint
    rw [hcb]
    dsimp only
    rw [if_pos hs, if_pos (le_of_eq hsetup.symm), ← hsetup, List.take_length]

/-- C20, witness: the one-joint solver, whose joint is not rotational, evaluated at
`x = 5`.  The gradient `[4]` of the only function becomes `[4/57]` in the objective, which
`normalize()` turns into `[1]`; as a constraint gradient it stays `[4]`. -/
theorem ConstrainedOptimizationIK.gradient_scaling_witness :
    callbackGradient (optimizationFunction demoEnv demoGradientEnv
      (demoState demoConstraint 3 demoResults) [Flt.fin 5] 1) = some [Flt.fin 1] ∧
    callbackGradient (optimizationConstraint demoEnv
      (demoState demoConstraint 3 demoResults) [Flt.fin 5] 1
      { id := 0, constraint := demoConstraint.impl, soft := false }) = some [Flt.fin 4] := by
  have hcb : ∃ s1, callback demoEnv (demoState demoConstraint 3 demoResults) [Flt.fin 5] = .ok s1 ∧
      s1.robot.config = [Flt.fin 5] ∧ s1.robot.joints.length = 1 ∧
      allFunctions s1.ik = allFunctions (demoState demoConstraint 3 demoResults).ik := by
    refine ⟨_, rfl, ?_, rfl, rfl⟩
    decide!
  obtain ⟨s1, h1, h2, h3, h4⟩ := hcb
  obtain ⟨a, b⟩ := ConstrainedOptimizationIK.gradient_scaling demoEnv
    demoGradientEnv (demoState demoConstraint 3 demoResults) s1 [Flt.fin 5] 1
    { id := 0, constraint := demoConstraint.impl, soft := false } h1 (by decide) h3.symm
    (by
      intro fn hfn
      rw [h4] at hfn
      simp only [allFunctions, demoState, ConstrainedOptimizationIK.new, initialise, demoConstraint,
        List.flatMap_cons, List.flatMap_nil, List.append_nil, List.mem_singleton] at hfn
      rw [hfn]
      rfl)
    rfl
  rw [a, b]
  constructor
  · show some (demoGradientEnv.normalize (sumRescaled demoEnv demoGradientEnv s1.robot.config
      (allFunctions s1.ik) (List.replicate 1 (Flt.fin 0)))) = some [Flt.fin 1]
    rw [h2, h4]
    decide!
  · show some ((demoConstraint.impl).optimizationGradient 0 s1.robot.config) = some [Flt.fin 4]
    rw [h2]
    decide!

/-- C20, counterexample: a constraint gradient evaluation for the one-joint solver, whose
joint is not rotational, at `x = 5`.  The gradient handed to the optimizer is `[4]`, the
gradient of the function, while the component multiplied by 1/57 is `[4/57]`. -/
theorem ConstrainedOptimizationIK.optimizationConstraint_not_rescaled :
    demoGradientEnv.isRotationalJoint 0 = false ∧
    callbackGradient (optimizationConstraint demoEnv
      (demoState demoConstraint 3 demoResults) [Flt.fin 5] 1
      { id := 0, constraint := demoConstraint.impl, soft := false }) = some [Flt.fin 4] ∧
    rescaledGradient demoEnv demoGradientEnv [Flt.fin 4] 0 = [Flt.fin (4 / 57)] ∧
    [Flt.fin 4] ≠ [Flt.fin (4 / 57)] := by
  refine ⟨rfl, by decide!, by decide!, by decide!⟩

/-- The difference of a finite value and itself is zero when zero rounds to zero. -/
theorem roundedArith_sub_self (rnd : ℚ → Flt) (h0 : rnd 0 = Flt.fin 0) (v : ℚ) :
    (roundedArith rnd).sub (Flt.fin v) (Flt.fin v) = Flt.fin 0 := by
  show Flt.round rnd (Flt.add (Flt.fin v) (Flt.neg (Flt.fin v))) = Flt.fin 0
  simp only [Flt.neg, Flt.add, Flt.round, add_neg_cancel]
  exact h0

/-- The product of a finite value and zero is zero when zero rounds to zero. -/
theorem roundedArith_mul_zero (rnd : ℚ → Flt) (h0 : rnd 0 = Flt.fin 0) (v : ℚ) :
    (roundedArith rnd).mul (Flt.fin v) (Flt.fin 0) = Flt.fin 0 := by
  show Flt.round rnd (Flt.mul (Flt.fin v) (Flt.fin 0)) = Flt.fin 0
  simp only [Flt.mul, Flt.round, mul_zero]
  exact h0

/-- The product of zero and a finite value is zero when zero rounds to zero. -/
theorem roundedArith_zero_mul (rnd : ℚ → Flt) (h0 : rnd 0 = Flt.fin 0) (v : ℚ) :
    (roundedArith rnd).mul (Flt.fin 0) (Flt.fin v) = Flt.fin 0 := by
  show Flt.round rnd (Flt.mul (Flt.fin 0) (Flt.fin v)) = Flt.fin 0
  simp only [Flt.mul, Flt.round, zero_mul]
  exact h0

/-- The sum of two zeros is zero when zero rounds to zero. -/
theorem roundedArith_zero_add_zero (rnd : ℚ → Flt) (h0 : rnd 0 = Flt.fin 0) :
    (roundedArith rnd).add (Flt.fin 0) (Flt.fin 0) = Flt.fin 0 := by
  show Flt.round rnd (Flt.add (Flt.fin 0) (Flt.fin 0)) = Flt.fin 0
  simp only [Flt.add, Flt.round, add_zero]
  exact h0

/-- The row `2 * factor * 0 * J` is zero for a finite doubled factor and a finite
Jacobian. -/
theorem PositionConstraint.scaledRowTimesJ_zero (rnd : ℚ → Flt) (h0 : rnd 0 = Flt.fin 0)
    (c : PositionConstraint) (f w : ℚ) (hf : c.optimizationFunctionFactor = Flt.fin f)
    (hw : rnd (2 * f) = Flt.fin w)
    (hJ : ∀ k j, k < 3 → j < c.size → ∃ v, c.J k j = Flt.fin v) :
    PositionConstraint.scaledRowTimesJ (roundedArith rnd) c (Flt.fin 0, Flt.fin 0, Flt.fin 0) =
      List.replicate c.size (Flt.fin 0) := by
  unfold PositionConstraint.scaledRowTimesJ
  have hw2 : (roundedArith rnd).mul (Flt.fin 2) c.optimizationFunctionFactor = Flt.fin w := by
    rw [hf]
    show Flt.round rnd (Flt.mul (Flt.fin 2) (Flt.fin f)) = Flt.fin w
    simp only [Flt.mul, Flt.round]
    exact hw
  dsimp only
  rw [hw2, roundedArith_mul_zero rnd h0 w]
  apply List.ext_getElem
  · simp
  · intro j h1 h2
    simp only [List.length_map, List.length_range] at h1
    simp only [List.getElem_map, List.getElem_range, List.getElem_replicate]
    obtain ⟨v0, e0⟩ := hJ 0 j (by decide) h1
    obtain ⟨v1, e1⟩ := hJ 1 j (by decide) h1
    obtain ⟨v2, e2⟩ := hJ 2 j (by decide) h1
    rw [e0, e1, e2, roundedArith_zero_mul rnd h0, roundedArith_zero_mul rnd h0,
      roundedArith_zero_mul rnd h0, roundedArith_zero_add_zero rnd h0,
      roundedArith_zero_add_zero rnd h0]

/-- C14 (amended): for every PositionConstraint with any Cartesian selection, a finite
weighting factor whose double is finite in `float`, and a Jacobian with finite entries,
when the origin of the end-effector frame is a finite point equal to the target point,
`optimizationFunction` returns 0 and `optimizationGradient` returns the zero vector with
one entry for each joint of the joint set.  The arithmetic rounds every exact result, and
rounds zero to zero. -/
theorem PositionConstraint.zero_at_target (rnd : ℚ → Flt) (c : PositionConstraint)
    (px py pz f w : ℚ) (h0 : rnd 0 = Flt.fin 0)
    (hp : c.eefPosition = (Flt.fin px, Flt.fin py, Flt.fin pz))
    (ht : c.target = c.eefPosition)
    (hf : c.optimizationFunctionFactor = Flt.fin f)
    (hw : rnd (2 * f) = Flt.fin w)
    (hJ : ∀ k j, k < 3 → j < c.size → ∃ v, c.J k j = Flt.fin v) :
    c.optimizationFunction (roundedArith rnd) = Flt.fin 0 ∧
    c.optimizationGradient (roundedArith rnd) = List.replicate c.size (Flt.fin 0) ∧
    (c.optimizationGradient (roundedArith rnd)).length = c.size := by
  have hd : c.d (roundedArith rnd) = (Flt.fin 0, Flt.fin 0, Flt.fin 0) := by
    unfold PositionConstraint.d
    rw [ht, hp]
    dsimp only
    rw [roundedArith_sub_self rnd h0, roundedArith_sub_self rnd h0, roundedArith_sub_self rnd h0]
  have hrow := PositionConstraint.scaledRowTimesJ_zero rnd h0 c f w hf hw hJ
  have hg : c.optimizationGradient (roundedArith rnd) = List.replicate c.size (Flt.fin 0) := by
    unfold PositionConstraint.optimizationGradient
    rw [hd]
    dsimp only
    cases c.cartesianSelection <;> first | exact hrow | rfl
  refine ⟨?_, hg, by rw [hg, List.length_replicate]⟩
  unfold PositionConstraint.optimizationFunction PositionConstraint.dot
  rw [hd, hf]
  dsimp only
  cases c.cartesianSelection <;> dsimp only <;>
    simp only [roundedArith_mul_zero rnd h0, roundedArith_zero_mul rnd h0,
      roundedArith_zero_add_zero rnd h0]

/-- C14, witness: the constraint over two joints at its target, restricted to the axis X,
with weighting factor 3 and a Jacobian whose entries are all 5, in arithmetic without
rounding. -/
theorem PositionConstraint.zero_at_target_witness :
    (atTarget CartesianSelection.X (Flt.fin 3) (fun _ _ => Flt.fin 5)).optimizationFunction
        (roundedArith Flt.fin) = Flt.fin 0 ∧
    (atTarget CartesianSelection.X (Flt.fin 3) (fun _ _ => Flt.fin 5)).optimizationGradient
        (roundedArith Flt.fin) = [Flt.fin 0, Flt.fin 0] := by
  obtain ⟨h1, h2, -⟩ := PositionConstraint.zero_at_target Flt.fin
    (atTarget CartesianSelection.X (Flt.fin 3) (fun _ _ => Flt.fin 5)) 1 2 3 3 6 rfl rfl rfl rfl
    (by norm_num) (fun _ _ _ _ => ⟨5, rfl⟩)
  exact ⟨h1, h2⟩

/-- C14, counterexample: at the target, with an infinite weighting factor the function
returns NaN (`Inf * 0`), and with a Jacobian that has an infinite entry the gradient has
a NaN entry (`0 * Inf`); neither is zero. -/
theorem PositionConstraint.nan_at_target :
    (atTarget CartesianSelection.X Flt.pinf (fun _ _ => Flt.fin 5)).target =
      (atTarget CartesianSelection.X Flt.pinf (fun _ _ => Flt.fin 5)).eefPosition ∧
    (atTarget CartesianSelection.X Flt.pinf (fun _ _ => Flt.fin 5)).optimizationFunction
        (roundedArith Flt.fin) = Flt.nan ∧
    (atTarget CartesianSelection.Position (Flt.fin 3) (fun _ _ => Flt.pinf)).optimizationGradient
        (roundedArith Flt.fin) = [Flt.nan, Flt.nan] ∧
    Flt.nan ≠ Flt.fin 0 := by
  refine ⟨rfl, by decide!, by decide!, by decide⟩

namespace ConstrainedOptimizationIK

/-- An attempt that ends `solve` with success leaves the two flags at the saved values. -/
theorem attemptBody_success_flags (env : Env) (opt : Optimizer) (uv uc : Bool) (attempt : Nat)
    (s s1 : IKState) (best : List Flt) (minErr : Flt)
    (h : attemptBody env opt uv uc attempt s best minErr = .ok (AttemptResult.success s1)) :
    s1.robot.updateVisualization = uv ∧ s1.robot.updateCollisionModel = uc := by
  unfold attemptBody at h
  cases hc : attemptCheck env opt attempt s with
  | error err => rw [hc] at h; cases h
  | ok v =>
    obtain ⟨s2, x, b, e⟩ := v
    rw [hc] at h
    simp only [bind, Except.bind, pure, Except.pure] at h
    cases b with
    | false => simp at h
    | true =>
      simp only [if_true] at h
      split at h
      · cases h
      · cases h
        exact ⟨rfl, rfl⟩

/-- Whenever the attempt loop and the lines after it return, the two flags have the saved
values. -/
theorem solveLoop_flags (env : Env) (opt : Optimizer) (uv uc : Bool) :
    ∀ (remaining attempt : Nat) (s : IKState) (best : List Flt) (minErr : Flt) (b : Bool)
      (s1 : IKState),
      solveLoop env opt uv uc remaining attempt s best minErr = .ok (b, s1) →
      s1.robot.updateVisualization = uv ∧ s1.robot.updateCollisionModel = uc := by
  intro remaining
  induction remaining with
  | zero =>
    intro attempt s best minErr b s1 h
    rw [solveLoop_zero] at h
    split at h
    · split at h
      · cases h; exact ⟨rfl, rfl⟩
      · cases h
    · cases h; exact ⟨rfl, rfl⟩
  | succ n ih =>
    intro attempt s best minErr b s1 h
    rw [solveLoop] at h
    cases hb : attemptBody env opt uv uc attempt s best minErr with
    | error err => rw [hb] at h; cases h
    | ok r =>
      rw [hb] at h
      simp only [bind, Except.bind, pure, Except.pure] at h
      cases r with
      | success s2 =>
        simp only [Except.ok.injEq, Prod.mk.injEq] at h
        obtain ⟨-, rfl⟩ := h
        exact attemptBody_success_flags env opt uv uc attempt s s2 best minErr hb
      | next s2 best2 minErr2 => exact ih _ _ _ _ _ _ h

end ConstrainedOptimizationIK
open ConstrainedOptimizationIK

/-- C30: on every normal return of `solve`, with true or with false, the
update-visualization flag and the update-collision-model flag of the robot have the
values they had before the call. -/
theorem ConstrainedOptimizationIK.solve_restores_flags (env : Env) (s s1 : IKState)
    (stepwise b : Bool) (h : solve env s stepwise = .ok (b, s1)) :
    s1.robot.updateVisualization = s.robot.updateVisualization ∧
    s1.robot.updateCollisionModel = s.robot.updateCollisionModel := by
  unfold solve at h
  split at h
  · cases h
  · split at h
    · cases h
    · exact solveLoop_flags env _ _ _ _ _ _ _ _ _ _ h

/-- C30, witness: the demonstration solver enters `solve` with both flags true; with
budget 4 it returns true and with budget 3 it returns false, and both flags are true
afterwards. -/
theorem ConstrainedOptimizationIK.solve_restores_flags_witness :
    (∃ s1, solve demoEnv (demoState demoConstraint 4 demoResults) false = .ok (true, s1) ∧
      s1.robot.updateVisualization = true ∧ s1.robot.updateCollisionModel = true) ∧
    (∃ s1, solve demoEnv (demoState demoConstraint 3 demoResults) false = .ok (false, s1) ∧
      s1.robot.updateVisualization = true ∧ s1.robot.updateCollisionModel = true) := by
  constructor
  · obtain ⟨s1, h⟩ := exists_ok_true (solve demoEnv (demoState demoConstraint 4 demoResults) false)
      (by decide!)
    exact ⟨s1, h, ConstrainedOptimizationIK.solve_restores_flags demoEnv _ s1 false true h⟩
  · have hsome : (solveOutcome (solve demoEnv (demoState demoConstraint 3 demoResults) false)).map
        Prod.fst = some false := by decide!
    cases hr : solve demoEnv (demoState demoConstraint 3 demoResults) false with
    | error e => rw [hr] at hsome; cases hsome
    | ok v =>
      obtain ⟨b, s1⟩ := v
      rw [hr] at hsome
      simp only [solveOutcome, Option.map_some', Option.some.injEq] at hsome
      subst hsome
      exact ⟨s1, rfl, ConstrainedOptimizationIK.solve_restores_flags demoEnv _ s1 false false hr⟩

/-- The clamp `std::max(lo, std::min(hi, v))` of a seed lies within limits that satisfy
`lo <= hi`, whatever `v` is. -/
theorem Flt.max_min_within (lo hi v : Flt) (h : Flt.le lo hi = true) :
    Flt.lt (Flt.max lo (Flt.min hi v)) lo = false ∧
    Flt.gt (Flt.max lo (Flt.min hi v)) hi = false ∧
    Flt.le lo (Flt.max lo (Flt.min hi v)) = true ∧
    Flt.le (Flt.max lo (Flt.min hi v)) hi = true := by
  cases lo <;> cases hi <;> cases v <;>
    simp_all [Flt.le, Flt.lt, Flt.gt, Flt.max, Flt.min] <;>
    (split_ifs <;> simp_all [Flt.le, Flt.lt] <;>
      (first | linarith | exact ⟨by linarith, by linarith⟩ |
        exact ⟨by linarith, by linarith, by linarith, by linarith⟩))

/-- A write of a joint value fails by the assertion only. -/
theorem ModelJoint.setJointValueNoUpdate_error (ndebug : Bool) (j : ModelJoint) (q : Flt) (e : Failure)
    (h : j.setJointValueNoUpdate ndebug q = .error e) : e = Failure.assertion := by
  unfold ModelJoint.setJointValueNoUpdate VR_ASSERT at h
  cases ndebug
  · by_cases hq : (!q.isnan && !q.isinf) = true
    · simp [hq, bind, Except.bind, pure, Except.pure] at h
    · simp only [hq, Bool.false_eq_true, if_false, bind, Except.bind] at h
      cases h
      rfl
  · simp [bind, Except.bind, pure, Except.pure] at h

/-- A write of a vector of joint values fails by the assertion only. -/
theorem setJointValues_error (ndebug : Bool) :
    ∀ (js : List ModelJoint) (vs : List Flt) (e : Failure),
      setJointValues ndebug js vs = .error e → e = Failure.assertion := by
  intro js
  induction js with
  | nil =>
    intro vs e h
    rw [setJointValues] at h
    · cases h
    · intro _ _ _ _ hc; cases hc
  | cons j js ih =>
    intro vs e h
    cases vs with
    | nil => rw [setJointValues_nil_right] at h; cases h
    | cons v vs =>
      rw [setJointValues] at h
      cases h1 : j.setJointValueNoUpdate ndebug v with
      | error e1 =>
        rw [h1] at h
        simp only [bind, Except.bind] at h
        cases h
        exact ModelJoint.setJointValueNoUpdate_error ndebug j v e h1
      | ok j1 =>
        rw [h1] at h
        simp only [bind, Except.bind] at h
        cases h2 : setJointValues ndebug js vs with
        | error e2 =>
          rw [h2] at h
          cases h
          exact ih vs e h2
        | ok js1 =>
          rw [h2] at h
          cases h

namespace ConstrainedOptimizationIK

/-- The synchronisation of the joints fails by the assertion only. -/
theorem syncJointValues_error (env : Env) (s : IKState) (x : List Flt) (e : Failure)
    (h : syncJointValues env s x = .error e) : e = Failure.assertion := by
  unfold syncJointValues at h
  split at h
  · cases hw : setJointValues env.ndebug s.robot.joints (x.map env.toFloat) with
    | error e1 =>
      rw [hw] at h
      simp only [bind, Except.bind] at h
      cases h
      exact setJointValues_error _ _ _ _ hw
    | ok joints =>
      rw [hw] at h
      cases h
  · cases h

/-- The callbacks of one run of the optimizer fail by the assertion only. -/
theorem callbacks_error (env : Env) : ∀ (xs : List (List Flt)) (s : IKState) (e : Failure),
    callbacks env s xs = .error e → e = Failure.assertion := by
  intro xs
  induction xs with
  | nil => intro s e h; cases h
  | cons x xs ih =>
    intro s e h
    unfold callbacks at h
    cases hc : callback env s x with
    | error e1 =>
      rw [hc] at h
      simp only [bind, Except.bind] at h
      cases h
      unfold callback at hc
      exact syncJointValues_error env _ x e hc
    | ok s2 =>
      rw [hc] at h
      simp only [bind, Except.bind] at h
      exact ih s2 e h

/-- The check of the hard constraints fails by the assertion only. -/
theorem hardOptimizationFunction_error (env : Env) (s : IKState) (x : List Flt) (e : Failure)
    (h : hardOptimizationFunction env s x = .error e) : e = Failure.assertion := by
  unfold hardOptimizationFunction at h
  cases hc : syncJointValues env s x with
  | error e1 =>
    rw [hc] at h
    simp only [bind, Except.bind] at h
    cases h
    exact syncJointValues_error env s x e hc
  | ok s2 =>
    rw [hc] at h
    cases h

/-- The clamped seed passes the check against the joint limits when `lower <= upper`
holds for every joint. -/
theorem outsideLimits_seedStart (seed : Nat → Flt) :
    ∀ (js : List ModelJoint) (i : Nat),
      (∀ j ∈ js, Flt.le j.jointLimitLo j.jointLimitHi = true) →
      outsideLimits js (seedStart seed js i) = false := by
  intro js
  induction js with
  | nil => intro i _; rfl
  | cons j js ih =>
    intro i h
    unfold seedStart outsideLimits
    obtain ⟨h1, h2, -, -⟩ := Flt.max_min_within j.jointLimitLo j.jointLimitHi (seed i)
      (h j (List.mem_cons_self _ _))
    rw [h1, h2]
    simp only [Bool.or_self, Bool.false_eq_true, if_false]
    exact ih (i + 1) (fun k hk => h k (List.mem_cons_of_mem _ hk))

/-- Entry `k` of the clamped seed. -/
theorem seedStart_getElem (seed : Nat → Flt) :
    ∀ (js : List ModelJoint) (i k : Nat) (hk : k < js.length),
      (seedStart seed js i)[k]? =
        some (Flt.max (js.get ⟨k, hk⟩).jointLimitLo
          (Flt.min (js.get ⟨k, hk⟩).jointLimitHi (seed (i + k)))) := by
  intro js
  induction js with
  | nil => intro i k hk; cases hk
  | cons j js ih =>
    intro i k hk
    unfold seedStart
    cases k with
    | zero => simp
    | succ k =>
      simp only [List.getElem?_cons_succ, List.length_cons] at hk ⊢
      rw [ih (i + 1) k (by omega)]
      simp only [List.get_eq_getElem, List.getElem_cons_succ]
      rw [show i + 1 + k = i + (k + 1) by omega]

/-- The start vector of a seeded attempt is built without the exception when
`lower <= upper` holds for every joint. -/
theorem startVector_seeded (env : Env) (s : IKState) (attempt : Nat)
    (hat : attempt < s.ik.seeds.length)
    (hlim : ∀ j ∈ s.robot.joints, Flt.le j.jointLimitLo j.jointLimitHi = true) :
    startVector env s attempt =
      .ok (seedStart (seedValue s.ik (s.ik.seeds.get ⟨attempt, hat⟩)) s.robot.joints 0,
        s.randCalls) := by
  unfold startVector
  rw [dif_pos hat]
  dsimp only
  rw [outsideLimits_seedStart _ _ _ hlim]
  rfl

/-- The start vector is built without the exception, seeded or random, when
`lower <= upper` holds for every joint. -/
theorem startVector_ok (env : Env) (s : IKState) (attempt : Nat)
    (hlim : ∀ j ∈ s.robot.joints, Flt.le j.jointLimitLo j.jointLimitHi = true) :
    ∃ v, startVector env s attempt = .ok v := by
  by_cases hat : attempt < s.ik.seeds.length
  · exact ⟨_, startVector_seeded env s attempt hat hlim⟩
  · unfold startVector
    rw [dif_neg hat]
    exact ⟨_, rfl⟩

/-- With `lower <= upper` for every joint, an attempt that does not reach its check has
failed an assertion. -/
theorem attemptCheck_error (env : Env) (opt : Optimizer) (attempt : Nat) (s : IKState)
    (e : Failure)
    (hlim : ∀ j ∈ s.robot.joints, Flt.le j.jointLimitLo j.jointLimitHi = true)
    (h : attemptCheck env opt attempt s = .error e) : e = Failure.assertion := by
  unfold attemptCheck at h
  obtain ⟨v, hv⟩ := startVector_ok env { s with ik := { s.ik with numIterations := 0 } } attempt hlim
  obtain ⟨x0, rc⟩ := v
  simp only [bind, Except.bind, pure, Except.pure, hv] at h
  split at h
  · rename_i e1 hcb
    cases h
    exact callbacks_error env _ _ _ hcb
  · rename_i s2 hcb
    split at h
    · rename_i e1 hw
      cases h
      exact setJointValues_error _ _ _ _ hw
    · rename_i joints hw
      split at h
      · rename_i e1 hh
        cases h
        exact hardOptimizationFunction_error env _ _ _ hh
      · cases h

/-- States with the same setup have the same joint limits. -/
theorem SameSetup.limits {s s1 : IKState} (h : SameSetup s s1)
    (hlim : ∀ j ∈ s.robot.joints, Flt.le j.jointLimitLo j.jointLimitHi = true) :
    ∀ j ∈ s1.robot.joints, Flt.le j.jointLimitLo j.jointLimitHi = true := by
  obtain ⟨-, -, -, -, -, -, -, -, hf⟩ := h
  intro j hj
  have hm : j.frame ∈ s1.robot.joints.map ModelJoint.frame := List.mem_map_of_mem _ hj
  rw [hf] at hm
  obtain ⟨j0, hj0, he⟩ := List.mem_map.1 hm
  have h0 := hlim j0 hj0
  have e1 : j.jointLimitLo = j0.jointLimitLo := by
    have := congrArg ModelJoint.jointLimitLo he
    simpa [ModelJoint.frame] using this.symm
  have e2 : j.jointLimitHi = j0.jointLimitHi := by
    have := congrArg ModelJoint.jointLimitHi he
    simpa [ModelJoint.frame] using this.symm
  rw [e1, e2]
  exact h0

/-- With `lower <= upper` for every joint, the attempt loop and the lines after it fail
by an assertion only. -/
theorem solveLoop_error (env : Env) (opt : Optimizer) (uv uc : Bool) :
    ∀ (remaining attempt : Nat) (s : IKState) (best : List Flt) (minErr : Flt) (e : Failure),
      (∀ j ∈ s.robot.joints, Flt.le j.jointLimitLo j.jointLimitHi = true) →
      solveLoop env opt uv uc remaining attempt s best minErr = .error e →
      e = Failure.assertion := by
  intro remaining
  induction remaining with
  | zero =>
    intro attempt s best minErr e _ h
    rw [solveLoop_zero] at h
    split at h
    · split at h
      · cases h
      · rename_i e1 hw
        cases h
        exact setJointValues_error _ _ _ _ hw
    · cases h
  | succ n ih =>
    intro attempt s best minErr e hlim h
    rw [solveLoop] at h
    cases hc : attemptCheck env opt attempt s with
    | error e1 =>
      rw [attemptBody_of_error env opt uv uc attempt s best minErr e1 hc] at h
      simp only [bind, Except.bind] at h
      cases h
      exact attemptCheck_error env opt attempt s e hlim hc
    | ok v =>
      obtain ⟨s2, x, b, err⟩ := v
      cases b with
      | true =>
        rw [attemptBody_of_pass env opt uv uc attempt s s2 x best err minErr hc] at h
        simp only [bind, Except.bind, pure, Except.pure] at h
        cases h
      | false =>
        rw [attemptBody_of_fail env opt uv uc attempt s s2 x best err minErr hc] at h
        simp only [bind, Except.bind] at h
        obtain ⟨hsame, -, -, -⟩ := attemptCheck_spec env opt attempt s s2 x false err hc
        exact ih _ _ _ _ _ (hsame.limits hlim) h

end ConstrainedOptimizationIK

open ConstrainedOptimizationIK

/-- C22: for an attempt whose index is below the number of seeds, entry `k` of the start
vector is `max(lower_k, min(upper_k, seed_k))`, where the seed is the initial
configuration for a seed of type `eSeedInitial`, zero for `eSeedZero` and the vector of
the caller for `eSeedOther`; the constructor puts `eSeedInitial` and `eSeedZero` into the
seed list, in this order.  Hence, whenever `lower <= upper` holds for every joint, the
start vector passes the check against the limits, and `solve` never ends with the
exception 'Initial configuration outside of joint limits'. -/
theorem ConstrainedOptimizationIK.seeded_start_within_limits (env : Env) (s : IKState)
    (attempt : Nat) (hat : attempt < s.ik.seeds.length)
    (hlim : ∀ j ∈ s.robot.joints, Flt.le j.jointLimitLo j.jointLimitHi = true) :
    startVector env s attempt =
      .ok (seedStart (seedValue s.ik (s.ik.seeds.get ⟨attempt, hat⟩)) s.robot.joints 0,
        s.randCalls) ∧
    (∀ (k : Nat) (hk : k < s.robot.joints.length),
      (seedStart (seedValue s.ik (s.ik.seeds.get ⟨attempt, hat⟩)) s.robot.joints 0)[k]? =
        some (Flt.max (s.robot.joints.get ⟨k, hk⟩).jointLimitLo
          (Flt.min (s.robot.joints.get ⟨k, hk⟩).jointLimitHi
            (seedValue s.ik (s.ik.seeds.get ⟨attempt, hat⟩) k)))) ∧
    (∀ (v : List Flt) (i : Nat),
      seedValue s.ik (SeedType.eSeedInitial, v) i = s.ik.initialConfig.getD i (Flt.fin 0) ∧
      seedValue s.ik (SeedType.eSeedZero, v) i = Flt.fin 0 ∧
      seedValue s.ik (SeedType.eSeedOther, v) i = v.getD i (Flt.fin 0)) ∧
    (∀ cs : List Constraint, ((ConstrainedOptimizationIK.new cs).seeds.map Prod.fst =
      [SeedType.eSeedInitial, SeedType.eSeedZero])) ∧
    (∀ stepwise : Bool, solve env s stepwise ≠
      .error (Failure.exception "Initial configuration outside of joint limits")) := by
  refine ⟨startVector_seeded env s attempt hat hlim, ?_, fun v i => ⟨rfl, rfl, rfl⟩,
    fun cs => rfl, ?_⟩
  · intro k hk
    have := seedStart_getElem (seedValue s.ik (s.ik.seeds.get ⟨attempt, hat⟩)) s.robot.joints 0 k hk
    rw [Nat.zero_add] at this
    exact this
  · intro stepwise h
    unfold solve at h
    split at h
    · simp at h
    · split at h
      · simp at h
      · have := solveLoop_error env _ _ _ _ _ (entryState s) _ _ _ hlim h
        cases this

/-- C22, witness: the demonstration solver, whose joint has the limits `[-10, 10]` and
whose initial configuration is the joint value 0; its first start vector is `[0]`. -/
theorem ConstrainedOptimizationIK.seeded_start_within_limits_witness :
    startVector demoEnv (demoState demoConstraint 3 demoResults) 0 = .ok ([Flt.fin 0], 0) ∧
    solve demoEnv (demoState demoConstraint 3 demoResults) false ≠
      .error (Failure.exception "Initial configuration outside of joint limits") := by
  obtain ⟨h1, -, -, -, h5⟩ := ConstrainedOptimizationIK.seeded_start_within_limits demoEnv
    (demoState demoConstraint 3 demoResults) 0 (by decide) (by decide)
  refine ⟨?_, h5 false⟩
  rw [h1]
  have hx : seedStart (seedValue (demoState demoConstraint 3 demoResults).ik
      ((demoState demoConstraint 3 demoResults).ik.seeds.get ⟨0, by decide⟩))
      (demoState demoConstraint 3 demoResults).robot.joints 0 = [Flt.fin 0] := by decide!
  rw [hx]
  rfl

open ConstrainedOptimizationIK

/-- The two comparisons of `respectJointLimits` bring a finite value into limits that
satisfy `lower <= upper`. -/
theorem ModelJoint.respectJointLimits_within (j : ModelJoint) (q : Flt)
    (hlim : Flt.le j.jointLimitLo j.jointLimitHi = true) (hq : q.isFinite = true) :
    Flt.le j.jointLimitLo (j.respectJointLimits q) = true ∧
    Flt.le (j.respectJointLimits q) j.jointLimitHi = true := by
  obtain ⟨v, o, lo, hi, a, b, c, d⟩ := j
  simp only [ModelJoint.respectJointLimits, Flt.gt] at hlim ⊢
  constructor <;>
  · cases q <;> cases lo <;> cases hi <;>
      simp_all [Flt.le, Flt.lt, Flt.isFinite, Flt.isnan, Flt.isinf] <;>
      (split_ifs <;> simp_all [Flt.le, Flt.lt])

/-- The comparison `<=` is transitive. -/
theorem Flt.le_trans (a b c : Flt) (h1 : Flt.le a b = true) (h2 : Flt.le b c = true) :
    Flt.le a c = true := by
  cases a <;> cases b <;> cases c <;> simp_all [Flt.le]
  exact h1.trans h2

/-- A sequence of calls that keeps the value within the limits: every call returns and
the stored value lies within the current limits at the end. -/
theorem ModelJoint.runOps_within (ndebug : Bool) : ∀ (ops : List JointOp) (j : ModelJoint),
    j.valueWithinLimits = true → ModelJoint.limitsKeepValue ndebug j ops = true →
    ∃ j1, ModelJoint.runOps ndebug j ops = .ok j1 ∧ j1.valueWithinLimits = true := by
  intro ops
  induction ops with
  | nil => intro j hj _; exact ⟨j, rfl, hj⟩
  | cons op ops ih =>
    intro j hj hadm
    cases op with
    | setJointValue q =>
      simp only [ModelJoint.limitsKeepValue, Bool.and_eq_true] at hadm
      obtain ⟨hq, hrest⟩ := hadm
      have hset := ModelJoint.setJointValueNoUpdate_of_valid ndebug j q
        (Or.inr (by simpa [Flt.isFinite] using hq))
      rw [hset] at hrest
      simp only [ModelJoint.valueWithinLimits, Bool.and_eq_true] at hj
      have hlim := Flt.le_trans _ _ _ hj.1 hj.2
      obtain ⟨w1, w2⟩ := ModelJoint.respectJointLimits_within j q hlim hq
      unfold ModelJoint.runOps
      simp only [ModelJoint.step, hset]
      exact ih _ (by simp only [ModelJoint.valueWithinLimits, Bool.and_eq_true]; exact ⟨w1, w2⟩) hrest
    | setJointLimits lo hi =>
      simp only [ModelJoint.limitsKeepValue, Bool.and_eq_true] at hadm
      obtain ⟨⟨h1, h2⟩, hrest⟩ := hadm
      unfold ModelJoint.runOps
      simp only [ModelJoint.step]
      exact ih _ (by
        simp only [ModelJoint.valueWithinLimits, ModelJoint.setJointLimits, Bool.and_eq_true]
        exact ⟨h1, h2⟩) hrest

/-- C27 (amended): after construction with limits `lower <= 0 <= upper` and any value
offset, and after any sequence of calls in which every `setJointValue` has a finite
argument and every `setJointLimits` is given limits that contain the value stored at that
moment, every call has returned and the stored joint value lies within the current
`[lower, upper]`.  (The constructor stores the value 0 and `setJointLimits` stores the
limits; neither compares the value with the limits.) -/
theorem ModelJoint.value_within_limits_invariant (ndebug : Bool) (lo hi offset : Flt)
    (ops : List JointOp)
    (hlo : Flt.le lo (Flt.fin 0) = true) (hhi : Flt.le (Flt.fin 0) hi = true)
    (hops : ModelJoint.limitsKeepValue ndebug (ModelJoint.new lo hi offset) ops = true) :
    ∃ j, ModelJoint.runOps ndebug (ModelJoint.new lo hi offset) ops = .ok j ∧
      j.valueWithinLimits = true ∧
      Flt.le j.jointLimitLo j.getJointValue = true ∧
      Flt.le j.getJointValue j.jointLimitHi = true := by
  obtain ⟨j, h1, h2⟩ := ModelJoint.runOps_within ndebug ops (ModelJoint.new lo hi offset)
    (by simp only [ModelJoint.valueWithinLimits, ModelJoint.new, Bool.and_eq_true]; exact ⟨hlo, hhi⟩)
    hops
  refine ⟨j, h1, h2, ?_⟩
  simpa only [ModelJoint.valueWithinLimits, Bool.and_eq_true] using h2

/-- C27, witness: a joint with limits `[0, 10]` is written with 5, gets the limits
`[2, 6]` and is written with 9; the value ends at 6. -/
theorem ModelJoint.value_within_limits_invariant_witness :
    ∃ j, ModelJoint.runOps false (ModelJoint.new (Flt.fin 0) (Flt.fin 10) (Flt.fin 0))
        [JointOp.setJointValue (Flt.fin 5), JointOp.setJointLimits (Flt.fin 2) (Flt.fin 6),
         JointOp.setJointValue (Flt.fin 9)] = .ok j ∧
      j.valueWithinLimits = true ∧
      Flt.le j.jointLimitLo j.getJointValue = true ∧
      Flt.le j.getJointValue j.jointLimitHi = true :=
  ModelJoint.value_within_limits_invariant false (Flt.fin 0) (Flt.fin 10) (Flt.fin 0)
    [JointOp.setJointValue (Flt.fin 5), JointOp.setJointLimits (Flt.fin 2) (Flt.fin 6),
     JointOp.setJointValue (Flt.fin 9)] (by decide) (by decide) (by decide!)

/-- C27, counterexample: a joint constructed with the limits `[1, 2]` holds the value 0,
and a joint with limits `[0, 10]` that is written with 5 and then given the limits
`[0, 1]` holds the value 5; all arguments are finite and in both states the value is
outside the current limits. -/
theorem ModelJoint.value_outside_limits_reachable :
    (ModelJoint.new (Flt.fin 1) (Flt.fin 2) (Flt.fin 0)).valueWithinLimits = false ∧
    (ModelJoint.new (Flt.fin 1) (Flt.fin 2) (Flt.fin 0)).getJointValue = Flt.fin 0 ∧
    ([JointOp.setJointValue (Flt.fin 5), JointOp.setJointLimits (Flt.fin 0) (Flt.fin 1)].all
      JointOp.finiteArgs = true) ∧
    (ModelJoint.runOps false (ModelJoint.new (Flt.fin 0) (Flt.fin 10) (Flt.fin 0))
        [JointOp.setJointValue (Flt.fin 5), JointOp.setJointLimits (Flt.fin 0) (Flt.fin 1)]).toOption =
      some { ModelJoint.new (Flt.fin 0) (Flt.fin 1) (Flt.fin 0) with jointValue := Flt.fin 5 } ∧
    ({ ModelJoint.new (Flt.fin 0) (Flt.fin 1) (Flt.fin 0) with
        jointValue := Flt.fin 5 }).valueWithinLimits = false := by
  refine ⟨by decide, rfl, by decide, by decide!, by decide⟩

/-- The two comparisons of the first loop of `getError` for one component. -/
theorem Flt.clamp_cases (d b0 b1 : Flt) :
    (Flt.lt d b0 = true →
      (if Flt.lt d b0 then b0 else if Flt.gt d b1 then b1 else d) = b0) ∧
    (Flt.lt d b0 = false → Flt.gt d b1 = true →
      (if Flt.lt d b0 then b0 else if Flt.gt d b1 then b1 else d) = b1) ∧
    (Flt.lt d b0 = false → Flt.gt d b1 = false →
      (if Flt.lt d b0 then b0 else if Flt.gt d b1 then b1 else d) = d) := by
  refine ⟨fun h => by rw [if_pos h], fun h1 h2 => ?_, fun h1 h2 => ?_⟩
  · rw [if_neg (by rw [h1]; decide), if_pos h2]
  · rw [if_neg (by rw [h1]; decide), if_neg (by rw [h2]; decide)]

/-- A component that is not NaN is brought into bounds that satisfy `lower <= upper`, and
is kept when it lies within them. -/
theorem Flt.clamp_within (d b0 b1 : Flt) (hb : Flt.le b0 b1 = true) (hn : d.isnan = false) :
    Flt.le b0 (if Flt.lt d b0 then b0 else if Flt.gt d b1 then b1 else d) = true ∧
    Flt.le (if Flt.lt d b0 then b0 else if Flt.gt d b1 then b1 else d) b1 = true ∧
    (Flt.le b0 d = true → Flt.le d b1 = true →
      (if Flt.lt d b0 then b0 else if Flt.gt d b1 then b1 else d) = d) := by
  cases d <;> cases b0 <;> cases b1 <;>
    simp_all [Flt.le, Flt.lt, Flt.gt, Flt.isnan] <;>
    (split_ifs <;> simp_all [Flt.le, Flt.lt])

/-- C24 (amended): in `TSRConstraint::getError`, each of the six pose components
`d_w[i]` is replaced by `bounds(i,0)` when it is below `bounds(i,0)`, by `bounds(i,1)`
when it is above `bounds(i,1)`, and is unchanged otherwise; so whenever
`bounds(i,0) <= bounds(i,1)` for all `i` and no component is NaN, every component of the
local target lies within its bounds, and the local target equals the current pose when
every component of the current pose lies within its bounds. -/
theorem TSRConstraint.localTarget_clamped (c : TSRConstraint) (d_w : Nat → Flt)
    (hb : ∀ i, i < 6 → Flt.le (c.bounds i 0) (c.bounds i 1) = true)
    (hn : ∀ i, i < 6 → (d_w i).isnan = false) :
    (c.localTarget d_w).length = 6 ∧
    (∀ i, i < 6 → ∃ t, (c.localTarget d_w)[i]? = some t ∧
      (Flt.lt (d_w i) (c.bounds i 0) = true → t = c.bounds i 0) ∧
      (Flt.lt (d_w i) (c.bounds i 0) = false → Flt.gt (d_w i) (c.bounds i 1) = true →
        t = c.bounds i 1) ∧
      (Flt.lt (d_w i) (c.bounds i 0) = false → Flt.gt (d_w i) (c.bounds i 1) = false →
        t = d_w i) ∧
      Flt.le (c.bounds i 0) t = true ∧ Flt.le t (c.bounds i 1) = true) ∧
    ((∀ i, i < 6 → Flt.le (c.bounds i 0) (d_w i) = true ∧ Flt.le (d_w i) (c.bounds i 1) = true) →
      c.localTarget d_w = (List.range 6).map d_w) := by
  refine ⟨by simp [TSRConstraint.localTarget], ?_, ?_⟩
  · intro i hi
    obtain ⟨c1, c2, c3⟩ := Flt.clamp_cases (d_w i) (c.bounds i 0) (c.bounds i 1)
    obtain ⟨w1, w2, -⟩ := Flt.clamp_within (d_w i) (c.bounds i 0) (c.bounds i 1) (hb i hi) (hn i hi)
    refine ⟨_, ?_, c1, c2, c3, w1, w2⟩
    unfold TSRConstraint.localTarget
    rw [List.getElem?_map, List.getElem?_range hi]
    rfl
  · intro hin
    unfold TSRConstraint.localTarget
    apply List.map_congr_left
    intro i hi
    have hi6 : i < 6 := List.mem_range.1 hi
    exact (Flt.clamp_within (d_w i) (c.bounds i 0) (c.bounds i 1) (hb i hi6) (hn i hi6)).2.2
      (hin i hi6).1 (hin i hi6).2

/-- C24, witness: bounds `[0, 1]` for every component and the pose components
`-1, 2, 1/2, 0, 1, 5`; the local target is `0, 1, 1/2, 0, 1, 1`. -/
theorem TSRConstraint.localTarget_clamped_witness :
    (TSRConstraint.new (translationMatrix (Flt.fin 0) (Flt.fin 0) (Flt.fin 0))
      (translationMatrix (Flt.fin 0) (Flt.fin 0) (Flt.fin 0))
      (fun _ k => if k = 0 then Flt.fin 0 else Flt.fin 1) (Flt.fin 1) (Flt.fin 1)).localTarget
      (fun i => [Flt.fin (-1), Flt.fin 2, Flt.fin (1 / 2), Flt.fin 0, Flt.fin 1, Flt.fin 5].getD i
        (Flt.fin 0)) =
      [Flt.fin 0, Flt.fin 1, Flt.fin (1 / 2), Flt.fin 0, Flt.fin 1, Flt.fin 1] ∧
    ((TSRConstraint.new (translationMatrix (Flt.fin 0) (Flt.fin 0) (Flt.fin 0))
      (translationMatrix (Flt.fin 0) (Flt.fin 0) (Flt.fin 0))
      (fun _ k => if k = 0 then Flt.fin 0 else Flt.fin 1) (Flt.fin 1) (Flt.fin 1)).localTarget
      (fun i => [Flt.fin (-1), Flt.fin 2, Flt.fin (1 / 2), Flt.fin 0, Flt.fin 1, Flt.fin 5].getD i
        (Flt.fin 0))).length = 6 := by
  have h := TSRConstraint.localTarget_clamped
    (TSRConstraint.new (translationMatrix (Flt.fin 0) (Flt.fin 0) (Flt.fin 0))
      (translationMatrix (Flt.fin 0) (Flt.fin 0) (Flt.fin 0))
      (fun _ k => if k = 0 then Flt.fin 0 else Flt.fin 1) (Flt.fin 1) (Flt.fin 1))
    (fun i => [Flt.fin (-1), Flt.fin 2, Flt.fin (1 / 2), Flt.fin 0, Flt.fin 1, Flt.fin 5].getD i
      (Flt.fin 0))
    (fun i _ => by simp [TSRConstraint.new, Flt.le])
    (by decide)
  exact ⟨by decide!, h.1⟩

/-- C24, counterexample: with bounds `[0, 1]` for every component and a pose whose
components are NaN, both comparisons are false, the local target is NaN in every
component, and NaN does not lie within `[0, 1]`. -/
theorem TSRConstraint.localTarget_nan :
    (TSRConstraint.new (translationMatrix (Flt.fin 0) (Flt.fin 0) (Flt.fin 0))
      (translationMatrix (Flt.fin 0) (Flt.fin 0) (Flt.fin 0))
      (fun _ k => if k = 0 then Flt.fin 0 else Flt.fin 1) (Flt.fin 1) (Flt.fin 1)).localTarget
      (fun _ => Flt.nan) = List.replicate 6 Flt.nan ∧
    Flt.le (Flt.fin 0) (Flt.fin 1) = true ∧
    Flt.le (Flt.fin 0) Flt.nan = false ∧ Flt.le Flt.nan (Flt.fin 1) = false := by
  refine ⟨by decide, by decide, by decide, by decide⟩

/-- C28, the failing check: the constructor stores `1.0f` and `0.1f` as the tolerances,
whatever tolerances it is given.  A constraint built with the tolerances 5 and 1 whose
end effector is 3 away from its region has an error with translational norm 3 and
rotational norm 0, within the given tolerances, and `checkTolerances()` returns false; a
constraint built with the tolerances `1/2` and 1 whose end effector is `3/4` away is
outside the given tolerances, and `checkTolerances()` returns true. -/
theorem TSRConstraint.checkTolerances_ignores_arguments :
    (∀ (T O : Matrix4f) (b : Nat → Nat → Flt) (tolerancePosition toleranceRotation : Flt),
      (TSRConstraint.new T O b tolerancePosition toleranceRotation).toleranceTranslation =
        Flt.fin 1 ∧
      (TSRConstraint.new T O b tolerancePosition toleranceRotation).toleranceRotation = f0_1) ∧
    ((originRegion (Flt.fin 5) (Flt.fin 1)).getError exactArith translationMath
        (translationMatrix (Flt.fin 3) (Flt.fin 0) (Flt.fin 0)) (Flt.fin 1) =
      [Flt.fin (-3), Flt.fin 0, Flt.fin 0, Flt.fin 0, Flt.fin 0, Flt.fin 0]) ∧
    TSRConstraint.withinGivenTolerances translationMath (Flt.fin 5) (Flt.fin 1)
      [Flt.fin (-3), Flt.fin 0, Flt.fin 0, Flt.fin 0, Flt.fin 0, Flt.fin 0] = true ∧
    (originRegion (Flt.fin 5) (Flt.fin 1)).checkTolerances exactArith translationMath
      (translationMatrix (Flt.fin 3) (Flt.fin 0) (Flt.fin 0)) = false ∧
    TSRConstraint.withinGivenTolerances translationMath (Flt.fin (1 / 2)) (Flt.fin 1)
      ((originRegion (Flt.fin (1 / 2)) (Flt.fin 1)).getError exactArith translationMath
        (translationMatrix (Flt.fin (3 / 4)) (Flt.fin 0) (Flt.fin 0)) (Flt.fin 1)) = false ∧
    (originRegion (Flt.fin (1 / 2)) (Flt.fin 1)).checkTolerances exactArith translationMath
      (translationMatrix (Flt.fin (3 / 4)) (Flt.fin 0) (Flt.fin 0)) = true := by
  refine ⟨fun _ _ _ _ _ => ⟨rfl, rfl⟩, by decide!, by decide!, by decide!, by decide!, by decide!⟩

/-- What `checkTolerances()` compares: the norms of the two parts of the error with the
stored tolerances `1.0f` and `0.1f`. -/
theorem TSRConstraint.checkTolerances_eq (a : Arith) (m : PoseMath) (T O : Matrix4f)
    (b : Nat → Nat → Flt) (tolerancePosition toleranceRotation : Flt) (eef_global : Matrix4f) :
    (TSRConstraint.new T O b tolerancePosition toleranceRotation).checkTolerances a m eef_global =
      TSRConstraint.withinGivenTolerances m (Flt.fin 1) f0_1
        ((TSRConstraint.new T O b tolerancePosition toleranceRotation).getError a m eef_global
          (Flt.fin 1)) := rfl

namespace MTPlanningScenery

/-- The body of the loop of `checkPlanningThreads` leaves a settled problem as it is. -/
theorem checkPlanningThread_of_settled (env : MTEnv) (s : MTPlanningScenery) (i : Nat)
    (h : s.Settled i) : checkPlanningThread env s i = .ok s := by
  obtain ⟨t, ht, hc⟩ := h
  unfold checkPlanningThread
  rw [ht]
  dsimp only
  rcases hc with hr | ⟨path, hp⟩ | ⟨hn, p, hp, hs⟩
  · rw [hr]; rfl
  · rw [hp]
    split <;> rfl
  · rw [hn, hp]
    dsimp only
    rw [hs]
    split <;> rfl

/-- What the body of the loop of `checkPlanningThreads` changes: nothing, or the unset
solution of problem `i` and the layer of the viewer. -/
theorem checkPlanningThread_spec (env : MTEnv) (s s1 : MTPlanningScenery) (i : Nat)
    (h : checkPlanningThread env s i = .ok s1) :
    s1.planningThreads = s.planningThreads ∧ s1.planners = s.planners ∧
    s1.plannersStarted = s.plannersStarted ∧
    (s1.solutions = s.solutions ∨
      (s.solutions[i]? = some none ∧ ∃ sol, s1.solutions = s.solutions.set i (some sol))) ∧
    s1.Settled i := by
  unfold checkPlanningThread at h
  cases ht : s.planningThreads[i]? with
  | none => rw [ht] at h; cases h
  | some t =>
    rw [ht] at h
    dsimp only at h
    cases hr : t.isRunning with
    | true =>
      rw [hr] at h
      cases h
      exact ⟨rfl, rfl, rfl, Or.inl rfl, t, ht, Or.inl hr⟩
    | false =>
      rw [hr] at h
      simp only [Bool.not_false, if_true] at h
      cases hs : s.solutions[i]? with
      | none => rw [hs] at h; cases h
      | some o =>
        rw [hs] at h
        cases o with
        | some path =>
          cases h
          exact ⟨rfl, rfl, rfl, Or.inl rfl, t, ht, Or.inr (Or.inl ⟨path, hs⟩)⟩
        | none =>
          dsimp only at h
          cases hp : s.planners[i]? with
          | none => rw [hp] at h; cases h
          | some p =>
            rw [hp] at h
            dsimp only at h
            cases hg : p.getSolution with
            | none =>
              rw [hg] at h
              cases h
              exact ⟨rfl, rfl, rfl, Or.inl rfl, t, ht, Or.inr (Or.inr ⟨hs, p, hp, hg⟩)⟩
            | some sol =>
              rw [hg] at h
              dsimp only at h
              have hlen : i < s.solutions.length := by
                by_contra hcon
                rw [List.getElem?_eq_none (by omega)] at hs
                cases hs
              have hset : (s.solutions.set i (some sol))[i]? = some (some sol) := by
                rw [List.getElem?_set_self hlen]
              split at h
              · split at h <;>
                · cases h
                  exact ⟨rfl, rfl, rfl, Or.inr ⟨rfl, sol, rfl⟩, t, ht,
                    Or.inr (Or.inl ⟨sol, hset⟩)⟩
              · cases h

/-- The body of the loop of `checkPlanningThreads` for one problem keeps another problem
settled. -/
theorem checkPlanningThread_settled (env : MTEnv) (s s1 : MTPlanningScenery) (i j : Nat)
    (h : checkPlanningThread env s j = .ok s1) (hi : s.Settled i) : s1.Settled i := by
  obtain ⟨h1, h2, -, h4, h5⟩ := checkPlanningThread_spec env s s1 j h
  by_cases hij : i = j
  · rw [hij]; exact h5
  · obtain ⟨t, ht, hc⟩ := hi
    refine ⟨t, by rw [h1]; exact ht, ?_⟩
    have hsol : s1.solutions[i]? = s.solutions[i]? := by
      rcases h4 with h4 | ⟨-, sol, h4⟩
      · rw [h4]
      · rw [h4, List.getElem?_set_ne (fun hc => hij hc.symm)]
    rw [hsol, h2]
    exact hc

/-- The body of the loop of `checkPlanningThreads` keeps every stored solution. -/
theorem checkPlanningThread_keeps (env : MTEnv) (s s1 : MTPlanningScenery) (i j : Nat)
    (path : CSpacePath) (h : checkPlanningThread env s j = .ok s1)
    (hi : s.solutions[i]? = some (some path)) : s1.solutions[i]? = some (some path) := by
  obtain ⟨-, -, -, h4, -⟩ := checkPlanningThread_spec env s s1 j h
  rcases h4 with h4 | ⟨hn, sol, h4⟩
  · rw [h4]; exact hi
  · by_cases hij : i = j
    · rw [hij] at hi
      rw [hi] at hn
      cases hn
    · rw [h4, List.getElem?_set_ne (fun hc => hij hc.symm)]
      exact hi

/-- The loop of `checkPlanningThreads` over the indices `is`: the threads, the planners
and the flag are kept, settled problems stay settled, stored solutions are kept, and
every problem of `is` is settled afterwards. -/
theorem forLoop_checkPlanningThread (env : MTEnv) :
    ∀ (is : List Nat) (s s1 : MTPlanningScenery),
      forLoop (checkPlanningThread env) is s = .ok s1 →
      s1.planningThreads = s.planningThreads ∧ s1.plannersStarted = s.plannersStarted ∧
      (∀ i, s.Settled i → s1.Settled i) ∧
      (∀ (i : Nat) (path : CSpacePath),
        s.solutions[i]? = some (some path) → s1.solutions[i]? = some (some path)) ∧
      (∀ i ∈ is, s1.Settled i) := by
  intro is
  induction is with
  | nil =>
    intro s s1 h
    cases h
    exact ⟨rfl, rfl, fun _ h => h, fun _ _ h => h, fun _ hi => by cases hi⟩
  | cons j is ih =>
    intro s s1 h
    unfold forLoop at h
    cases hb : checkPlanningThread env s j with
    | error e => rw [hb] at h; cases h
    | ok s2 =>
      rw [hb] at h
      obtain ⟨a1, a2, a3, a4, a5⟩ := ih s2 s1 h
      obtain ⟨b1, -, b3, -, b5⟩ := checkPlanningThread_spec env s s2 j hb
      refine ⟨a1.trans b1, a2.trans b3,
        fun i hi => a3 i (checkPlanningThread_settled env s s2 i j hb hi),
        fun i path hi => a4 i path (checkPlanningThread_keeps env s s2 i j path hb hi), ?_⟩
      intro i hi
      rcases List.mem_cons.1 hi with hij | hmem
      · rw [hij]; exact a3 j b5
      · exact a5 i hmem

/-- The loop of `checkPlanningThreads` over settled problems changes nothing. -/
theorem forLoop_of_settled (env : MTEnv) (s : MTPlanningScenery) :
    ∀ is : List Nat, (∀ i ∈ is, s.Settled i) →
      forLoop (checkPlanningThread env) is s = .ok s := by
  intro is
  induction is with
  | nil => intro _; rfl
  | cons j is ih =>
    intro h
    unfold forLoop
    rw [checkPlanningThread_of_settled env s j (h j (List.mem_cons_self _ _))]
    exact ih (fun i hi => h i (List.mem_cons_of_mem _ hi))

/-- In a build with the Coin visualization the loop of `checkPlanningThreads` returns when
the vectors of the solutions and of the planners are as long as that of the threads. -/
theorem forLoop_checkPlanningThread_total (env : MTEnv) (hcoin : env.coin = true) :
    ∀ (is : List Nat) (s : MTPlanningScenery),
      s.solutions.length = s.planningThreads.length →
      s.planners.length = s.planningThreads.length →
      (∀ i ∈ is, i < s.planningThreads.length) →
      ∃ s1, forLoop (checkPlanningThread env) is s = .ok s1 := by
  intro is
  induction is with
  | nil => intro s _ _ _; exact ⟨s, rfl⟩
  | cons j is ih =>
    intro s h1 h2 hr
    have hj := hr j (List.mem_cons_self _ _)
    have hstep : ∃ s2, checkPlanningThread env s j = .ok s2 := by
      unfold checkPlanningThread
      rw [List.getElem?_eq_getElem hj]
      dsimp only
      split
      · rw [List.getElem?_eq_getElem (by omega : j < s.solutions.length)]
        cases s.solutions[j] with
        | some path => exact ⟨_, rfl⟩
        | none =>
          dsimp only
          rw [List.getElem?_eq_getElem (by omega : j < s.planners.length)]
          dsimp only
          cases (s.planners[j]).getSolution with
          | none => exact ⟨_, rfl⟩
          | some sol =>
            simp only [hcoin, if_true]
            split <;> exact ⟨_, rfl⟩
      · exact ⟨_, rfl⟩
    obtain ⟨s2, hs2⟩ := hstep
    obtain ⟨b1, b2, -, b4, -⟩ := checkPlanningThread_spec env s s2 j hs2
    have hlen : s2.solutions.length = s.solutions.length := by
      rcases b4 with b4 | ⟨-, sol, b4⟩
      · rw [b4]
      · rw [b4, List.length_set]
    obtain ⟨s1, hs1⟩ := ih s2 (by rw [hlen, b1]; exact h1) (by rw [b2, b1]; exact h2)
      (fun i hi => by rw [b1]; exact hr i (List.mem_cons_of_mem _ hi))
    refine ⟨s1, ?_⟩
    unfold forLoop
    rw [hs2]
    exact hs1

/-- A solution that the body of the loop of `checkPlanningThreads` stores belongs to a
problem whose solution was unset and whose thread does not run, and is the solution of
its planner. -/
theorem checkPlanningThread_change (env : MTEnv) (s s1 : MTPlanningScenery) (i j : Nat)
    (h : checkPlanningThread env s j = .ok s1) :
    s1.solutions[i]? = s.solutions[i]? ∨
      (s.solutions[i]? = some none ∧ (∃ t, s.planningThreads[i]? = some t ∧ t.isRunning = false) ∧
        ∃ p sol, s.planners[i]? = some p ∧ p.getSolution = some sol ∧
          s1.solutions[i]? = some (some sol)) := by
  obtain ⟨-, -, -, h4, -⟩ := checkPlanningThread_spec env s s1 j h
  rcases h4 with h4 | ⟨hn, sol0, h4⟩
  · left; rw [h4]
  · by_cases hij : i = j
    · subst hij
      right
      refine ⟨hn, ?_⟩
      unfold checkPlanningThread at h
      cases ht : s.planningThreads[i]? with
      | none => rw [ht] at h; cases h
      | some t =>
        rw [ht] at h
        dsimp only at h
        cases hr : t.isRunning with
        | true =>
          rw [hr] at h
          cases h
          have hlen : i < s.solutions.length := by
            by_contra hcon
            rw [List.getElem?_eq_none (by omega)] at hn
            cases hn
          have := congrArg (fun l => l[i]?) h4
          simp only [List.getElem?_set_self hlen, hn] at this
          cases this
        | false =>
          rw [hr] at h
          simp only [Bool.not_false, if_true, hn] at h
          cases hp : s.planners[i]? with
          | none => rw [hp] at h; cases h
          | some p =>
            rw [hp] at h
            dsimp only at h
            cases hg : p.getSolution with
            | none =>
              rw [hg] at h
              cases h
              have hlen : i < s.solutions.length := by
                by_contra hcon
                rw [List.getElem?_eq_none (by omega)] at hn
                cases hn
              have := congrArg (fun l => l[i]?) h4
              simp only [List.getElem?_set_self hlen, hn] at this
              cases this
            | some sol =>
              rw [hg] at h
              dsimp only at h
              have hlen : i < s.solutions.length := by
                by_contra hcon
                rw [List.getElem?_eq_none (by omega)] at hn
                cases hn
              refine ⟨⟨t, rfl, hr⟩, p, sol, rfl, hg, ?_⟩
              split at h
              · split at h <;>
                · cases h
                  exact List.getElem?_set_self hlen
              · cases h
    · left
      rw [h4, List.getElem?_set_ne (fun hc => hij hc.symm)]

/-- A solution that the loop of `checkPlanningThreads` stores belongs to a problem whose
solution was unset and whose thread does not run, and is the solution of its planner. -/
theorem forLoop_change (env : MTEnv) :
    ∀ (is : List Nat) (s s1 : MTPlanningScenery) (i : Nat),
      forLoop (checkPlanningThread env) is s = .ok s1 →
      s1.solutions[i]? = s.solutions[i]? ∨
        (s.solutions[i]? = some none ∧
          (∃ t, s.planningThreads[i]? = some t ∧ t.isRunning = false) ∧
          ∃ p sol, s.planners[i]? = some p ∧ p.getSolution = some sol ∧
            s1.solutions[i]? = some (some sol)) := by
  intro is
  induction is with
  | nil => intro s s1 i h; cases h; exact Or.inl rfl
  | cons j is ih =>
    intro s s1 i h
    unfold forLoop at h
    cases hb : checkPlanningThread env s j with
    | error e => rw [hb] at h; cases h
    | ok s2 =>
      rw [hb] at h
      obtain ⟨b1, b2, -, -, -⟩ := checkPlanningThread_spec env s s2 j hb
      obtain ⟨-, -, -, a4, -⟩ := forLoop_checkPlanningThread env is s2 s1 h
      rcases checkPlanningThread_change env s s2 i j hb with c | ⟨c1, c2, p, sol, c3, c4, c5⟩
      · rcases ih s2 s1 i h with d | ⟨d1, d2, p, sol, d3, d4, d5⟩
        · exact Or.inl (d.trans c)
        · right
          rw [c] at d1
          rw [b1] at d2
          rw [b2] at d3
          exact ⟨d1, d2, p, sol, d3, d4, d5⟩
      · right
        exact ⟨c1, c2, p, sol, c3, c4, a4 i sol c5⟩

end MTPlanningScenery
/-- C25: `checkPlanningThreads` stores a solution for problem `i` only when
`solutions[i]` is unset and the thread of the problem does not run, and then it is the
solution of the planner of the problem; every solution that is stored stays as it is; and
a second call, with the threads and planners as they were, leaves the scenery as the first
call left it.  In a build with the Coin visualization the call returns whenever the
vectors of the solutions and of the planners are as long as that of the threads. -/
theorem MTPlanningScenery.checkPlanningThreads_idempotent (env : MTEnv)
    (s s1 : MTPlanningScenery) (h : s.checkPlanningThreads env = .ok s1) :
    s1.checkPlanningThreads env = .ok s1 ∧
    s1.planningThreads = s.planningThreads ∧
    (∀ (i : Nat) (path : CSpacePath),
      s.solutions[i]? = some (some path) → s1.solutions[i]? = some (some path)) ∧
    (∀ i : Nat, s1.solutions[i]? = s.solutions[i]? ∨
      (s.solutions[i]? = some none ∧
        (∃ t, s.planningThreads[i]? = some t ∧ t.isRunning = false) ∧
        ∃ p sol, s.planners[i]? = some p ∧ p.getSolution = some sol ∧
          s1.solutions[i]? = some (some sol))) ∧
    (env.coin = true → ∀ s0 : MTPlanningScenery,
      s0.solutions.length = s0.planningThreads.length →
      s0.planners.length = s0.planningThreads.length →
      ∃ s2, s0.checkPlanningThreads env = .ok s2) := by
  have htotal : env.coin = true → ∀ s0 : MTPlanningScenery,
      s0.solutions.length = s0.planningThreads.length →
      s0.planners.length = s0.planningThreads.length →
      ∃ s2, s0.checkPlanningThreads env = .ok s2 := by
    intro hcoin s0 h1 h2
    unfold MTPlanningScenery.checkPlanningThreads
    split
    · exact ⟨s0, rfl⟩
    · exact MTPlanningScenery.forLoop_checkPlanningThread_total env hcoin _ s0 h1 h2
        (fun i hi => List.mem_range.1 hi)
  unfold MTPlanningScenery.checkPlanningThreads at h ⊢
  by_cases hp : s.plannersStarted = true
  · simp only [hp, Bool.not_true, Bool.false_eq_true, if_false] at h
    obtain ⟨a1, a2, -, a4, a5⟩ :=
      MTPlanningScenery.forLoop_checkPlanningThread env _ s s1 h
    refine ⟨?_, a1, a4, fun i => MTPlanningScenery.forLoop_change env _ s s1 i h, htotal⟩
    rw [a2, hp]
    simp only [Bool.not_true, Bool.false_eq_true, if_false]
    apply MTPlanningScenery.forLoop_of_settled
    intro i hi
    rw [a1] at hi
    exact a5 i hi
  · simp only [hp, Bool.not_false, if_true] at h
    cases h
    refine ⟨?_, rfl, fun _ _ hs => hs, fun _ => Or.inl rfl, htotal⟩
    simp only [hp, Bool.not_false, if_true]

/-- C25, witness: two problems are built and started, and the first planner ends with the
path `[1, 2, 3]` while the second thread runs.  The first call stores the path for
problem 0; the second call changes nothing. -/
theorem MTPlanningScenery.checkPlanningThreads_idempotent_witness :
    ∃ s1, (((((MTPlanningScenery.new.buildPlanningThread true { getSolution := none }
        ).buildPlanningThread true { getSolution := none }).startPlanning).plannerFinished 0
        (some [1, 2, 3])).checkPlanningThreads { coin := true, getVisualization := fun _ => true }
        = .ok s1) ∧
      s1.solutions = [some [1, 2, 3], none] ∧
      s1.checkPlanningThreads { coin := true, getVisualization := fun _ => true } = .ok s1 := by
  have h : (((((MTPlanningScenery.new.buildPlanningThread true { getSolution := none }
        ).buildPlanningThread true { getSolution := none }).startPlanning).plannerFinished 0
        (some [1, 2, 3])).checkPlanningThreads { coin := true, getVisualization := fun _ => true }
        = .ok
          { environmentUnited := true, plannersStarted := true, optimizeStarted := false,
            robots := 2, CSpaces := 2,
            planners := [{ getSolution := some [1, 2, 3] }, { getSolution := none }],
            planningThreads := [{ isRunning := false }, { isRunning := true }],
            solutions := [some [1, 2, 3], none], optiSolutions := [none, none],
            optimizeThreads := [none, none], solutionLayer := [("solution-orig-", 0)] }) := rfl
  exact ⟨_, h, rfl, (MTPlanningScenery.checkPlanningThreads_idempotent
    { coin := true, getVisualization := fun _ => true } _ _ h).1⟩

/-- C29, the failing calls: one problem is built, planning is started, the planner ends
without a solution, `checkPlanningThreads` is called and then `startOptimizing`.  This
sets `optimizeStarted` although the only entry of `optimizeThreads` holds no thread, and
both `checkOptimizeThreads` and `stopOptimizing` then call through the empty pointer.
The same happens at index 1 when a first problem has a solution and a second has none. -/
theorem MTPlanningScenery.optimizeThreads_missing_worker :
    ((((MTPlanningScenery.new.buildPlanningThread true { getSolution := none }).startPlanning
        ).plannerFinished 0 none).checkPlanningThreads
        { coin := true, getVisualization := fun _ => true } =
      .ok { environmentUnited := true, plannersStarted := true, optimizeStarted := false,
            robots := 1, CSpaces := 1, planners := [{ getSolution := none }],
            planningThreads := [{ isRunning := false }], solutions := [none],
            optiSolutions := [none], optimizeThreads := [none], solutionLayer := [] }) ∧
    (({ environmentUnited := true, plannersStarted := true, optimizeStarted := false,
        robots := 1, CSpaces := 1, planners := [{ getSolution := none }],
        planningThreads := [{ isRunning := false }], solutions := [none],
        optiSolutions := [none], optimizeThreads := [none], solutionLayer := [] } :
        MTPlanningScenery).startOptimizing =
      .ok { environmentUnited := true, plannersStarted := true, optimizeStarted := true,
            robots := 1, CSpaces := 1, planners := [{ getSolution := none }],
            planningThreads := [{ isRunning := false }], solutions := [none],
            optiSolutions := [none], optimizeThreads := [none], solutionLayer := [] }) ∧
    (({ environmentUnited := true, plannersStarted := true, optimizeStarted := true,
        robots := 1, CSpaces := 1, planners := [{ getSolution := none }],
        planningThreads := [{ isRunning := false }], solutions := [none],
        optiSolutions := [none], optimizeThreads := [none], solutionLayer := [] } :
        MTPlanningScenery).checkOptimizeThreads
        { coin := true, getVisualization := fun _ => true } =
      .error (MTFault.nullDereference "optimizeThreads[i]")) ∧
    (({ environmentUnited := true, plannersStarted := true, optimizeStarted := true,
        robots := 1, CSpaces := 1, planners := [{ getSolution := none }],
        planningThreads := [{ isRunning := false }], solutions := [none],
        optiSolutions := [none], optimizeThreads := [none], solutionLayer := [] } :
        MTPlanningScenery).stopOptimizing =
      .error (MTFault.nullDereference "optimizeThreads[i]")) ∧
    (((((((MTPlanningScenery.new.buildPlanningThread true { getSolution := none }
        ).buildPlanningThread true { getSolution := none }).startPlanning).plannerFinished 0
        (some [1, 2, 3])).plannerFinished 1 none).checkPlanningThreads
        { coin := true, getVisualization := fun _ => true }).toOption.map
        (fun s => (s.startOptimizing.toOption.map (fun s1 =>
          (s1.optimizeStarted, s1.optimizeThreads.map Option.isSome,
            (s1.checkOptimizeThreads { coin := true, getVisualization := fun _ => true }).toOption.isSome,
            s1.stopOptimizing.toOption.isSome)))) =
      some (some (true, [true, false], false, false))) := by
  refine ⟨rfl, rfl, rfl, rfl, by decide⟩

/-- A write to a joint without coupling entries changes this joint only. -/
theorem Model.setJointValue_leaf (ndebug : Bool) (a : Arith) (fuel : Nat) (m : Model)
    (name : String) (e : ModelJoint) (v : Flt) (he : m name = some (ModelNode.joint e))
    (hleaf : e.propagatedJointValues = [])
    (hv : ndebug = true ∨ (!v.isnan && !v.isinf) = true) :
    Model.setJointValue ndebug a (fuel + 1) m name v =
      some (.ok (m.setNode name
        (ModelNode.joint { e with jointValue := e.respectJointLimits v }))) := by
  have hset : e.setJointValueNoUpdate ndebug v =
      .ok { e with jointValue := e.respectJointLimits v } :=
    ModelJoint.setJointValueNoUpdate_of_valid ndebug e v hv
  unfold Model.setJointValue updatePose
  rw [he]
  dsimp only
  rw [hset]
  dsimp only
  rw [hleaf]
  rfl

/-- The loop of `updatePoseInternally` of the joint `name` over entries with different
keys that name joints without coupling entries, or no joints: it returns, the joint
`name` and every node that no entry names are left as they are, and every joint that an
entry names holds the product of the value of `name` and the factor, clamped to its
limits. -/
theorem propagateLoop_leaves (ndebug : Bool) (a : Arith) (fuel : Nat) (name : String)
    (j : ModelJoint) :
    ∀ (entries : List (String × Flt)) (m : Model),
      m name = some (ModelNode.joint j) →
      (entries.map Prod.fst).Nodup →
      (∀ en ∈ entries, ∀ e, m en.1 = some (ModelNode.joint e) →
        en.1 ≠ name ∧ e.propagatedJointValues = [] ∧
        (ndebug = true ∨
          (!(a.mul j.jointValue en.2).isnan && !(a.mul j.jointValue en.2).isinf) = true)) →
      ∃ m1, propagateLoop a (Model.setJointValue ndebug a (fuel + 1)) name entries m =
          some (.ok m1) ∧
        m1 name = m name ∧
        (∀ k, k ∉ entries.map Prod.fst → m1 k = m k) ∧
        (∀ en ∈ entries, ∀ e, m en.1 = some (ModelNode.joint e) →
          m1 en.1 = some (ModelNode.joint
            { e with jointValue := e.respectJointLimits (a.mul j.jointValue en.2) })) ∧
        (∀ en ∈ entries, (∀ e, m en.1 ≠ some (ModelNode.joint e)) → m1 en.1 = m en.1) := by
  intro entries
  induction entries with
  | nil =>
    intro m _ _ _
    refine ⟨m, rfl, rfl, fun _ _ => rfl, ?_, ?_⟩
    · intro en hen
      cases hen
    · intro en hen
      cases hen
  | cons en entries ih =>
    intro m hj hnd hleaf
    obtain ⟨dn, f⟩ := en
    simp only [List.map_cons, List.nodup_cons] at hnd
    obtain ⟨hdn, hnd⟩ := hnd
    unfold propagateLoop
    cases hd : m dn with
    | none =>
      dsimp only
      obtain ⟨m1, h1, h2, h3, h4, h5⟩ := ih m hj hnd
        (fun en hen e he => hleaf en (List.mem_cons_of_mem _ hen) e he)
      refine ⟨m1, h1, h2, ?_, ?_, ?_⟩
      · intro k hk
        exact h3 k (fun hc => hk (List.mem_cons_of_mem _ hc))
      · intro en hen e he
        rcases List.mem_cons.1 hen with heq | hmem
        · rw [heq] at he
          rw [hd] at he
          cases he
        · exact h4 en hmem e he
      · intro en hen hno
        rcases List.mem_cons.1 hen with heq | hmem
        · rw [heq]
          exact h3 dn hdn
        · exact h5 en hmem hno
    | some node =>
      cases node with
      | other =>
        dsimp only
        obtain ⟨m1, h1, h2, h3, h4, h5⟩ := ih m hj hnd
          (fun en hen e he => hleaf en (List.mem_cons_of_mem _ hen) e he)
        refine ⟨m1, h1, h2, ?_, ?_, ?_⟩
        · intro k hk
          exact h3 k (fun hc => hk (List.mem_cons_of_mem _ hc))
        · intro en hen e he
          rcases List.mem_cons.1 hen with heq | hmem
          · rw [heq] at he
            rw [hd] at he
            cases he
          · exact h4 en hmem e he
        · intro en hen hno
          rcases List.mem_cons.1 hen with heq | hmem
          · rw [heq]
            exact h3 dn hdn
          · exact h5 en hmem hno
      | joint e =>
        dsimp only
        rw [hj]
        dsimp only
        obtain ⟨hne, hl, hv⟩ := hleaf (dn, f) (List.mem_cons_self _ _) e hd
        rw [Model.setJointValue_leaf ndebug a fuel m dn e _ hd hl hv]
        dsimp only
        obtain ⟨m2, hm2⟩ : ∃ m2 : Model, m2 = m.setNode dn (ModelNode.joint
            { e with jointValue := e.respectJointLimits (a.mul j.jointValue f) }) := ⟨_, rfl⟩
        rw [← hm2]
        have hother : ∀ k, k ≠ dn → m2 k = m k := by
          intro k hk
          rw [hm2]
          unfold Model.setNode
          rw [if_neg hk]
        have hself : m2 dn = some (ModelNode.joint
              { e with jointValue := e.respectJointLimits (a.mul j.jointValue f) }) := by
          rw [hm2]
          unfold Model.setNode
          rw [if_pos rfl]
        have hmem_ne : ∀ en ∈ entries, en.1 ≠ dn := by
          intro en hen hc
          exact hdn (by rw [← hc]; exact List.mem_map_of_mem _ hen)
        have hname : m2 name = some (ModelNode.joint j) := by
          rw [hother name (fun hc => hne hc.symm)]; exact hj
        obtain ⟨m1, h1, h2, h3, h4, h5⟩ := ih m2 hname hnd (fun en hen e1 he1 => by
            rw [hother en.1 (hmem_ne en hen)] at he1
            exact hleaf en (List.mem_cons_of_mem _ hen) e1 he1)
        refine ⟨m1, h1, ?_, ?_, ?_, ?_⟩
        · rw [h2]; exact hname
        · intro k hk
          have hk1 : k ≠ dn := fun hc => hk (by rw [hc]; exact List.mem_cons_self _ _)
          rw [h3 k (fun hc => hk (List.mem_cons_of_mem _ hc)), hother k hk1]
        · intro en hen e1 he1
          rcases List.mem_cons.1 hen with heq | hmem
          · rw [heq] at he1 ⊢
            rw [hd] at he1
            cases he1
            rw [h3 dn hdn, hself]
          · exact h4 en hmem e1 (by rw [hother en.1 (hmem_ne en hmem)]; exact he1)
        · intro en hen hno
          rcases List.mem_cons.1 hen with heq | hmem
          · rw [heq] at hno
            exact absurd hd (hno e)
          · rw [h5 en hmem (fun e1 he1 => hno e1 (by
              rw [hother en.1 (hmem_ne en hmem)] at he1; exact he1)),
              hother en.1 (hmem_ne en hmem)]

/-- A write to a joint whose coupling entries name joints without coupling entries, or no
joints: the call returns with the depth 2, the joint holds the clamped value, every joint
that an entry names holds the clamped product, and every other node is left as it is. -/
theorem Model.setJointValue_one_level (ndebug : Bool) (a : Arith) (fuel : Nat) (m : Model)
    (J : String) (j : ModelJoint) (q : Flt)
    (hJ : m J = some (ModelNode.joint j))
    (hnd : (j.propagatedJointValues.map Prod.fst).Nodup)
    (hleaf : ∀ en ∈ j.propagatedJointValues, ∀ e, m en.1 = some (ModelNode.joint e) →
      en.1 ≠ J ∧ e.propagatedJointValues = [])
    (hq : ndebug = true ∨ (!q.isnan && !q.isinf) = true)
    (hprod : ∀ en ∈ j.propagatedJointValues, ndebug = true ∨
      (!(a.mul (j.respectJointLimits q) en.2).isnan &&
        !(a.mul (j.respectJointLimits q) en.2).isinf) = true) :
    ∃ m1, Model.setJointValue ndebug a (fuel + 2) m J q = some (.ok m1) ∧
      m1 J = some (ModelNode.joint { j with jointValue := j.respectJointLimits q }) ∧
      (∀ k, k ≠ J → k ∉ j.propagatedJointValues.map Prod.fst → m1 k = m k) ∧
      (∀ en ∈ j.propagatedJointValues, ∀ e, m en.1 = some (ModelNode.joint e) →
        m1 en.1 = some (ModelNode.joint
          { e with jointValue :=
              e.respectJointLimits (a.mul (j.respectJointLimits q) en.2) })) := by
  have hset : j.setJointValueNoUpdate ndebug q =
      .ok { j with jointValue := j.respectJointLimits q } :=
    ModelJoint.setJointValueNoUpdate_of_valid ndebug j q hq
  obtain ⟨m2, hm2⟩ : ∃ m2 : Model, m2 = m.setNode J
      (ModelNode.joint { j with jointValue := j.respectJointLimits q }) := ⟨_, rfl⟩
  have hother : ∀ k, k ≠ J → m2 k = m k := by
    intro k hk
    rw [hm2]
    unfold Model.setNode
    rw [if_neg hk]
  have hself : m2 J = some (ModelNode.joint { j with jointValue := j.respectJointLimits q }) := by
    rw [hm2]
    unfold Model.setNode
    rw [if_pos rfl]
  obtain ⟨m1, h1, h2, h3, h4, -⟩ := propagateLoop_leaves ndebug a fuel J
    { j with jointValue := j.respectJointLimits q } j.propagatedJointValues m2 hself hnd
    (fun en hen e he => by
      have hne : en.1 ≠ J := by
        intro hc
        rw [hc, hself] at he
        cases he
        have := (hleaf en hen j (by rw [hc]; exact hJ)).1
        exact this hc
      rw [hother en.1 hne] at he
      exact ⟨hne, (hleaf en hen e he).2, hprod en hen⟩)
  refine ⟨m1, ?_, by rw [h2, hself], ?_, ?_⟩
  · unfold Model.setJointValue updatePose
    rw [hJ]
    dsimp only
    rw [hset]
    dsimp only
    rw [← hm2]
    exact h1
  · intro k hk hk2
    rw [h3 k hk2, hother k hk]
  · intro en hen e he
    have hne : en.1 ≠ J := (hleaf en hen e he).1
    exact h4 en hen e (by rw [hother en.1 hne]; exact he)

/-- The entries that `erase` leaves have different keys when the entries had. -/
theorem couplingErase_nodup (name : String) (entries : List (String × Flt))
    (h : (entries.map Prod.fst).Nodup) : ((couplingErase name entries).map Prod.fst).Nodup := by
  unfold couplingErase
  exact h.sublist ((List.filter_sublist entries).map Prod.fst)

/-- The key that was erased is no key any more. -/
theorem couplingErase_not_mem (name : String) (entries : List (String × Flt)) :
    name ∉ (couplingErase name entries).map Prod.fst := by
  unfold couplingErase
  intro h
  obtain ⟨en, hen, he⟩ := List.mem_map.1 h
  have := (List.mem_filter.1 hen).2
  simp only [decide_eq_true_eq] at this
  exact this he

/-- C26 (amended): when joint `J` holds a coupling entry `(D, f)`, `D` names a joint of the
same model and every joint that an entry of `J` names holds no coupling entries of its
own, `setJointValue(q)` on `J`, for a `q` and products that pass the validity assertion,
returns and leaves `J` at `clamp_J(q)` and `D` at `clamp_D(f * clamp_J(q))`: the factor
times the stored value of `J`, clamped to the limits of `D`.  `propagateJointValue(D, 0)`
removes the entry, after which a write to `J` leaves `D` as it is. -/
theorem Model.setJointValue_propagates (ndebug : Bool) (a : Arith) (m : Model)
    (J D : String) (j d : ModelJoint) (f q : Flt)
    (hJ : m J = some (ModelNode.joint j)) (hD : m D = some (ModelNode.joint d))
    (hmem : (D, f) ∈ j.propagatedJointValues)
    (hnd : (j.propagatedJointValues.map Prod.fst).Nodup)
    (hleaf : ∀ en ∈ j.propagatedJointValues, ∀ e, m en.1 = some (ModelNode.joint e) →
      e.propagatedJointValues = [])
    (hq : ndebug = true ∨ (!q.isnan && !q.isinf) = true)
    (hprod : ∀ en ∈ j.propagatedJointValues, ndebug = true ∨
      (!(a.mul (j.respectJointLimits q) en.2).isnan &&
        !(a.mul (j.respectJointLimits q) en.2).isinf) = true) :
    (∀ fuel, ∃ m1, Model.setJointValue ndebug a (fuel + 2) m J q = some (.ok m1) ∧
      m1 J = some (ModelNode.joint { j with jointValue := j.respectJointLimits q }) ∧
      m1 D = some (ModelNode.joint
        { d with jointValue := d.respectJointLimits (a.mul (j.respectJointLimits q) f) })) ∧
    D ∉ (j.propagateJointValue D (Flt.fin 0)).propagatedJointValues.map Prod.fst ∧
    (∀ fuel, ∃ m2, Model.setJointValue ndebug a (fuel + 2)
        (m.setNode J (ModelNode.joint (j.propagateJointValue D (Flt.fin 0)))) J q = some (.ok m2) ∧
      m2 D = m D) := by
  have hne : ∀ en ∈ j.propagatedJointValues, ∀ e, m en.1 = some (ModelNode.joint e) → en.1 ≠ J := by
    intro en hen e he hc
    rw [hc, hJ] at he
    cases he
    have := hleaf en hen j (by rw [hc]; exact hJ)
    rw [this] at hmem
    cases hmem
  have hDJ : D ≠ J := hne (D, f) hmem d hD
  have herase : (j.propagateJointValue D (Flt.fin 0)).propagatedJointValues =
      couplingErase D j.propagatedJointValues := by
    unfold ModelJoint.propagateJointValue
    rw [if_pos (by decide)]
  have hlim : ∀ v, (j.propagateJointValue D (Flt.fin 0)).respectJointLimits v =
      j.respectJointLimits v := by
    intro v
    unfold ModelJoint.propagateJointValue
    rw [if_pos (by decide)]
    rfl
  refine ⟨?_, ?_, ?_⟩
  · intro fuel
    obtain ⟨m1, h1, h2, -, h4⟩ := Model.setJointValue_one_level ndebug a fuel m J j q hJ hnd
      (fun en hen e he => ⟨hne en hen e he, hleaf en hen e he⟩) hq hprod
    exact ⟨m1, h1, h2, h4 (D, f) hmem d hD⟩
  · rw [herase]
    exact couplingErase_not_mem D j.propagatedJointValues
  · intro fuel
    have hsub : ∀ en ∈ (j.propagateJointValue D (Flt.fin 0)).propagatedJointValues,
        en ∈ j.propagatedJointValues := by
      intro en hen
      rw [herase] at hen
      unfold couplingErase at hen
      exact (List.mem_filter.1 hen).1
    have hm' : ∀ k, k ≠ J → (m.setNode J (ModelNode.joint
        (j.propagateJointValue D (Flt.fin 0)))) k = m k := by
      intro k hk
      unfold Model.setNode
      rw [if_neg hk]
    have hleaf' : ∀ en ∈ (j.propagateJointValue D (Flt.fin 0)).propagatedJointValues, ∀ e,
        (m.setNode J (ModelNode.joint (j.propagateJointValue D (Flt.fin 0)))) en.1 =
          some (ModelNode.joint e) → en.1 ≠ J ∧ e.propagatedJointValues = [] := by
      intro en hen e he
      by_cases hc : en.1 = J
      · exfalso
        have hen' := hsub en hen
        have := hleaf en hen' j (by rw [hc]; exact hJ)
        rw [this] at hmem
        cases hmem
      · rw [hm' en.1 hc] at he
        exact ⟨hc, hleaf en (hsub en hen) e he⟩
    obtain ⟨m2, h1, -, h3, -⟩ := Model.setJointValue_one_level ndebug a fuel
      (m.setNode J (ModelNode.joint (j.propagateJointValue D (Flt.fin 0)))) J
      (j.propagateJointValue D (Flt.fin 0)) q
      (by unfold Model.setNode; rw [if_pos rfl])
      (by rw [herase]; exact couplingErase_nodup D _ hnd) hleaf' hq
      (fun en hen => by rw [hlim]; exact hprod en (hsub en hen))
    refine ⟨m2, h1, ?_⟩
    rw [h3 D hDJ (by rw [herase]; exact couplingErase_not_mem D j.propagatedJointValues),
      hm' D hDJ]

/-- C26, witness: `J` is coupled to `D` with the factor 2 and `D` has the limits
`[-1, 1]`.  Writing 3 to `J` leaves `D` at `clamp(2 * 3) = 1`; once the entry is removed
with `propagateJointValue(D, 0)`, writing 3 to `J` leaves `D` at 0. -/
theorem Model.setJointValue_propagates_witness :
    Model.valueAfter (Model.setJointValue false exactArith 2 coupledModel "J" (Flt.fin 3)) "D" =
      some (Flt.fin 1) ∧
    Model.valueAfter (Model.setJointValue false exactArith 2
      (coupledModel.setNode "J" (ModelNode.joint
        ((coupledJoint [("D", Flt.fin 2)]).propagateJointValue "D" (Flt.fin 0)))) "J" (Flt.fin 3))
      "D" = some (Flt.fin 0) := by
  obtain ⟨h1, -, h3⟩ := Model.setJointValue_propagates false exactArith coupledModel "J" "D"
    (coupledJoint [("D", Flt.fin 2)]) (ModelJoint.new (Flt.fin (-1)) (Flt.fin 1) (Flt.fin 0))
    (Flt.fin 2) (Flt.fin 3) rfl rfl (by simp [coupledJoint]) (by simp [coupledJoint])
    (fun en hen e he => by
      simp only [coupledJoint, List.mem_singleton] at hen
      subst hen
      have hd : coupledModel "D" =
          some (ModelNode.joint (ModelJoint.new (Flt.fin (-1)) (Flt.fin 1) (Flt.fin 0))) := rfl
      rw [hd] at he
      cases he
      rfl)
    (Or.inr (by decide))
    (fun en hen => by
      simp only [coupledJoint, List.mem_singleton] at hen
      subst hen
      exact Or.inr (by decide!))
  obtain ⟨m1, e1, -, e3⟩ := h1 0
  obtain ⟨m2, e4, e5⟩ := h3 0
  constructor
  · rw [e1]
    simp only [Model.valueAfter, e3]
    congr 1
    decide!
  · rw [e4]
    simp only [Model.valueAfter, e5]
    rfl

/-- C26, counterexample: `J` is coupled to `D` with the factor 2 and to `E` with the
factor 1, `E` is coupled to `D` with the factor 10, and `D` holds no coupling entries, so
that no coupling leads from `D` back to `J`.  Writing 1 to `J` first writes 2 to `D`,
then 1 to `E`, whose update writes 10 to `D`: `D` ends at 10, not at
`clamp_D(2 * clamp_J(1)) = 2`. -/
theorem Model.setJointValue_second_path :
    Model.valueAfter (Model.setJointValue false exactArith 3 twoPathModel "J" (Flt.fin 1)) "D" =
      some (Flt.fin 10) ∧
    Model.valueAfter (Model.setJointValue false exactArith 3 twoPathModel "J" (Flt.fin 1)) "J" =
      some (Flt.fin 1) ∧
    (coupledJoint []).respectJointLimits
      (exactArith.mul ((coupledJoint [("D", Flt.fin 2), ("E", Flt.fin 1)]).respectJointLimits
        (Flt.fin 1)) (Flt.fin 2)) = Flt.fin 2 ∧
    Flt.fin 10 ≠ Flt.fin 2 := by
  refine ⟨by decide!, by decide!, by decide!, by decide⟩

/-- The result of `setJointValueNoUpdate` is read off the members at the end of the call
and the way the call ends. -/
theorem ModelJoint.setJointValueNoUpdateExit_result (ndebug : Bool) (j : ModelJoint) (q : Flt) :
    j.setJointValueNoUpdate ndebug q =
      match j.setJointValueNoUpdateExit ndebug q with
      | (j1, .ok _) => .ok j1
      | (_, .error e) => .error e := by
  unfold ModelJoint.setJointValueNoUpdate ModelJoint.setJointValueNoUpdateExit
  cases h : VR_ASSERT ndebug (!q.isnan && !q.isinf) <;> rfl

/-- A call that ends at the assertion leaves the members of the joint as they were. -/
theorem ModelJoint.setJointValueNoUpdateExit_error (ndebug : Bool) (j j1 : ModelJoint) (q : Flt)
    (e : Failure) (h : j.setJointValueNoUpdateExit ndebug q = (j1, .error e)) : j1 = j := by
  unfold ModelJoint.setJointValueNoUpdateExit at h
  cases hv : VR_ASSERT ndebug (!q.isnan && !q.isinf) with
  | error e1 =>
    rw [hv] at h
    exact (congrArg Prod.fst h).symm
  | ok u =>
    rw [hv] at h
    have := congrArg Prod.snd h
    cases this

/-- Replacing a node by itself leaves the model as it is. -/
theorem Model.setNode_self (m : Model) (name : String) (n : ModelNode) (h : m name = some n) :
    m.setNode name n = m := by
  funext k
  unfold Model.setNode
  by_cases hk : k = name
  · rw [if_pos hk, hk, h]
  · rw [if_neg hk]

/-- The loop with the model at its end gives the result of the loop when the calls of the
dependent joints do. -/
theorem propagateLoopExit_result (a : Arith)
    (f : Model → String → Flt → Option (Except Failure Model))
    (g : Model → String → Flt → Option (Model × Except Failure Unit))
    (hfg : ∀ m n v, Model.exitResult (g m n v) = f m n v) (name : String) :
    ∀ (entries : List (String × Flt)) (m : Model),
      Model.exitResult (propagateLoopExit a g name entries m) =
        propagateLoop a f name entries m := by
  intro entries
  induction entries with
  | nil => intro m; rfl
  | cons en rest ih =>
    intro m
    obtain ⟨dependent, factor⟩ := en
    unfold propagateLoopExit propagateLoop
    cases hd : m dependent with
    | none => exact ih m
    | some nd =>
      cases nd with
      | other => exact ih m
      | joint dj =>
        dsimp only
        cases hn : m name with
        | none => rfl
        | some nn =>
          cases nn with
          | other => rfl
          | joint j =>
            dsimp only
            rw [← hfg m dependent (a.mul j.jointValue factor)]
            cases hg : g m dependent (a.mul j.jointValue factor) with
            | none => rfl
            | some r =>
              obtain ⟨m1, o⟩ := r
              cases o with
              | error e => rfl
              | ok u => exact ih m1

/-- The call with the model at its end gives the result of `Model.setJointValue`. -/
theorem Model.setJointValueExit_result (ndebug : Bool) (a : Arith) :
    ∀ (fuel : Nat) (m : Model) (name : String) (q : Flt),
      Model.exitResult (Model.setJointValueExit ndebug a fuel m name q) =
        Model.setJointValue ndebug a fuel m name q := by
  intro fuel
  induction fuel with
  | zero => intro m name q; rfl
  | succ fuel ih =>
    intro m name q
    unfold Model.setJointValueExit Model.setJointValue updatePose
    cases hn : m name with
    | none => rfl
    | some nn =>
      cases nn with
      | other => rfl
      | joint j =>
        dsimp only
        rw [ModelJoint.setJointValueNoUpdateExit_result]
        cases hx : j.setJointValueNoUpdateExit ndebug q with
        | mk j1 o =>
          cases o with
          | error e => rfl
          | ok u =>
            exact propagateLoopExit_result a _ _ ih name _ _

/-- A call that fails the assertion on its own argument ends with the model as it was. -/
theorem Model.setJointValueExit_invalid (a : Arith) (fuel : Nat) (m : Model) (name : String)
    (j : ModelJoint) (q : Flt) (hn : m name = some (ModelNode.joint j))
    (hq : (!q.isnan && !q.isinf) = false) :
    Model.setJointValueExit false a (fuel + 1) m name q = some (m, .error Failure.assertion) := by
  unfold Model.setJointValueExit
  rw [hn]
  dsimp only
  have hx : j.setJointValueNoUpdateExit false q = (j, .error Failure.assertion) := by
    unfold ModelJoint.setJointValueNoUpdateExit VR_ASSERT
    rw [hq]
    rfl
  rw [hx]
  dsimp only
  rw [Model.setNode_self m name _ hn]

/-- A joint whose one coupling entry names the joint itself: no depth of calls is enough
for `setJointValue` to return. -/
theorem Model.setJointValue_self_coupled (ndebug : Bool) (a : Arith) (name : String) (f : Flt) :
    ∀ (fuel : Nat) (m : Model) (j : ModelJoint) (q : Flt),
      m name = some (ModelNode.joint j) → j.propagatedJointValues = [(name, f)] →
      ∀ m1, Model.setJointValue ndebug a fuel m name q ≠ some (.ok m1) := by
  intro fuel
  induction fuel with
  | zero =>
    intro m j q _ _ m1 h
    cases h
  | succ fuel ih =>
    intro m j q hn hc m1 h
    unfold Model.setJointValue updatePose at h
    rw [hn] at h
    dsimp only at h
    cases hw : j.setJointValueNoUpdate ndebug q with
    | error e =>
      rw [hw] at h
      cases h
    | ok j1 =>
      rw [hw] at h
      dsimp only at h
      obtain ⟨-, hj1⟩ := (ModelJoint.setJointValueNoUpdate_ok_iff ndebug j q j1).1 hw
      have hc1 : j1.propagatedJointValues = [(name, f)] := by
        rw [hj1]
        exact hc
      have hself : (m.setNode name (ModelNode.joint j1)) name = some (ModelNode.joint j1) := by
        unfold Model.setNode
        rw [if_pos rfl]
      rw [hc1] at h
      unfold propagateLoop at h
      rw [hself] at h
      dsimp only at h
      cases hr : Model.setJointValue ndebug a fuel (m.setNode name (ModelNode.joint j1)) name
          (a.mul j1.jointValue f) with
      | none =>
        rw [hr] at h
        cases h
      | some r =>
        cases r with
        | error e =>
          rw [hr] at h
          cases h
        | ok m2 =>
          exact ih _ j1 _ hself hc1 m2 hr

/-- The two comparisons of `respectJointLimits` on a finite value and limits with
`lower <= upper` give `max(lower, min(upper, q))`. -/
theorem ModelJoint.respectJointLimits_clamp (j : ModelJoint) (q : Flt)
    (hlim : Flt.le j.jointLimitLo j.jointLimitHi = true) (hq : q.isFinite = true) :
    j.respectJointLimits q = Flt.max j.jointLimitLo (Flt.min j.jointLimitHi q) ∧
    (Flt.le j.jointLimitLo q = true → Flt.le q j.jointLimitHi = true →
      j.respectJointLimits q = q) ∧
    (Flt.gt q j.jointLimitHi = true → j.respectJointLimits q = j.jointLimitHi) ∧
    (Flt.lt q j.jointLimitLo = true → j.respectJointLimits q = j.jointLimitLo) := by
  refine ⟨?_, ?_, ?_, ?_⟩ <;>
  · obtain ⟨v, o, lo, hi, a, b, c, d⟩ := j
    simp only [ModelJoint.respectJointLimits, Flt.gt, Flt.max, Flt.min] at hlim ⊢
    cases q <;> cases lo <;> cases hi <;>
      simp_all [Flt.le, Flt.lt, Flt.isFinite, Flt.isnan, Flt.isinf] <;>
      (split_ifs <;> simp_all [Flt.le, Flt.lt] <;> (try intros) <;> linarith)

/-- The two comparisons of `respectJointLimits` on the values that are no numbers: NaN
stays NaN, and with `lower <= upper` `+Inf` becomes `upper` and `-Inf` becomes `lower`. -/
theorem ModelJoint.respectJointLimits_invalid (j : ModelJoint) :
    j.respectJointLimits Flt.nan = Flt.nan ∧
    (Flt.le j.jointLimitLo j.jointLimitHi = true →
      j.respectJointLimits Flt.pinf = j.jointLimitHi ∧
      j.respectJointLimits Flt.ninf = j.jointLimitLo) := by
  obtain ⟨v, o, lo, hi, a, b, c, d⟩ := j
  refine ⟨by cases lo <;> cases hi <;> rfl, ?_⟩
  intro hlim
  simp only [ModelJoint.respectJointLimits, Flt.gt] at hlim ⊢
  cases lo <;> cases hi <;> simp_all [Flt.le, Flt.lt]

/-- C1 (amended): for a joint whose limits satisfy `lower <= upper` and every finite `q`,
`setJointValueNoUpdate(q)` returns and the value that `getJointValue()` returns
afterwards lies within `[lower, upper]`, the limits being unchanged.  `setJointValue(q)`
returns and leaves the joint in the same state when the coupling entries of the joint
name joints without coupling entries of their own, or no joints, and the values handed
on to them pass the assertion (so in particular for a joint without coupling entries). -/
theorem ModelJoint.setJointValue_within_limits (ndebug : Bool) (j : ModelJoint) (q : Flt)
    (hlim : Flt.le j.jointLimitLo j.jointLimitHi = true) (hq : q.isFinite = true) :
    ∃ j1, j.setJointValueNoUpdate ndebug q = .ok j1 ∧
      j1.jointLimitLo = j.jointLimitLo ∧ j1.jointLimitHi = j.jointLimitHi ∧
      Flt.le j1.jointLimitLo j1.getJointValue = true ∧
      Flt.le j1.getJointValue j1.jointLimitHi = true ∧
      ∀ (a : Arith) (m : Model) (J : String),
        m J = some (ModelNode.joint j) →
        (j.propagatedJointValues.map Prod.fst).Nodup →
        (∀ en ∈ j.propagatedJointValues, ∀ e, m en.1 = some (ModelNode.joint e) →
          en.1 ≠ J ∧ e.propagatedJointValues = []) →
        (∀ en ∈ j.propagatedJointValues, ndebug = true ∨
          (!(a.mul (j.respectJointLimits q) en.2).isnan &&
            !(a.mul (j.respectJointLimits q) en.2).isinf) = true) →
        ∀ fuel, ∃ m1, Model.setJointValue ndebug a (fuel + 2) m J q = some (.ok m1) ∧
          m1 J = some (ModelNode.joint j1) := by
  obtain ⟨g1, g2⟩ := ModelJoint.respectJointLimits_within j q hlim hq
  refine ⟨_, ModelJoint.setJointValueNoUpdate_of_valid ndebug j q (Or.inr hq), rfl, rfl, g1, g2,
    ?_⟩
  intro a m J hJ hnd hleaf hprod fuel
  obtain ⟨m1, h1, h2, -, -⟩ :=
    Model.setJointValue_one_level ndebug a fuel m J j q hJ hnd hleaf (Or.inr hq) hprod
  exact ⟨m1, h1, h2⟩

/-- C1, witness of the amended statement: the joint `J` with limits `[-100, 100]`, coupled
to the joint `D` with the factor 2, written with `q = 300`. -/
theorem ModelJoint.setJointValue_within_limits_witness :
    ∃ j1, (coupledJoint [("D", Flt.fin 2)]).setJointValueNoUpdate false (Flt.fin 300) = .ok j1 ∧
      j1.getJointValue = Flt.fin 100 ∧
      Flt.le (Flt.fin (-100)) j1.getJointValue = true ∧
      Flt.le j1.getJointValue (Flt.fin 100) = true ∧
      ∃ m1, Model.setJointValue false exactArith 2 coupledModel "J" (Flt.fin 300) = some (.ok m1) ∧
        m1 "J" = some (ModelNode.joint j1) := by
  obtain ⟨j1, h1, h2, h3, h4, h5, h6⟩ := ModelJoint.setJointValue_within_limits false
    (coupledJoint [("D", Flt.fin 2)]) (Flt.fin 300) (by decide) (by decide)
  rw [h2] at h4
  rw [h3] at h5
  have hv : j1.getJointValue = Flt.fin 100 := by
    have h0 : (coupledJoint [("D", Flt.fin 2)]).setJointValueNoUpdate false (Flt.fin 300) =
        .ok { coupledJoint [("D", Flt.fin 2)] with jointValue := Flt.fin 100 } := by
      rw [ModelJoint.setJointValueNoUpdate_of_valid _ _ _ (Or.inr (by decide))]
      congr 1
    rw [h0] at h1
    cases h1
    rfl
  refine ⟨j1, h1, hv, h4, h5, ?_⟩
  exact h6 exactArith coupledModel "J" rfl (by simp [coupledJoint])
    (fun en hen e he => by
      simp only [coupledJoint, List.mem_singleton] at hen
      subst hen
      have hd : coupledModel "D" =
          some (ModelNode.joint (ModelJoint.new (Flt.fin (-1)) (Flt.fin 1) (Flt.fin 0))) := rfl
      rw [hd] at he
      cases he
      exact ⟨by decide, rfl⟩)
    (fun en hen => by
      simp only [coupledJoint, List.mem_singleton] at hen
      subst hen
      exact Or.inr (by decide!))
    0

/-- C1 as stated fails: a joint constructed with the limits `lower = 5`, `upper = 1` and
written with the finite value `0` ends with the value `1`, by `setJointValueNoUpdate` and
by `setJointValue` alike, and `5 <= 1` does not hold, so the value is not within
`[lower, upper]`.  And there is no state afterwards for a joint that is coupled to
itself: with the factor 1 and limits `[-100, 100]`, `setJointValue(3)` does not return
whatever the depth of calls. -/
theorem ModelJoint.setJointValue_inverted_limits :
    (ModelJoint.new (Flt.fin 5) (Flt.fin 1) (Flt.fin 0)).setJointValueNoUpdate false (Flt.fin 0)
        = .ok { ModelJoint.new (Flt.fin 5) (Flt.fin 1) (Flt.fin 0) with jointValue := Flt.fin 1 } ∧
    Model.valueAfter (Model.setJointValue false exactArith 1
        (loneModel (ModelJoint.new (Flt.fin 5) (Flt.fin 1) (Flt.fin 0))) "J" (Flt.fin 0)) "J" =
      some (Flt.fin 1) ∧
    (Flt.fin 0).isFinite = true ∧
    ¬ (Flt.le (Flt.fin 5) (Flt.fin 1) = true ∧ Flt.le (Flt.fin 1) (Flt.fin 1) = true) ∧
    (∀ fuel : Nat, Model.valueAfter (Model.setJointValue false exactArith fuel
        (selfCoupledModel (Flt.fin 1)) "J" (Flt.fin 3)) "J" = none) := by
  refine ⟨?_, ?_, by decide, by simp [Flt.le], ?_⟩
  · rw [ModelJoint.setJointValueNoUpdate_of_valid _ _ _ (Or.inr (by decide))]
    simp [ModelJoint.respectJointLimits, ModelJoint.new, Flt.lt, Flt.gt]
  · rw [Model.setJointValue_leaf false exactArith 0 _ "J"
      (ModelJoint.new (Flt.fin 5) (Flt.fin 1) (Flt.fin 0)) (Flt.fin 0) rfl rfl
      (Or.inr (by decide))]
    simp [Model.valueAfter, Model.setNode, ModelJoint.respectJointLimits, ModelJoint.new,
      Flt.lt, Flt.gt]
  · intro fuel
    cases hr : Model.setJointValue false exactArith fuel (selfCoupledModel (Flt.fin 1)) "J"
        (Flt.fin 3) with
    | none => rfl
    | some r =>
      cases r with
      | error e => rfl
      | ok m1 =>
        exact absurd hr (Model.setJointValue_self_coupled false exactArith "J" (Flt.fin 1) fuel
          (selfCoupledModel (Flt.fin 1)) (coupledJoint [("J", Flt.fin 1)]) (Flt.fin 3) rfl rfl m1)

/-- C2 (amended): for a joint with `lower <= upper` and every finite `q`,
`setJointValueNoUpdate(q)` returns and stores exactly `max(lower, min(upper, q))`: `q`
itself when `lower <= q <= upper`, `upper` when `q > upper` and `lower` when `q < lower`.
`setJointValue(q)` returns and leaves the joint in the same state when the coupling
entries of the joint name joints without coupling entries of their own, or no joints, and
the values handed on to them pass the assertion (so in particular for a joint without
coupling entries). -/
theorem ModelJoint.setJointValue_stores_clamp (ndebug : Bool) (j : ModelJoint) (q : Flt)
    (hlim : Flt.le j.jointLimitLo j.jointLimitHi = true) (hq : q.isFinite = true) :
    ∃ j1, j.setJointValueNoUpdate ndebug q = .ok j1 ∧
      j1.jointValue = Flt.max j.jointLimitLo (Flt.min j.jointLimitHi q) ∧
      (Flt.le j.jointLimitLo q = true → Flt.le q j.jointLimitHi = true → j1.jointValue = q) ∧
      (Flt.gt q j.jointLimitHi = true → j1.jointValue = j.jointLimitHi) ∧
      (Flt.lt q j.jointLimitLo = true → j1.jointValue = j.jointLimitLo) ∧
      ∀ (a : Arith) (m : Model) (J : String),
        m J = some (ModelNode.joint j) →
        (j.propagatedJointValues.map Prod.fst).Nodup →
        (∀ en ∈ j.propagatedJointValues, ∀ e, m en.1 = some (ModelNode.joint e) →
          en.1 ≠ J ∧ e.propagatedJointValues = []) →
        (∀ en ∈ j.propagatedJointValues, ndebug = true ∨
          (!(a.mul (j.respectJointLimits q) en.2).isnan &&
            !(a.mul (j.respectJointLimits q) en.2).isinf) = true) →
        ∀ fuel, ∃ m1, Model.setJointValue ndebug a (fuel + 2) m J q = some (.ok m1) ∧
          m1 J = some (ModelNode.joint j1) := by
  obtain ⟨g1, g2, g3, g4⟩ := ModelJoint.respectJointLimits_clamp j q hlim hq
  refine ⟨_, ModelJoint.setJointValueNoUpdate_of_valid ndebug j q (Or.inr hq), g1, g2, g3, g4,
    ?_⟩
  intro a m J hJ hnd hleaf hprod fuel
  obtain ⟨m1, h1, h2, -, -⟩ :=
    Model.setJointValue_one_level ndebug a fuel m J j q hJ hnd hleaf (Or.inr hq) hprod
  exact ⟨m1, h1, h2⟩

/-- C2, witness: limits `[0, 1.57f]` and `q = 2.0f` give a stored value of `1.57f`, by
`setJointValueNoUpdate` and by `setJointValue` on the joint alone in its model. -/
theorem ModelJoint.setJointValue_stores_clamp_witness :
    ∃ j1, (ModelJoint.new (Flt.fin 0) f1_57 (Flt.fin 0)).setJointValueNoUpdate false (Flt.fin 2)
        = .ok j1 ∧
      j1.jointValue = f1_57 ∧
      ∃ m1, Model.setJointValue false exactArith 2
          (loneModel (ModelJoint.new (Flt.fin 0) f1_57 (Flt.fin 0))) "J" (Flt.fin 2) =
            some (.ok m1) ∧
        m1 "J" = some (ModelNode.joint j1) := by
  obtain ⟨j1, h1, -, -, h3, -, h6⟩ := ModelJoint.setJointValue_stores_clamp false
    (ModelJoint.new (Flt.fin 0) f1_57 (Flt.fin 0)) (Flt.fin 2)
    (by norm_num [ModelJoint.new, f1_57, Flt.le]) (by decide)
  refine ⟨j1, h1, h3 (by norm_num [ModelJoint.new, f1_57, Flt.gt, Flt.lt]), ?_⟩
  exact h6 exactArith (loneModel (ModelJoint.new (Flt.fin 0) f1_57 (Flt.fin 0))) "J" rfl
    (by simp [ModelJoint.new])
    (fun en hen => by simp [ModelJoint.new] at hen)
    (fun en hen => by simp [ModelJoint.new] at hen)
    0

/-- C3 as stated fails: in a build with `NDEBUG` the assertion is empty, and writing
`+Inf` to a joint with limits `[0, 1]` and value `0` changes the stored value to `1`,
writing `NaN` changes it to `NaN`, by `setJointValueNoUpdate` and by `setJointValue`
alike. -/
theorem ModelJoint.setJointValue_inf_not_rejected :
    (ModelJoint.new (Flt.fin 0) (Flt.fin 1) (Flt.fin 0)).getJointValue = Flt.fin 0 ∧
    (ModelJoint.new (Flt.fin 0) (Flt.fin 1) (Flt.fin 0)).setJointValueNoUpdate true Flt.pinf
        = .ok { ModelJoint.new (Flt.fin 0) (Flt.fin 1) (Flt.fin 0) with jointValue := Flt.fin 1 } ∧
    (ModelJoint.new (Flt.fin 0) (Flt.fin 1) (Flt.fin 0)).setJointValueNoUpdate true Flt.nan
        = .ok { ModelJoint.new (Flt.fin 0) (Flt.fin 1) (Flt.fin 0) with jointValue := Flt.nan } ∧
    Model.valueAfter (Model.setJointValue true exactArith 1
        (loneModel (ModelJoint.new (Flt.fin 0) (Flt.fin 1) (Flt.fin 0))) "J" Flt.pinf) "J" =
      some (Flt.fin 1) ∧
    Model.valueAfter (Model.setJointValue true exactArith 1
        (loneModel (ModelJoint.new (Flt.fin 0) (Flt.fin 1) (Flt.fin 0))) "J" Flt.nan) "J" =
      some Flt.nan := by
  refine ⟨rfl, ?_, ?_, ?_, ?_⟩
  · rw [ModelJoint.setJointValueNoUpdate_of_valid _ _ _ (Or.inl rfl)]
    simp [ModelJoint.respectJointLimits, ModelJoint.new, Flt.lt, Flt.gt]
  · rw [ModelJoint.setJointValueNoUpdate_of_valid _ _ _ (Or.inl rfl)]
    simp [ModelJoint.respectJointLimits, ModelJoint.new, Flt.lt, Flt.gt]
  · rw [Model.setJointValue_leaf true exactArith 0 _ "J"
      (ModelJoint.new (Flt.fin 0) (Flt.fin 1) (Flt.fin 0)) Flt.pinf rfl rfl (Or.inl rfl)]
    simp [Model.valueAfter, Model.setNode, ModelJoint.respectJointLimits, ModelJoint.new,
      Flt.lt, Flt.gt]
  · rw [Model.setJointValue_leaf true exactArith 0 _ "J"
      (ModelJoint.new (Flt.fin 0) (Flt.fin 1) (Flt.fin 0)) Flt.nan rfl rfl (Or.inl rfl)]
    simp [Model.valueAfter, Model.setNode, ModelJoint.respectJointLimits, ModelJoint.new,
      Flt.lt, Flt.gt]

/-- C3 (amended): in a build without `NDEBUG`, `setJointValueNoUpdate(q)` and
`setJointValue(q)` with `q` equal to NaN, `+Inf` or `-Inf` end at the assertion, whatever
the coupling entries of the joint, and the joint and the model are then as they were
before the call: nothing has been stored.  In a build with `NDEBUG`
`setJointValueNoUpdate(q)` returns and stores `q` limited by the two comparisons of
`respectJointLimits` (NaN for NaN and, with `lower <= upper`, `upper` for `+Inf` and
`lower` for `-Inf`), and `setJointValue(q)` returns with the same value stored when the
coupling entries of the joint name joints without coupling entries of their own, or no
joints. -/
theorem ModelJoint.setJointValue_invalid (j : ModelJoint) (q : Flt)
    (hq : q = Flt.nan ∨ q = Flt.pinf ∨ q = Flt.ninf) :
    j.setJointValueNoUpdateExit false q = (j, .error Failure.assertion) ∧
    j.setJointValueNoUpdate false q = .error Failure.assertion ∧
    (∀ (a : Arith) (fuel : Nat) (m : Model) (J : String), m J = some (ModelNode.joint j) →
      Model.setJointValueExit false a (fuel + 1) m J q = some (m, .error Failure.assertion) ∧
      Model.setJointValue false a (fuel + 1) m J q = some (.error Failure.assertion)) ∧
    j.setJointValueNoUpdateExit true q =
      ({ j with jointValue := j.respectJointLimits q }, .ok ()) ∧
    j.setJointValueNoUpdate true q = .ok { j with jointValue := j.respectJointLimits q } ∧
    (∀ (a : Arith) (m : Model) (J : String),
      m J = some (ModelNode.joint j) →
      (j.propagatedJointValues.map Prod.fst).Nodup →
      (∀ en ∈ j.propagatedJointValues, ∀ e, m en.1 = some (ModelNode.joint e) →
        en.1 ≠ J ∧ e.propagatedJointValues = []) →
      ∀ fuel, ∃ m1, Model.setJointValue true a (fuel + 2) m J q = some (.ok m1) ∧
        m1 J = some (ModelNode.joint { j with jointValue := j.respectJointLimits q })) ∧
    j.respectJointLimits Flt.nan = Flt.nan ∧
    (Flt.le j.jointLimitLo j.jointLimitHi = true →
      j.respectJointLimits Flt.pinf = j.jointLimitHi ∧
      j.respectJointLimits Flt.ninf = j.jointLimitLo) := by
  have hbad : (!q.isnan && !q.isinf) = false := by
    rcases hq with h | h | h <;> subst h <;> rfl
  have hexit : ∀ (a : Arith) (fuel : Nat) (m : Model) (J : String),
      m J = some (ModelNode.joint j) →
      Model.setJointValueExit false a (fuel + 1) m J q = some (m, .error Failure.assertion) :=
    fun a fuel m J hJ => Model.setJointValueExit_invalid a fuel m J j q hJ hbad
  refine ⟨?_, ?_, ?_, rfl, ModelJoint.setJointValueNoUpdate_of_valid _ _ _ (Or.inl rfl), ?_,
    (ModelJoint.respectJointLimits_invalid j).1, (ModelJoint.respectJointLimits_invalid j).2⟩
  · unfold ModelJoint.setJointValueNoUpdateExit VR_ASSERT
    rw [hbad]
    rfl
  · unfold ModelJoint.setJointValueNoUpdate VR_ASSERT
    rw [hbad]
    rfl
  · intro a fuel m J hJ
    refine ⟨hexit a fuel m J hJ, ?_⟩
    rw [← Model.setJointValueExit_result, hexit a fuel m J hJ]
    rfl
  · intro a m J hJ hnd hleaf fuel
    obtain ⟨m1, h1, h2, -, -⟩ :=
      Model.setJointValue_one_level true a fuel m J j q hJ hnd hleaf (Or.inl rfl)
        (fun _ _ => Or.inl rfl)
    exact ⟨m1, h1, h2⟩

/-- C3, witness of the amended statement: `NaN` written to a joint with limits `[0, 1]`,
alone in its model. -/
theorem ModelJoint.setJointValue_invalid_witness :
    (ModelJoint.new (Flt.fin 0) (Flt.fin 1) (Flt.fin 0)).setJointValueNoUpdateExit false Flt.nan
        = (ModelJoint.new (Flt.fin 0) (Flt.fin 1) (Flt.fin 0), .error Failure.assertion) ∧
    Model.setJointValueExit false exactArith 1
        (loneModel (ModelJoint.new (Flt.fin 0) (Flt.fin 1) (Flt.fin 0))) "J" Flt.nan =
      some (loneModel (ModelJoint.new (Flt.fin 0) (Flt.fin 1) (Flt.fin 0)),
        .error Failure.assertion) ∧
    (ModelJoint.new (Flt.fin 0) (Flt.fin 1) (Flt.fin 0)).setJointValueNoUpdate true Flt.nan
        = .ok { ModelJoint.new (Flt.fin 0) (Flt.fin 1) (Flt.fin 0) with jointValue := Flt.nan } ∧
    ∃ m1, Model.setJointValue true exactArith 2
        (loneModel (ModelJoint.new (Flt.fin 0) (Flt.fin 1) (Flt.fin 0))) "J" Flt.nan =
          some (.ok m1) ∧
      m1 "J" = some (ModelNode.joint
        { ModelJoint.new (Flt.fin 0) (Flt.fin 1) (Flt.fin 0) with jointValue := Flt.nan }) := by
  obtain ⟨h1, -, h3, -, h5, h6, h7, -⟩ := ModelJoint.setJointValue_invalid
    (ModelJoint.new (Flt.fin 0) (Flt.fin 1) (Flt.fin 0)) Flt.nan (Or.inl rfl)
  rw [h7] at h5 h6
  refine ⟨h1, (h3 exactArith 0 _ "J" rfl).1, h5, ?_⟩
  exact h6 exactArith (loneModel (ModelJoint.new (Flt.fin 0) (Flt.fin 1) (Flt.fin 0))) "J" rfl
    (by simp [ModelJoint.new])
    (fun en hen => by simp [ModelJoint.new] at hen)
    0

namespace ConstrainedOptimizationIK

/-- An attempt that does not reach its check has failed at the limit check of its start
vector or at an assertion. -/
theorem attemptCheck_error_cases (env : Env) (opt : Optimizer) (attempt : Nat) (s : IKState)
    (e : Failure) (h : attemptCheck env opt attempt s = .error e) :
    startVector env { s with ik := { s.ik with numIterations := 0 } } attempt = .error e ∨
      e = Failure.assertion := by
  unfold attemptCheck at h
  cases hv : startVector env { s with ik := { s.ik with numIterations := 0 } } attempt with
  | error e1 =>
    simp only [bind, Except.bind, pure, Except.pure, hv] at h
    cases h
    exact Or.inl rfl
  | ok v =>
    right
    obtain ⟨x0, rc⟩ := v
    simp only [bind, Except.bind, pure, Except.pure, hv] at h
    split at h
    · rename_i e1 hcb
      cases h
      exact callbacks_error env _ _ _ hcb
    · rename_i s2 hcb
      split at h
      · rename_i e1 hw
        cases h
        exact setJointValues_error _ _ _ _ hw
      · rename_i joints hw
        split at h
        · rename_i e1 hh
          cases h
          exact hardOptimizationFunction_error env _ _ _ hh
        · cases h

/-- An exception that ends a round of the attempt loop is the one of the limit check,
thrown in the state in which the round has assigned `numIterations = 0` and nothing
else. -/
theorem attemptBody_exception (env : Env) (opt : Optimizer) (uv uc : Bool) (attempt : Nat)
    (s : IKState) (best : List Flt) (minErr : Flt) (msg : String)
    (h : attemptBody env opt uv uc attempt s best minErr = .error (Failure.exception msg)) :
    startVector env { s with ik := { s.ik with numIterations := 0 } } attempt =
      .error (Failure.exception msg) := by
  cases hc : attemptCheck env opt attempt s with
  | error e1 =>
    rw [attemptBody_of_error env opt uv uc attempt s best minErr e1 hc] at h
    cases h
    rcases attemptCheck_error_cases env opt attempt s _ hc with h1 | h1
    · exact h1
    · cases h1
  | ok v =>
    obtain ⟨s2, x, b, err⟩ := v
    cases b with
    | true =>
      rw [attemptBody_of_pass env opt uv uc attempt s s2 x best err minErr hc] at h
      cases h
    | false =>
      rw [attemptBody_of_fail env opt uv uc attempt s s2 x best err minErr hc] at h
      cases h

/-- The attempt loop with the state at its end gives the result of the attempt loop. -/
theorem solveLoopExit_result (env : Env) (opt : Optimizer) (uv uc : Bool) :
    ∀ (remaining attempt : Nat) (s : IKState) (best : List Flt) (minErr : Flt),
      (solveLoopExit env opt uv uc remaining attempt s best minErr).result =
        solveLoop env opt uv uc remaining attempt s best minErr := by
  intro remaining
  induction remaining with
  | zero =>
    intro attempt s best minErr
    rw [solveLoop_zero]
    unfold solveLoopExit
    by_cases hb : best.length > 0
    · rw [if_pos hb, if_pos hb]
      cases hw : setJointValues env.ndebug s.robot.joints (best.map env.toFloat) with
      | error e =>
        have := setJointValues_error _ _ _ _ hw
        subst this
        rfl
      | ok joints => rfl
    · rw [if_neg hb, if_neg hb]
      rfl
  | succ n ih =>
    intro attempt s best minErr
    rw [solveLoop]
    unfold solveLoopExit
    cases hb : attemptBody env opt uv uc attempt s best minErr with
    | error e =>
      cases e <;> rfl
    | ok r =>
      cases r with
      | success s1 => rfl
      | next s1 b1 e1 =>
        simp only [bind, Except.bind]
        exact ih (attempt + 1) s1 b1 e1

/-- The call of `solve` with the state at its end gives the result of `solve`. -/
theorem solveExit_result (env : Env) (s : IKState) (stepwise : Bool) :
    (solveExit env s stepwise).result = solve env s stepwise := by
  unfold solveExit solve
  cases stepwise with
  | true => rfl
  | false =>
    simp only [Bool.false_eq_true, if_false]
    cases ho : s.ik.optimizer with
    | none => rfl
    | some opt => exact solveLoopExit_result env opt _ _ _ _ _ _ _

end ConstrainedOptimizationIK

open ConstrainedOptimizationIK

/-- C13: `solve(true)` throws, `solve` on a solver whose optimizer was never created by
`initialize` throws, and `solveStep()` throws, each time with the solver and the robot,
so every joint value and both update flags, in the state of the call: the throw comes
before the statements that save and set the flags and before the attempt loop. -/
theorem ConstrainedOptimizationIK.solve_throws (env : Env) (s : IKState)
    (hinit : s.ik.optimizer = none) :
    (∀ s1 : IKState, solveExit env s1 true =
      SolveExit.thrown "Stepwise solving not possible with optimization IK" s1) ∧
    solveExit env s false =
      SolveExit.thrown "IK not initialized, did you forget to call initialize()?" s ∧
    (∀ stepwise : Bool, ∃ msg, solveExit env s stepwise = SolveExit.thrown msg s) ∧
    (∀ s1 : IKState, solveStepExit s1 =
      SolveExit.thrown "Stepwise solving not possible with optimization IK" s1) ∧
    (∀ s1 : IKState, solve env s1 true =
      .error (Failure.exception "Stepwise solving not possible with optimization IK")) ∧
    solve env s false =
      .error (Failure.exception "IK not initialized, did you forget to call initialize()?") ∧
    solveStep = .error (Failure.exception "Stepwise solving not possible with optimization IK") := by
  have h1 : ∀ s1 : IKState, solveExit env s1 true =
      SolveExit.thrown "Stepwise solving not possible with optimization IK" s1 :=
    fun s1 => rfl
  have h2 : solveExit env s false =
      SolveExit.thrown "IK not initialized, did you forget to call initialize()?" s := by
    unfold solveExit
    rw [hinit]
    rfl
  refine ⟨h1, h2, ?_, fun s1 => rfl, fun s1 => rfl, ?_, rfl⟩
  · intro stepwise
    cases stepwise
    · exact ⟨_, h2⟩
    · exact ⟨_, h1 s⟩
  · rw [← solveExit_result, h2]
    rfl

/-- C13, witness: a solver fresh from its constructor, on which `initialize` was never
called: the exception leaves the joint and the two flags of the robot as they were. -/
theorem ConstrainedOptimizationIK.solve_throws_witness :
    solveExit demoEnv
        { ik := ConstrainedOptimizationIK.new [demoConstraint],
          robot := { joints := [demoJoint], updateVisualization := true,
                     updateCollisionModel := true },
          randCalls := 0 } false =
      SolveExit.thrown "IK not initialized, did you forget to call initialize()?"
        { ik := ConstrainedOptimizationIK.new [demoConstraint],
          robot := { joints := [demoJoint], updateVisualization := true,
                     updateCollisionModel := true },
          randCalls := 0 } :=
  (ConstrainedOptimizationIK.solve_throws demoEnv
    { ik := ConstrainedOptimizationIK.new [demoConstraint],
      robot := { joints := [demoJoint], updateVisualization := true,
                 updateCollisionModel := true },
      randCalls := 0 } rfl).2.1

open ConstrainedOptimizationIK

/-- The exception of the limit check, unlike the two that open `solve`, is thrown with
the update flags of the robot already set: a solver over a joint with the limits
`lower = 5`, `upper = 1` throws in its first attempt with both flags off, which were on
at the call. -/
theorem ConstrainedOptimizationIK.solveExit_limit_check_flags :
    (solveExit demoEnv
      { demoState demoConstraint 3 demoResults with
        robot := { joints := [ModelJoint.new (Flt.fin 5) (Flt.fin 1) (Flt.fin 0)],
                   updateVisualization := true, updateCollisionModel := true } }
      false).thrownFlags =
      some ("Initial configuration outside of joint limits", false, false) := by
  decide!

/-- C21, the failing start vector: with the settings of the constructor (displacement
factor 1) and binary32 arithmetic, a solver over a joint with the limits `[-1, 1.57f]` and
the initial configuration 0 that draws `rand() = 1000`, so `t = 1`, starts its third
attempt, the first random one, at `1.57f + 2^-23`, above the upper limit: the difference
`upper - lower` rounds up, and the expression is not clamped.  With the displacement
factor 2, the limits `[-10, 10]` and the draw `t = 0` the start is `-20`, where no
operation rounds.  The two seeded attempts of the same solver, which clamp with
`std::max` and `std::min`, start within the limits. -/
theorem ConstrainedOptimizationIK.random_start_outside_limits :
    ((startVector (floatEnv false (fun _ => 1000)) elbowState 2).toOption.map Prod.fst =
      some [Flt.fin (3292529 / 2097152)]) ∧
    elbowJoint.jointLimitHi = Flt.fin (13170115 / 8388608) ∧
    Flt.gt (Flt.fin (3292529 / 2097152)) elbowJoint.jointLimitHi = true ∧
    withinLimits elbowState.robot.joints [Flt.fin (3292529 / 2097152)] = false ∧
    elbowState.ik.randomSamplingDisplacementFactor = Flt.fin 1 ∧
    withinLimits elbowState.robot.joints elbowState.ik.initialConfig = true ∧
    ((startVector (floatEnv false (fun _ => 0))
      { demoState demoConstraint 3 demoResults with
        ik := (demoState demoConstraint 3 demoResults).ik.setRandomSamplingDisplacementFactor
          (Flt.fin 2) } 2).toOption.map Prod.fst = some [Flt.fin (-20)]) ∧
    withinLimits [demoJoint] [Flt.fin (-20)] = false ∧
    ((startVector (floatEnv false (fun _ => 1000)) elbowState 0).toOption.map
      (fun v => withinLimits elbowState.robot.joints v.1) = some true) ∧
    ((startVector (floatEnv false (fun _ => 1000)) elbowState 1).toOption.map
      (fun v => withinLimits elbowState.robot.joints v.1) = some true) := by
  refine ⟨by decide!, rfl, by decide!, by decide!, rfl, by decide!, by decide!, by decide!,
    by decide!, by decide!⟩

/-- The rounding to `float` and to `double` at known numbers: `1.57f` and `0.1f` are the
roundings of 1.57 and 0.1, the largest finite numbers stay as they are, the number half
way between the largest `float` and `2^128` becomes an infinity, and half of the least
positive `float` becomes zero. -/
theorem Flt.binary32_examples :
    Flt.binary32 (157 / 100) = f1_57 ∧ Flt.binary32 (1 / 10) = f0_1 ∧
    Flt.binary32 340282346638528859811704183484516925440 = FLT_MAX ∧
    Flt.binary64 ((2 ^ 53 - 1) * 2 ^ 971) = DBL_MAX ∧
    Flt.binary32 (2 ^ 128 - 2 ^ 103) = Flt.pinf ∧
    Flt.binary32 (-(2 ^ 128 - 2 ^ 103)) = Flt.ninf ∧
    Flt.binary32 (1 / 2 ^ 150) = Flt.fin 0 ∧
    Flt.binary32 (3 / 2 ^ 150) = Flt.fin (1 / 2 ^ 148) ∧
    Flt.binary32 (-3) = Flt.fin (-3) := by
  refine ⟨by decide!, by decide!, by decide!, by decide!, by decide!, by decide!, by decide!,
    by decide!, by decide!⟩

/-- A joint whose one coupling entry names the joint itself: after its own write, the call
goes on as the call that writes the product of the stored value and the factor to the
same joint. -/
theorem Model.setJointValue_self_coupled_step (ndebug : Bool) (a : Arith) (name : String)
    (f : Flt) (fuel : Nat) (m : Model) (j j1 : ModelJoint) (q : Flt)
    (hn : m name = some (ModelNode.joint j)) (hc : j.propagatedJointValues = [(name, f)])
    (hw : j.setJointValueNoUpdate ndebug q = .ok j1) :
    Model.setJointValue ndebug a (fuel + 1) m name q =
      Model.setJointValue ndebug a fuel (m.setNode name (ModelNode.joint j1)) name
        (a.mul j1.jointValue f) := by
  obtain ⟨-, hj1⟩ := (ModelJoint.setJointValueNoUpdate_ok_iff ndebug j q j1).1 hw
  have hc1 : j1.propagatedJointValues = [(name, f)] := by
    rw [hj1]
    exact hc
  have hself : (m.setNode name (ModelNode.joint j1)) name = some (ModelNode.joint j1) := by
    unfold Model.setNode
    rw [if_pos rfl]
  conv_lhs => unfold Model.setJointValue updatePose
  rw [hn]
  dsimp only
  rw [hw]
  dsimp only
  rw [hc1]
  unfold propagateLoop
  rw [hself]
  dsimp only
  cases Model.setJointValue ndebug a fuel (m.setNode name (ModelNode.joint j1)) name
      (a.mul j1.jointValue f) with
  | none => rfl
  | some r =>
    cases r with
    | error e => rfl
    | ok m1 => rfl

/-- C2 as stated fails: the joint `J` with the limits `[-100, 100]`, so that
`lower <= upper`, coupled to itself with the factor 2.  `setJointValue(3)` with the finite
value 3 stores `max(lower, min(upper, 3)) = 3` and then goes on as `setJointValue(6)` on
the same joint, which overwrites the value; the call does not return whatever the depth
of calls, so that no call ends with the value 3 stored. -/
theorem ModelJoint.setJointValue_self_coupled_no_return :
    Flt.le (coupledJoint [("J", Flt.fin 2)]).jointLimitLo
      (coupledJoint [("J", Flt.fin 2)]).jointLimitHi = true ∧
    (Flt.fin 3).isFinite = true ∧
    selfCoupledModel (Flt.fin 2) "J" = some (ModelNode.joint (coupledJoint [("J", Flt.fin 2)])) ∧
    (∀ fuel : Nat, Model.setJointValue false exactArith (fuel + 1) (selfCoupledModel (Flt.fin 2))
        "J" (Flt.fin 3) =
      Model.setJointValue false exactArith fuel
        ((selfCoupledModel (Flt.fin 2)).setNode "J"
          (ModelNode.joint { coupledJoint [("J", Flt.fin 2)] with jointValue := Flt.fin 3 }))
        "J" (Flt.fin 6)) ∧
    (∀ fuel : Nat, Model.valueAfter (Model.setJointValue false exactArith fuel
        (selfCoupledModel (Flt.fin 2)) "J" (Flt.fin 3)) "J" = none) ∧
    (∀ (fuel : Nat) (m1 : Model), Model.setJointValue false exactArith fuel
        (selfCoupledModel (Flt.fin 2)) "J" (Flt.fin 3) ≠ some (.ok m1)) := by
  have hno := fun (fuel : Nat) (m1 : Model) =>
    Model.setJointValue_self_coupled false exactArith "J" (Flt.fin 2) fuel
      (selfCoupledModel (Flt.fin 2)) (coupledJoint [("J", Flt.fin 2)]) (Flt.fin 3) rfl rfl m1
  refine ⟨by decide, by decide, rfl, ?_, ?_, hno⟩
  · intro fuel
    have hw : (coupledJoint [("J", Flt.fin 2)]).setJointValueNoUpdate false (Flt.fin 3) =
        .ok { coupledJoint [("J", Flt.fin 2)] with jointValue := Flt.fin 3 } := by
      rw [ModelJoint.setJointValueNoUpdate_of_valid _ _ _ (Or.inr (by decide))]
      congr 1
    have h6 : exactArith.mul
        ({ coupledJoint [("J", Flt.fin 2)] with jointValue := Flt.fin 3 } : ModelJoint).jointValue
        (Flt.fin 2) = Flt.fin 6 := by
      show Flt.mul (Flt.fin 3) (Flt.fin 2) = Flt.fin 6
      simp only [Flt.mul]
      norm_num
    rw [Model.setJointValue_self_coupled_step false exactArith "J" (Flt.fin 2) fuel
      (selfCoupledModel (Flt.fin 2)) (coupledJoint [("J", Flt.fin 2)]) _ (Flt.fin 3) rfl rfl hw,
      h6]
  · intro fuel
    cases hr : Model.setJointValue false exactArith fuel (selfCoupledModel (Flt.fin 2)) "J"
        (Flt.fin 3) with
    | none => rfl
    | some r =>
      cases r with
      | error e => rfl
      | ok m1 => exact absurd hr (hno fuel m1)

/-- For a joint without coupling entries `setJointValue` is the write of
`setJointValueNoUpdate` on this joint: the loop of `updatePoseInternally` has no entry,
and no other node of the model changes. -/
theorem Model.setJointValue_no_coupling (ndebug : Bool) (a : Arith) (fuel : Nat) (m : Model)
    (name : String) (j : ModelJoint) (q : Flt) (hn : m name = some (ModelNode.joint j))
    (hleaf : j.propagatedJointValues = []) :
    Model.setJointValue ndebug a (fuel + 1) m name q =
      match j.setJointValueNoUpdate ndebug q with
      | .ok j1 => some (.ok (m.setNode name (ModelNode.joint j1)))
      | .error e => some (.error e) := by
  unfold Model.setJointValue updatePose
  rw [hn]
  dsimp only
  cases hw : j.setJointValueNoUpdate ndebug q with
  | error e => rfl
  | ok j1 =>
    obtain ⟨-, hj1⟩ := (ModelJoint.setJointValueNoUpdate_ok_iff ndebug j q j1).1 hw
    have hc1 : j1.propagatedJointValues = [] := by
      rw [hj1]
      exact hleaf
    dsimp only
    rw [hc1]
    rfl

/-- Calls of `setJointValue` and `setJointLimits` add no coupling entry: a joint that
holds none, as the constructor makes it, holds none after the calls. -/
theorem ModelJoint.runOps_no_coupling (ndebug : Bool) :
    ∀ (ops : List JointOp) (j j1 : ModelJoint), j.propagatedJointValues = [] →
      ModelJoint.runOps ndebug j ops = .ok j1 → j1.propagatedJointValues = [] := by
  intro ops
  induction ops with
  | nil =>
    intro j j1 hj h
    cases h
    exact hj
  | cons op ops ih =>
    intro j j1 hj h
    rw [ModelJoint.runOps] at h
    cases hs : j.step ndebug op with
    | error e =>
      rw [hs] at h
      cases h
    | ok j2 =>
      rw [hs] at h
      refine ih j2 j1 ?_ h
      cases op with
      | setJointValue q =>
        obtain ⟨-, hj2⟩ := (ModelJoint.setJointValueNoUpdate_ok_iff ndebug j q j2).1 hs
        rw [hj2]
        exact hj
      | setJointLimits lo hi =>
        cases hs
        exact hj

end VirtualRobot
